import Mathlib

/-!
# Self-signed certificate tool

A shallow embedding of `internal/self-sign-cert.go`: certificate generation, rotation of
old artifacts into `certificate/old` with its retention step, the four artifact writes and
the trust-store import, followed by the properties the specification states about them.

The Go program talks to the operating system; the embedding passes the world explicitly.

* `World` holds the two directories the program lists (`certificate` and
  `certificate/old`), the files at any other path, a counter of clock readings and the
  trace of every call that leaves the process (file-system calls, external commands,
  printed lines).
* `Env` holds everything the program does not decide: the outcome of the key generator, the
  wall clock and the time zone, the umask, which system calls fail for reasons outside the
  directory contents (permissions, locks, full disk), the library sort and the external
  commands.

File contents are symbolic: a PEM block is a constructor applied to the structure it
encodes, which is how the injective encodings `x509.CreateCertificate`,
`x509.MarshalECPrivateKey` and `pem.EncodeToMemory` are represented.

A path given to `os.WriteFile` or `os.ReadFile` is cleaned as `filepath.Join` cleans it and
then leads to an entry of `certificate`, to an entry of `certificate/old` or to a file
elsewhere, so a certificate name that holds a separator or `..` names a file outside
`certificate`. The mode of a new file is the permission argument with the bits of the umask
cleared; an existing file keeps its mode.

What the model leaves out:

* Windows volume names and symbolic links are not read, and whether a file elsewhere can be
  written is left to the environment;
* names are compared exactly, as on a case-sensitive file system;
* a system call that fails changes nothing on disk (a failing write fails before it creates
  or truncates its target), and an external command changes no file;
* the program runs alone: nothing else touches the files during or between runs.
-/

namespace SelfSignCert

/-! ## Certificates and file contents -/

/-- Go `pkix.Name`, restricted to the field the program sets. -/
structure PkixName where
  organization : List String
deriving DecidableEq, Repr

/-- Go `ecdsa.PublicKey`: the curve and the coordinates of the point. -/
structure ECPublicKey where
  curve : String
  x : Nat
  y : Nat
deriving DecidableEq, Repr

/-- Go `ecdsa.PrivateKey`: the embedded public key and the secret scalar `D`. -/
structure ECPrivateKey where
  publicKey : ECPublicKey
  d : Nat
deriving DecidableEq, Repr

/-- Go `x509.Certificate`, with the fields the program sets in its template and the fields
`x509.CreateCertificate` fills in (issuer, public key, signer). Times are instants counted
in nanoseconds. -/
structure Certificate where
  serialNumber : Int
  issuer : PkixName
  subject : PkixName
  notBefore : Nat
  notAfter : Nat
  keyUsage : Nat
  extKeyUsage : List Nat
  basicConstraintsValid : Bool
  dnsNames : List String
  publicKey : Option ECPublicKey
  signedBy : Option ECPublicKey
deriving DecidableEq, Repr

/-- The DER structures the program produces. -/
inductive DER where
  | certificate (c : Certificate)
  | ecPrivateKey (k : ECPrivateKey)
deriving DecidableEq, Repr

/-- A byte sequence: either uninterpreted bytes or the PEM encoding of a block
(`pem.EncodeToMemory(&pem.Block{Type, Bytes})`). -/
inductive Blob where
  | raw (bytes : List Nat)
  | pem (blockType : String) (der : DER)
deriving DecidableEq, Repr

/-- `x509.KeyUsageDigitalSignature`. -/
def KeyUsageDigitalSignature : Nat := 1

/-- `x509.KeyUsageKeyEncipherment`. -/
def KeyUsageKeyEncipherment : Nat := 4

/-- `x509.ExtKeyUsageServerAuth`. -/
def ExtKeyUsageServerAuth : Nat := 1

/-- `time.Hour` in nanoseconds. -/
def timeHour : Nat := 3600 * 1000000000

/-! ## Directory entries, the world and its environment -/

/-- One entry of a directory listing. `mode` holds the permission bits the system records
for the entry; `modTime` is the modification time that `DirEntry.Info().ModTime()` reports.
The modification time of a directory entry is never read for `certificate/old` itself and is
not updated by the model. -/
structure Entry where
  name : String
  isDir : Bool
  content : Blob
  mode : Nat
  modTime : Nat
deriving DecidableEq, Repr

/-- Every call that leaves the process, in the order it is made. -/
inductive Event where
  | generateKey
  | createCertificate
  | marshalECPrivateKey
  | mkdirAll (path : String) (perm : Nat)
  | stat (path : String)
  | readDir (path : String)
  | rename (oldpath newpath : String)
  | remove (path : String)
  | writeFile (path : String) (perm : Nat)
  | readFile (path : String)
  | exec (name : String) (args : List String)
  | print (text : String)
  | logPrint (text : String)
deriving DecidableEq, Repr

/-- The two directories of the program. -/
inductive Dir where
  | cert
  | old
deriving DecidableEq, Repr

/-- The state of the world: the entries directly inside `certificate` (`none` when the
directory does not exist), the entries directly inside `certificate/old`, the files at any
other path (each named by its cleaned path), the number of clock readings made so far and
the trace of calls. -/
structure World where
  certDir : Option (List Entry)
  oldDir : Option (List Entry)
  outside : List Entry
  tick : Nat
  trace : List Event
deriving DecidableEq, Repr

/-- The calendar fields of an instant in the local time zone. -/
structure LocalTime where
  year : Nat
  month : Nat
  day : Nat
  hour : Nat
  minute : Nat
  second : Nat
deriving DecidableEq, Repr

/-- The result of `exec.Cmd.CombinedOutput`: the error (a non-zero exit status or a command
that could not be started) and the combined standard output and standard error. -/
structure CmdResult where
  err : Option String
  output : String
deriving DecidableEq, Repr

/-- Everything the program does not decide. An error oracle returns the text of the error
the call fails with, `none` when the environment lets the call through. -/
structure Env where
  /-- The program was built for Windows (`filepath.Separator` is a backslash). -/
  windows : Bool
  /-- The instant returned by the clock at its `k`-th reading. -/
  clock : Nat → Nat
  /-- The calendar fields of an instant in the local time zone. -/
  localTime : Nat → LocalTime
  /-- The file mode creation mask of the process (not used on Windows). -/
  umask : Nat
  /-- The result of `ecdsa.GenerateKey(elliptic.P256(), rand.Reader)`. -/
  generateKey : Except String ECPrivateKey
  /-- The failure of `x509.CreateCertificate`, if any. -/
  createCertificateErr : Option String
  /-- The failure of `x509.MarshalECPrivateKey`, if any. -/
  marshalErr : Option String
  /-- Whether `os.MkdirAll` fails. -/
  mkdirAllErr : Bool
  /-- The failure of `os.ReadDir` on a directory. -/
  readDirErr : Dir → Option String
  /-- The failure of `os.Rename` for a file name. -/
  renameErr : String → Option String
  /-- The failure of `os.Remove` for a file name of `certificate/old`. -/
  removeErr : String → Option String
  /-- Whether `DirEntry.Info` fails for a file name of `certificate/old`. -/
  infoErr : String → Bool
  /-- The failure of `os.WriteFile` for a path. -/
  writeErr : String → Option String
  /-- The failure of `os.ReadFile` for a path. -/
  readFileErr : String → Option String
  /-- The library routine `sort.Slice`, applied to a comparison and a slice. -/
  sortSlice : (Entry → Entry → Bool) → List Entry → List Entry
  /-- The outcome of running `powershell -Command script`. -/
  powershell : String → CmdResult

/-- The contract of `sort.Slice`: the slice is permuted, and when the comparison is a strict
weak ordering on the elements of the slice (asymmetric, and "if both Less(i, j) and
Less(j, k) are false, then Less(i, k) must be false as well") no element is less than one
placed before it. Nothing is promised about the order of elements that compare equal. -/
structure SortSliceSpec (sort : (Entry → Entry → Bool) → List Entry → List Entry) : Prop where
  perm : ∀ less l, (sort less l).Perm l
  sorted : ∀ less l,
    (∀ a ∈ l, ∀ b ∈ l, less a b = true → less b a = false) →
    (∀ a ∈ l, ∀ b ∈ l, ∀ c ∈ l, less a b = false → less b c = false → less a c = false) →
    (sort less l).Pairwise (fun a b => less b a = false)

/-- A sort that meets the contract of `sort.Slice`: insertion sort. -/
def insertionSortSlice (less : Entry → Entry → Bool) (l : List Entry) : List Entry :=
  l.insertionSort (fun a b => less b a = false)

/-- Append an event to the trace. -/
def World.emit (w : World) (e : Event) : World :=
  { w with trace := w.trace ++ [e] }

/-- The entries of a directory. -/
def World.dir (w : World) : Dir → Option (List Entry)
  | .cert => w.certDir
  | .old => w.oldDir

/-! ## Library functions on names -/

/-- Go `os.IsPathSeparator`. -/
def isPathSeparator (windows : Bool) (c : Char) : Bool :=
  c == '/' || (windows && c == Char.ofNat 92)

/-- Go `filepath.Separator`. -/
def separatorChar (windows : Bool) : Char :=
  if windows then Char.ofNat 92 else '/'

/-- Go `filepath.Separator` as a string. -/
def pathSeparator (windows : Bool) : String :=
  String.mk [separatorChar windows]

/-- The elements of a path: the runs of characters between separators. -/
def splitPath (sep : Char → Bool) : List Char → List (List Char)
  | [] => [[]]
  | c :: rest =>
    if sep c then [] :: splitPath sep rest
    else
      match splitPath sep rest with
      | [] => [[c]]
      | e :: es => (c :: e) :: es

/-- The pass of Go `filepath.Clean` over the elements of a path, `acc` holding the elements
kept so far, last first: empty elements and `.` are dropped, `..` removes the element before
it, is dropped at the root of a rooted path and is kept at the start of a relative one. -/
def cleanElems (rooted : Bool) : List (List Char) → List (List Char) → List (List Char)
  | [], acc => acc.reverse
  | e :: rest, acc =>
    if e = [] ∨ e = ['.'] then cleanElems rooted rest acc
    else if e = ['.', '.'] then
      match acc with
      | [] => if rooted then cleanElems rooted rest [] else cleanElems rooted rest [e]
      | top :: below =>
        if top = ['.', '.'] then cleanElems rooted rest (e :: acc) else cleanElems rooted rest below
    else cleanElems rooted rest (e :: acc)

/-- A path is rooted when it starts with a separator. -/
def isRooted (windows : Bool) : List Char → Bool
  | [] => false
  | c :: _ => isPathSeparator windows c

/-- The elements joined by the separator. -/
def joinElems (sepc : Char) : List (List Char) → List Char
  | [] => []
  | e :: rest =>
    match rest with
    | [] => e
    | _ :: _ => e ++ sepc :: joinElems sepc rest

/-- The text of a cleaned path: the separator first when it is rooted, `.` when it is
relative and has no element. -/
def renderPath (windows rooted : Bool) (elems : List (List Char)) : List Char :=
  if rooted then separatorChar windows :: joinElems (separatorChar windows) elems
  else if elems = [] then ['.']
  else joinElems (separatorChar windows) elems

/-- Go `filepath.Clean`. -/
def filepathClean (windows : Bool) (path : String) : String :=
  String.mk (renderPath windows (isRooted windows path.toList)
    (cleanElems (isRooted windows path.toList) (splitPath (isPathSeparator windows) path.toList) []))

/-- Go `filepath.Join` of two elements: "Empty elements are ignored. The result is Cleaned.
However, if the argument list is empty or all its elements are empty, Join returns an empty
string." -/
def filepathJoin (env : Env) (dir elem : String) : String :=
  if dir = "" then (if elem = "" then "" else filepathClean env.windows elem)
  else if elem = "" then filepathClean env.windows dir
  else filepathClean env.windows (dir ++ pathSeparator env.windows ++ elem)

/-- Where a path leads: to an entry of `certificate`, to an entry of `certificate/old`, or
to a file elsewhere, named by its cleaned path. -/
inductive Place where
  | cert (name : String)
  | old (name : String)
  | outside (path : String)
deriving DecidableEq, Repr

/-- The place of a cleaned path, read from the directory in which the program runs. -/
def placeOf (windows rooted : Bool) (elems : List (List Char)) : Place :=
  if rooted then .outside (String.mk (renderPath windows rooted elems))
  else
    match elems with
    | [c, n] =>
      if c = "certificate".toList then .cert (String.mk n)
      else .outside (String.mk (renderPath windows rooted elems))
    | [c, o, n] =>
      if c = "certificate".toList ∧ o = "old".toList then .old (String.mk n)
      else .outside (String.mk (renderPath windows rooted elems))
    | _ => .outside (String.mk (renderPath windows rooted elems))

/-- The place a path given to a system call leads to. -/
def locate (env : Env) (path : String) : Place :=
  placeOf env.windows (isRooted env.windows path.toList)
    (cleanElems (isRooted env.windows path.toList)
      (splitPath (isPathSeparator env.windows) path.toList) [])

/-- The decimal digit of the units of a number. -/
def digitChar (d : Nat) : Char :=
  Char.ofNat (48 + d % 10)

/-- The decimal digits of a number, the most significant first; `fuel` bounds their count. -/
def decimalDigits : Nat → Nat → List Char
  | 0, _ => []
  | fuel + 1, n => if n < 10 then [digitChar n] else decimalDigits fuel (n / 10) ++ [digitChar n]

/-- A number in decimal, padded with zeros on the left to the given width. -/
def zeroPad (width n : Nat) : List Char :=
  List.replicate (width - (decimalDigits (n + 1) n).length) '0' ++ decimalDigits (n + 1) n

/-- Go `Time.Format("20060102_150405")`: year, month, day, an underscore, hour, minute and
second, in decimal with leading zeros. -/
def formatTimestamp (t : LocalTime) : String :=
  String.mk (zeroPad 4 t.year ++ zeroPad 2 t.month ++ zeroPad 2 t.day ++ '_' ::
    (zeroPad 2 t.hour ++ zeroPad 2 t.minute ++ zeroPad 2 t.second))

/-- The loop of Go `filepath.Ext`, run over the reversed path: `acc` holds the characters
already passed. It stops with no extension at a path separator and returns the suffix that
starts at the first dot it meets. -/
def extScan (sep : Char → Bool) : List Char → List Char → List Char
  | [], _ => []
  | c :: rest, acc =>
    if sep c then [] else if c == '.' then '.' :: acc else extScan sep rest (c :: acc)

/-- Go `filepath.Ext`. -/
def filepathExt (windows : Bool) (path : String) : String :=
  String.mk (extScan (isPathSeparator windows) path.toList.reverse [])

/-- Go `unicode.ToLower` on the runes whose lower case is an ASCII letter: `A`-`Z`, the
Kelvin sign U+212A and U+0130. Every other rune with a case mapping has a lower case outside
ASCII and is kept as it is, which does not change whether the lowered string equals one of
the ASCII extensions it is compared with. -/
def toLowerRune (c : Char) : Char :=
  if 65 ≤ c.toNat ∧ c.toNat ≤ 90 then Char.ofNat (c.toNat + 32)
  else if c.toNat = 0x212A then 'k'
  else if c.toNat = 0x130 then 'i'
  else c

/-- Go `strings.ToLower`. -/
def stringsToLower (s : String) : String :=
  String.mk (s.toList.map toLowerRune)

/-- The test of `moveOldCertificates` on a file name: its lowered extension is `.crt`,
`.key` or `.pem`. -/
def hasCertExt (env : Env) (name : String) : Bool :=
  let ext := stringsToLower (filepathExt env.windows name)
  ext == ".crt" || ext == ".key" || ext == ".pem"

/-- Lexicographic comparison of two names by code point, the order of `os.ReadDir`. -/
def nameLE : List Char → List Char → Bool
  | [], _ => true
  | _ :: _, [] => false
  | a :: as, b :: bs => if a.toNat < b.toNat then true else if b.toNat < a.toNat then false else nameLE as bs

/-! ## System calls -/

/-- Go `time.Now()`: read the clock. -/
def timeNow (env : Env) (w : World) : Nat × World :=
  (env.clock w.tick, { w with tick := w.tick + 1 })

/-- The order in which `os.ReadDir` returns the entries of a directory: sorted by file
name. -/
def sortByName (l : List Entry) : List Entry :=
  l.insertionSort (fun a b => nameLE a.name.toList b.name.toList = true)

/-- Go `os.ReadDir`: the entries of the directory sorted by file name. -/
def osReadDir (env : Env) (d : Dir) (path : String) (w : World) : Except String (List Entry) × World :=
  let w := w.emit (.readDir path)
  match env.readDirErr d with
  | some e => (.error e, w)
  | none =>
    match w.dir d with
    | none => (.error ("open " ++ path ++ ": no such file or directory"), w)
    | some l => (.ok (sortByName l), w)

/-- Go `os.Rename(certDir/name, oldCertDir/name)` for a regular file of `certificate`. A
regular file already in `certificate/old` under that name is replaced ("If newpath already
exists and is not a directory, Rename replaces it"); the call fails when that name is a
directory there. The moved entry keeps its content, mode and modification time. The name
comes from a listing of `certificate`, so it is a single path element. -/
def osRename (env : Env) (oldpath newpath name : String) (w : World) : Option String × World :=
  let w := w.emit (.rename oldpath newpath)
  match env.renameErr name with
  | some e => (some e, w)
  | none =>
    match w.certDir, w.oldDir with
    | some work, some old =>
      match work.find? (fun e => e.name == name) with
      | none => (some ("rename " ++ oldpath ++ " " ++ newpath ++ ": no such file or directory"), w)
      | some f =>
        match old.find? (fun e => e.name == name) with
        | some g =>
          if g.isDir then
            (some ("rename " ++ oldpath ++ " " ++ newpath ++ ": file exists"), w)
          else
            (none, { w with
              certDir := some (work.filter (fun e => e.name != name)),
              oldDir := some (old.map (fun e => if e.name == name then f else e)) })
        | none =>
          (none, { w with
            certDir := some (work.filter (fun e => e.name != name)),
            oldDir := some (old ++ [f]) })
    | _, _ => (some ("rename " ++ oldpath ++ " " ++ newpath ++ ": no such file or directory"), w)

/-- Go `os.Remove(oldCertDir/name)`, the name being one of a listing of `certificate/old`. -/
def osRemove (env : Env) (path name : String) (w : World) : Option String × World :=
  let w := w.emit (.remove path)
  match env.removeErr name with
  | some e => (some e, w)
  | none =>
    match w.oldDir with
    | none => (some ("remove " ++ path ++ ": no such file or directory"), w)
    | some old =>
      if old.any (fun e => e.name == name) then
        (none, { w with oldDir := some (old.filter (fun e => e.name != name)) })
      else
        (some ("remove " ++ path ++ ": no such file or directory"), w)

/-- The mode the system records for a regular file created with the permission argument
`perm`: the bits of `perm` that the umask does not clear; on Windows `0666`, or `0444` when
`perm` lacks the owner write bit. -/
def createMode (env : Env) (perm : Nat) : Nat :=
  if env.windows then (if perm &&& 0o200 = 0 then 0o444 else 0o666)
  else perm ^^^ (perm &&& env.umask)

/-- The mode the system records for a directory created with the permission argument `perm`:
the bits of `perm` that the umask does not clear; on Windows `0777`. -/
def createDirMode (env : Env) (perm : Nat) : Nat :=
  if env.windows then 0o777 else perm ^^^ (perm &&& env.umask)

/-- The effect of a write on the listing that holds its target: "If the file does not exist,
WriteFile creates it with permissions perm (before umask); otherwise WriteFile truncates it
before writing, without changing permissions." There is no result when the target is a
directory. -/
def writeEntry (env : Env) (l : List Entry) (name : String) (data : Blob) (perm now : Nat) :
    Option (List Entry) :=
  match l.find? (fun e => e.name == name) with
  | some g =>
    if g.isDir then none
    else some (l.map (fun e => if e.name == name then { e with content := data, modTime := now } else e))
  | none =>
    some (l ++ [{ name := name, isDir := false, content := data, mode := createMode env perm,
                  modTime := now }])

/-- Go `os.WriteFile(path, data, perm)`. The target is the place the path leads to; the
write reads the clock for the modification time. A failing write is taken to leave every
file as it was. -/
def osWriteFile (env : Env) (path : String) (data : Blob) (perm : Nat) (w : World) :
    Option String × World :=
  let w := w.emit (.writeFile path perm)
  match env.writeErr path with
  | some e => (some e, w)
  | none =>
    match locate env path with
    | .cert name =>
      match w.certDir with
      | none => (some ("open " ++ path ++ ": no such file or directory"), w)
      | some work =>
        match writeEntry env work name data perm (env.clock w.tick) with
        | none => (some ("open " ++ path ++ ": is a directory"), w)
        | some work1 => (none, { w with certDir := some work1, tick := w.tick + 1 })
    | .old name =>
      match w.oldDir with
      | none => (some ("open " ++ path ++ ": no such file or directory"), w)
      | some old =>
        match writeEntry env old name data perm (env.clock w.tick) with
        | none => (some ("open " ++ path ++ ": is a directory"), w)
        | some old1 => (none, { w with oldDir := some old1, tick := w.tick + 1 })
    | .outside p =>
      match writeEntry env w.outside p data perm (env.clock w.tick) with
      | none => (some ("open " ++ path ++ ": is a directory"), w)
      | some out1 => (none, { w with outside := out1, tick := w.tick + 1 })

/-- The content of a regular file of a listing. -/
def readEntry (l : List Entry) (name path : String) : Except String Blob :=
  match l.find? (fun e => e.name == name) with
  | some g => if g.isDir then .error ("read " ++ path ++ ": is a directory") else .ok g.content
  | none => .error ("open " ++ path ++ ": no such file or directory")

/-- Go `os.ReadFile(path)`. -/
def osReadFile (env : Env) (path : String) (w : World) : Except String Blob × World :=
  let w := w.emit (.readFile path)
  match env.readFileErr path with
  | some e => (.error e, w)
  | none =>
    match locate env path with
    | .cert name =>
      match w.certDir with
      | none => (.error ("open " ++ path ++ ": no such file or directory"), w)
      | some work => (readEntry work name path, w)
    | .old name =>
      match w.oldDir with
      | none => (.error ("open " ++ path ++ ": no such file or directory"), w)
      | some old => (readEntry old name path, w)
    | .outside p => (readEntry w.outside p path, w)

/-- Go `os.MkdirAll(oldCertDir, perm)` with its error discarded, as the program calls it:
`certificate` and `certificate/old` are created when missing. Nothing changes when the call
fails or when `certificate` already has an entry named `old`; the entries of an existing
`old` are never touched. -/
def osMkdirAll (env : Env) (path : String) (perm : Nat) (w : World) : World :=
  let w := w.emit (.mkdirAll path perm)
  if env.mkdirAllErr then w
  else
    let oldEntry : Entry :=
      { name := "old", isDir := true, content := .raw [], mode := createDirMode env perm,
        modTime := env.clock w.tick }
    match w.certDir with
    | none => { w with certDir := some [oldEntry], oldDir := some (w.oldDir.getD []), tick := w.tick + 1 }
    | some work =>
      match work.find? (fun e => e.name == "old") with
      | some _ => w
      | none =>
        { w with certDir := some (work ++ [oldEntry]), oldDir := some (w.oldDir.getD []), tick := w.tick + 1 }

/-- Go `exec.Command("powershell", "-Command", script).CombinedOutput()`. -/
def runPowershell (env : Env) (script : String) (w : World) : CmdResult × World :=
  (env.powershell script, w.emit (.exec "powershell" ["-Command", script]))

/-- Go `fmt.Printf` and `fmt.Println`. -/
def fmtPrint (text : String) (w : World) : World :=
  w.emit (.print text)

/-! ## Certificate generation -/

/-- Go `x509.CreateCertificate(rand, template, parent, pub, priv)`: the certificate takes
its subject and extensions from the template, its issuer from the subject of the parent, its
public key from `pub`, and is signed by `priv`. -/
def x509CreateCertificate (env : Env) (template parent : Certificate) (pub : ECPublicKey)
    (priv : ECPrivateKey) : Except String DER :=
  match env.createCertificateErr with
  | some e => .error e
  | none =>
    .ok (.certificate { template with
      issuer := parent.subject, publicKey := some pub, signedBy := some priv.publicKey })

/-- Go `x509.MarshalECPrivateKey`. -/
def x509MarshalECPrivateKey (env : Env) (priv : ECPrivateKey) : Except String DER :=
  match env.marshalErr with
  | some e => .error e
  | none => .ok (.ecPrivateKey priv)

/-- The function `GenerateSelfSignedCertificate`: the PEM of a certificate and the PEM of its
private key. -/
def GenerateSelfSignedCertificate (env : Env) (orgNames dnsNames : List String) (w : World) :
    Except String (Blob × Blob) × World :=
  let w := w.emit .generateKey
  match env.generateKey with
  | .error e => (.error ("failed to generate ECDSA private key: " ++ e), w)
  | .ok priv =>
    let (notBefore, w) := timeNow env w
    let notAfter := notBefore + 365 * 24 * timeHour
    let template : Certificate :=
      { serialNumber := 1
        issuer := { organization := [] }
        subject := { organization := orgNames }
        notBefore := notBefore
        notAfter := notAfter
        keyUsage := KeyUsageKeyEncipherment ||| KeyUsageDigitalSignature
        extKeyUsage := [ExtKeyUsageServerAuth]
        basicConstraintsValid := true
        dnsNames := dnsNames
        publicKey := none
        signedBy := none }
    let w := w.emit .createCertificate
    match x509CreateCertificate env template template priv.publicKey priv with
    | .error e => (.error ("failed to create certificate: " ++ e), w)
    | .ok certDER =>
      let w := w.emit .marshalECPrivateKey
      match x509MarshalECPrivateKey env priv with
      | .error e => (.error e, w)
      | .ok key => (.ok (.pem "CERTIFICATE" certDER, .pem "EC PRIVATE KEY" key), w)

/-! ## Rotation of old certificates -/

/-- The loop of `moveOldCertificates` over the listing of `certificate`: directories are
skipped, files whose lowered extension is `.crt`, `.key` or `.pem` are renamed into
`certificate/old`, and the first failing rename ends the function. -/
def moveLoop (env : Env) (certDir oldCertDir : String) : List Entry → World → Option String × World
  | [], w => (none, w)
  | file :: rest, w =>
    if file.isDir then moveLoop env certDir oldCertDir rest w
    else if hasCertExt env file.name then
      let sourceFilePath := filepathJoin env certDir file.name
      let destFilePath := filepathJoin env oldCertDir file.name
      match osRename env sourceFilePath destFilePath file.name w with
      | (some err, w) =>
        (some ("failed to move file '" ++ sourceFilePath ++ "' to '" ++ destFilePath ++ "': " ++ err), w)
      | (none, w) => moveLoop env certDir oldCertDir rest w
    else moveLoop env certDir oldCertDir rest w

/-- The comparison given to `sort.Slice`: when the file info of either entry cannot be read
the two are treated as equal, otherwise the earlier modification time is less. -/
def lessByModTime (env : Env) (a b : Entry) : Bool :=
  if env.infoErr a.name || env.infoErr b.name then false
  else decide (a.modTime < b.modTime)

/-- The function `moveOldCertificates(certDir, oldCertDir)`. The first path stands for the
directory `World.certDir`, the second for `World.oldDir`. -/
def moveOldCertificates (env : Env) (certDir oldCertDir : String) (w : World) : Option String × World :=
  let w := w.emit (.stat certDir)
  match w.certDir with
  | none => (none, w)
  | some _ =>
    match osReadDir env .cert certDir w with
    | (.error e, w) => (some ("failed to read certificate directory: " ++ e), w)
    | (.ok files, w) =>
      match moveLoop env certDir oldCertDir files w with
      | (some e, w) => (some e, w)
      | (none, w) =>
        match osReadDir env .old oldCertDir w with
        | (.error e, w) => (some ("failed to read old certificate directory: " ++ e), w)
        | (.ok oldFiles, w) =>
          if oldFiles.length > 100 then
            match env.sortSlice (lessByModTime env) oldFiles with
            | [] => (some "index out of range [0] with length 0", w)
            | oldestFile :: _ =>
              let oldestFilePath := filepathJoin env oldCertDir oldestFile.name
              match osRemove env oldestFilePath oldestFile.name w with
              | (some e, w) =>
                (some ("failed to delete oldest file '" ++ oldestFilePath ++ "': " ++ e), w)
              | (none, w) => (none, w.emit (.logPrint ("Deleted the oldest file: " ++ oldestFilePath)))
          else (none, w)

/-! ## Trust store -/

/-- The script that `RemoveCertificateFromCurrentUser` runs for one organization name. -/
def removeScript (org : String) : String :=
  "$subjectName = \"" ++ org ++ "\"\n\t\t\t\t$certificates = Get-ChildItem -Path Cert:\\CurrentUser\\Root | Where-Object \x7b$_.Subject -like \"*$subjectName*\"\x7d\n\t\t\t\tforeach ($cert in $certificates) \x7b\n\t\t\t\t\tRemove-Item -Path $cert.PSPath -Force\n\t\t\t\t\x7d"

/-- The function `RemoveCertificateFromCurrentUser`: one command per organization name, the
first failing command ends the function. -/
def RemoveCertificateFromCurrentUser (env : Env) : List String → World → Option String × World
  | [], w => (none, w)
  | org :: rest, w =>
    match runPowershell env (removeScript org) w with
    | (r, w) =>
      match r.err with
      | some e =>
        (some ("failed to remove certificate for '" ++ org ++ "' from CurrentUser CA store: "
          ++ e ++ ", output: " ++ r.output), w)
      | none => RemoveCertificateFromCurrentUser env rest w

/-- The script that `AddCertificateToWindowsCAStore` runs. -/
def importScript (certFilePath : String) : String :=
  "Import-Certificate -FilePath '" ++ certFilePath ++ "' -CertStoreLocation Cert:\\\\CurrentUser\\\\Root"

/-- The function `AddCertificateToWindowsCAStore`. -/
def AddCertificateToWindowsCAStore (env : Env) (certName : String) (orgNames : List String)
    (certPEM : Blob) (w : World) : Option String × World :=
  match RemoveCertificateFromCurrentUser env orgNames w with
  | (some e, w) => (some e, w)
  | (none, w) =>
    let certDir := "certificate"
    let (now, w) := timeNow env w
    let timestamp := formatTimestamp (env.localTime now)
    let certFileName := certName ++ "_ca_" ++ timestamp ++ ".pem"
    let certFilePath := filepathJoin env certDir certFileName
    match osWriteFile env certFilePath certPEM 0o644 w with
    | (some e, w) => (some e, w)
    | (none, w) =>
      match runPowershell env (importScript certFilePath) w with
      | (r, w) =>
        match r.err with
        | some e =>
          (some ("failed to add certificate to Windows CA store: " ++ e ++ ", output: " ++ r.output), w)
        | none => (none, w)

/-! ## Loading the pair back -/

/-- Go `tls.X509KeyPair`: the two blocks must be a certificate and an EC private key whose
public keys agree. -/
def tlsX509KeyPair (certPEM keyPEM : Blob) : Option String :=
  match certPEM, keyPEM with
  | .pem "CERTIFICATE" (.certificate c), .pem "EC PRIVATE KEY" (.ecPrivateKey k) =>
    if c.publicKey = some k.publicKey then none
    else some "tls: private key does not match public key"
  | .pem "CERTIFICATE" (.certificate _), _ => some "tls: failed to find any PEM data in key input"
  | _, _ => some "tls: failed to find any PEM data in certificate input"

/-- The function `loadTLSConfig`. -/
def loadTLSConfig (env : Env) (certFileName keyFileName : String) (w : World) :
    Option String × World :=
  match osReadFile env certFileName w with
  | (.error e, w) => (some ("failed to read certificate file: " ++ e), w)
  | (.ok certPEM, w) =>
    match osReadFile env keyFileName w with
    | (.error e, w) => (some ("failed to read key file: " ++ e), w)
    | (.ok keyPEM, w) =>
      match tlsX509KeyPair certPEM keyPEM with
      | some e => (some ("failed to parse certificate and key: " ++ e), w)
      | none => (none, fmtPrint "TLS configuration loaded successfully.\n" w)

/-! ## The whole run -/

/-- The return statement that ends `CreateSelfSignedCertificateFile`. The Go function returns
nothing; the model returns this tag next to the final world. `writeError k` is the failure
of the `k`-th of the four writes. -/
inductive Exit where
  | generateError
  | moveError
  | writeError (k : Nat)
  | caStoreError
  | tlsConfigError
  | done
deriving DecidableEq, Repr

/-- The function `CreateSelfSignedCertificateFile`. -/
def CreateSelfSignedCertificateFile (env : Env) (certName : String) (orgNames dnsNames : List String)
    (w : World) : Exit × World :=
  let certName := if certName == "" then "localhost" else certName
  match GenerateSelfSignedCertificate env orgNames dnsNames w with
  | (.error err, w) =>
    (.generateError, fmtPrint ("Error generating self-signed certificate: " ++ err ++ "\n") w)
  | (.ok (cert, privKey), w) =>
    let certDir := "certificate"
    let oldCertDir := filepathJoin env certDir "old"
    let w := osMkdirAll env oldCertDir 0o700 w
    match moveOldCertificates env certDir oldCertDir w with
    | (some err, w) => (.moveError, fmtPrint ("Error moving old certificates: " ++ err ++ "\n") w)
    | (none, w) =>
      let (now, w) := timeNow env w
      let timestamp := formatTimestamp (env.localTime now)
      let certFileName := filepathJoin env certDir (certName ++ "_" ++ timestamp ++ ".crt")
      let keyFileName := filepathJoin env certDir (certName ++ "_" ++ timestamp ++ ".key")
      match osWriteFile env certFileName cert 0o644 w with
      | (some err, w) =>
        (.writeError 1, fmtPrint ("Error writing certificate to file: " ++ err ++ "\n") w)
      | (none, w) =>
        match osWriteFile env keyFileName privKey 0o600 w with
        | (some err, w) =>
          (.writeError 2, fmtPrint ("Error writing private key to file: " ++ err ++ "\n") w)
        | (none, w) =>
          let defaultCertFileName := filepathJoin env certDir (certName ++ ".crt")
          let defaultKeyFileName := filepathJoin env certDir (certName ++ ".key")
          match osWriteFile env defaultCertFileName cert 0o644 w with
          | (some err, w) =>
            (.writeError 3,
              fmtPrint ("Error writing non-timestamped certificate to file: " ++ err ++ "\n") w)
          | (none, w) =>
            match osWriteFile env defaultKeyFileName privKey 0o600 w with
            | (some err, w) =>
              (.writeError 4,
                fmtPrint ("Error writing non-timestamped private key to file: " ++ err ++ "\n") w)
            | (none, w) =>
              let w := fmtPrint ("Certificate and private key have been written to '"
                ++ certFileName ++ "' and '" ++ keyFileName ++ "'\n") w
              match AddCertificateToWindowsCAStore env certName orgNames cert w with
              | (some err, w) =>
                (.caStoreError,
                  fmtPrint ("Error adding certificate to Windows CA store: " ++ err ++ "\n") w)
              | (none, w) =>
                let w := fmtPrint "Certificate successfully added to the Windows CA store.\n" w
                match loadTLSConfig env certFileName keyFileName w with
                | (some err, w) =>
                  (.tlsConfigError, fmtPrint ("Error loading TLS config: " ++ err ++ "\n") w)
                | (none, w) => (.done, w)

/-! ## Notions used to state the properties -/

/-- An entry that the rotation moves: a regular file whose lowered extension is `.crt`,
`.key` or `.pem`. -/
def movable (env : Env) (e : Entry) : Bool :=
  !e.isDir && hasCertExt env e.name

/-- The effect of a successful rename on the listing of `certificate/old`: the entry takes
the place of the one with its name, or is added. -/
def archive (old : List Entry) (f : Entry) : List Entry :=
  if old.any (fun e => e.name == f.name) then old.map (fun e => if e.name == f.name then f else e)
  else old ++ [f]

/-- A world is well formed when no directory lists a name twice. -/
def World.WF (w : World) : Prop :=
  ((w.certDir.getD []).map Entry.name).Nodup ∧ ((w.oldDir.getD []).map Entry.name).Nodup

instance (w : World) : Decidable w.WF := by
  unfold World.WF
  infer_instance

/-- The entries of `certificate`, none when the directory does not exist. -/
def World.files (w : World) : List Entry :=
  w.certDir.getD []

/-- The entries of `certificate/old`, none when the directory does not exist. -/
def World.archived (w : World) : List Entry :=
  w.oldDir.getD []

/-- The number of entries of `certificate/old`. -/
def World.oldCount (w : World) : Nat :=
  (w.oldDir.getD []).length

/-- The number of files of `certificate` that the rotation moves. -/
def World.artifactCount (env : Env) (w : World) : Nat :=
  ((w.certDir.getD []).filter (movable env)).length

/-- The listing that holds a place. -/
def World.listAt (w : World) : Place → List Entry
  | .cert _ => w.files
  | .old _ => w.archived
  | .outside _ => w.outside

/-- The name under which the listing of a place holds it. -/
def Place.key : Place → String
  | .cert name => name
  | .old name => name
  | .outside path => path

/-- The entry found at a place. -/
def World.lookup (w : World) (pl : Place) : Option Entry :=
  (w.listAt pl).find? (fun e => e.name == pl.key)

/-- A character that a single path element may hold: no separator and, on Windows, no
colon. -/
def isPlainChar (windows : Bool) (c : Char) : Bool :=
  !isPathSeparator windows c && !(windows && c == ':')

/-- A name made of such characters only: joined to a directory it names an entry of that
directory. -/
def PlainName (env : Env) (s : String) : Prop :=
  s.toList.all (isPlainChar env.windows) = true

instance (env : Env) (s : String) : Decidable (PlainName env s) := by
  unfold PlainName
  infer_instance

/-- The base name of the files of a run: `localhost` when the given name is empty. -/
def baseName (certName : String) : String :=
  if certName == "" then "localhost" else certName

/-- Every artifact file of the working directory has one of the given names. -/
def OnlyWritten (env : Env) (written : List String) (w : World) : Prop :=
  ∀ e ∈ w.files, movable env e = true → e.name ∈ written

/-- The event is a call of `os.WriteFile`. -/
def Event.isWriteFile : Event → Bool
  | .writeFile _ _ => true
  | _ => false

/-- The event is the run of an external command. -/
def Event.isExec : Event → Bool
  | .exec _ _ => true
  | _ => false

/-- The text `part` occurs inside the text `whole`. -/
def ContainsText (whole part : String) : Prop :=
  ∃ before after : String, whole = before ++ part ++ after

/-! ## Sample environments and worlds -/

/-- An environment in which no call fails: the clock reads `1000`, `1001`, ... seconds
after midnight of the first of January 2024, the umask is `022` and `sort.Slice` is an
insertion sort. -/
def calmEnv : Env where
  windows := false
  clock := fun k => 1000 + k
  localTime := fun t =>
    { year := 2024, month := 1, day := 1, hour := t / 3600 % 24, minute := t / 60 % 60, second := t % 60 }
  umask := 0o022
  generateKey := .ok { publicKey := { curve := "P-256", x := 3, y := 4 }, d := 5 }
  createCertificateErr := none
  marshalErr := none
  mkdirAllErr := false
  readDirErr := fun _ => none
  renameErr := fun _ => none
  removeErr := fun _ => none
  infoErr := fun _ => false
  writeErr := fun _ => none
  readFileErr := fun _ => none
  sortSlice := insertionSortSlice
  powershell := fun _ => { err := none, output := "" }

/-- A regular file with the given bytes and modification time. -/
def regularFile (name : String) (bytes : List Nat) (modTime : Nat) : Entry :=
  { name := name, isDir := false, content := .raw bytes, mode := 0o644, modTime := modTime }

/-- The entry of the directory `old` inside `certificate`. -/
def oldDirEntry : Entry :=
  { name := "old", isDir := true, content := .raw [], mode := 0o700, modTime := 0 }

/-- An archive of 100 files `a`, `aa`, `aaa`, ... with modification times 10, 11, ... -/
def archiveOf100 : List Entry :=
  (List.range 100).map (fun i => regularFile (String.mk (List.replicate (i + 1) 'a')) [i] (10 + i))

/-- A full archive and two artifact files in the working directory. -/
def twoArtifactsWorld : World :=
  { certDir := some [regularFile "localhost.crt" [1] 500, regularFile "localhost.key" [2] 501, oldDirEntry],
    oldDir := some archiveOf100, outside := [], tick := 0, trace := [] }

/-- A full archive and one artifact file older than every archived file. -/
def staleArtifactWorld : World :=
  { certDir := some [regularFile "localhost.crt" [1] 5, oldDirEntry],
    oldDir := some archiveOf100, outside := [], tick := 0, trace := [] }

/-- An artifact file whose name is already taken in the archive by another content. -/
def collisionWorld : World :=
  { certDir := some [regularFile "localhost.crt" [1] 500, oldDirEntry],
    oldDir := some [regularFile "localhost.crt" [2] 100], outside := [], tick := 0, trace := [] }

/-- A working directory with one artifact file, one other file and a small archive. -/
def smallWorld : World :=
  { certDir := some [regularFile "localhost.crt" [1] 500, regularFile "notes.txt" [7] 400, oldDirEntry],
    oldDir := some [regularFile "previous.crt" [2] 100], outside := [], tick := 0, trace := [] }

/-- The archive of `twoArtifactsWorld` once its two artifact files have been moved. -/
def twoArtifactsArchive : List Entry :=
  archiveOf100 ++ [regularFile "localhost.crt" [1] 500, regularFile "localhost.key" [2] 501]

/-- The world that `twoArtifactsWorld` becomes once the moves are done. -/
def twoArtifactsMoved : World :=
  { certDir := some [oldDirEntry],
    oldDir := some twoArtifactsArchive,
    outside := [],
    tick := 0,
    trace := [.stat "certificate", .readDir "certificate",
      .rename "certificate/localhost.crt" "certificate/old/localhost.crt",
      .rename "certificate/localhost.key" "certificate/old/localhost.key"] }

/-- The calm environment, except that every `os.Remove` fails. -/
def removeFailsEnv : Env :=
  { calmEnv with removeErr := fun _ => some "access is denied" }

/-- The calm environment, except that `os.Remove` fails on the name `kept`, a directory
that is not empty. -/
def dirNotEmptyEnv : Env :=
  { calmEnv with removeErr := fun n => if n == "kept" then some "remove certificate/old/kept: directory not empty" else none }

/-- An archive of 100 files and one directory, the directory being the oldest entry, next
to a working directory without artifact files. -/
def keptDirWorld : World :=
  { certDir := some [oldDirEntry],
    oldDir := some (archiveOf100 ++
      [{ name := "kept", isDir := true, content := .raw [], mode := 0o700, modTime := 1 }]),
    outside := [], tick := 0, trace := [] }

/-- The calm environment, except that the `Import-Certificate` command exits with status 1. -/
def importFailsEnv : Env :=
  { calmEnv with
    powershell := fun script =>
      if script.toList.take 18 == "Import-Certificate".toList then
        { err := some "exit status 1", output := "Import-Certificate : Access is denied" }
      else { err := none, output := "" } }

/-- The world before the first run: no `certificate` directory. -/
def emptyWorld : World :=
  { certDir := none, oldDir := none, outside := [], tick := 0, trace := [] }

/-- The pair of blocks a generation returns, empty when it fails. -/
def generated (r : Except String (Blob × Blob) × World) : Blob × Blob :=
  match r.1 with
  | .ok pair => pair
  | .error _ => (.raw [], .raw [])

/-- An archive of 100 files `a`, `aa`, `aaa`, ... modified at the instants 5000, 5001, ... -/
def recentArchive100 : List Entry :=
  (List.range 100).map (fun i => regularFile (String.mk (List.replicate (i + 1) 'a')) [i] (5000 + i))

/-- A working directory without artifact files next to a full archive whose files were all
modified after the instants at which the calm clock starts. -/
def crowdedWorld : World :=
  { certDir := some [oldDirEntry], oldDir := some recentArchive100, outside := [], tick := 0, trace := [] }

/-- The run of `main.go` in the calm environment: the default name, the organization
`Local MyCompany Cert` and the DNS name `localhost`. -/
def calmRun (w : World) : Exit × World :=
  CreateSelfSignedCertificateFile calmEnv "" ["Local MyCompany Cert"] ["localhost"] w

/-- The calm environment, except that the write of `certificate/localhost.crt` fails. -/
def writeFailsEnv : Env :=
  { calmEnv with
    writeErr := fun path =>
      if path == "certificate/localhost.crt" then some "no space left on device" else none }

/-- The calm environment, except that the umask is `077`. -/
def strictUmaskEnv : Env :=
  { calmEnv with umask := 0o077 }

/-! ## The library sort -/

theorem orderedInsert_pairwise (less : Entry → Entry → Bool) (S : List Entry)
    (hasym : ∀ a ∈ S, ∀ b ∈ S, less a b = true → less b a = false)
    (hneg : ∀ a ∈ S, ∀ b ∈ S, ∀ c ∈ S, less a b = false → less b c = false → less a c = false)
    (a : Entry) (ha : a ∈ S) :
    ∀ t : List Entry, (∀ x ∈ t, x ∈ S) → t.Pairwise (fun a b => less b a = false) →
      (t.orderedInsert (fun a b => less b a = false) a).Pairwise (fun a b => less b a = false) := by
  intro t
  induction t with
  | nil => intro _ _; simp
  | cons b t ih =>
    intro hS hp
    have hb : b ∈ S := hS b (List.mem_cons_self _ _)
    have ht : ∀ x ∈ t, x ∈ S := fun x hx => hS x (List.mem_cons_of_mem _ hx)
    rw [List.pairwise_cons] at hp
    rw [List.orderedInsert]
    split
    · rename_i hab
      rw [List.pairwise_cons]
      refine ⟨?_, List.pairwise_cons.mpr hp⟩
      intro x hx
      rcases List.mem_cons.mp hx with rfl | hx
      · exact hab
      · exact hneg x (hS x (List.mem_cons_of_mem _ hx)) b hb a ha (hp.1 x hx) hab
    · rename_i hab
      have hba : less a b = false := by
        cases h : less b a with
        | false => exact absurd h hab
        | true => exact hasym b hb a ha h
      rw [List.pairwise_cons]
      refine ⟨?_, ih ht hp.2⟩
      intro x hx
      rcases (List.mem_orderedInsert (fun a b => less b a = false)).mp hx with rfl | hx
      · exact hba
      · exact hp.1 x hx

theorem insertionSort_pairwise (less : Entry → Entry → Bool) (S : List Entry)
    (hasym : ∀ a ∈ S, ∀ b ∈ S, less a b = true → less b a = false)
    (hneg : ∀ a ∈ S, ∀ b ∈ S, ∀ c ∈ S, less a b = false → less b c = false → less a c = false) :
    ∀ l : List Entry, (∀ x ∈ l, x ∈ S) →
      (l.insertionSort (fun a b => less b a = false)).Pairwise (fun a b => less b a = false) := by
  intro l
  induction l with
  | nil => intro _; simp
  | cons a l ih =>
    intro hS
    rw [List.insertionSort]
    apply orderedInsert_pairwise less S hasym hneg a (hS a (List.mem_cons_self _ _))
    · intro x hx
      have := (List.perm_insertionSort (fun a b => less b a = false) l).subset hx
      exact hS x (List.mem_cons_of_mem _ this)
    · exact ih (fun x hx => hS x (List.mem_cons_of_mem _ hx))

theorem insertionSortSlice_spec : SortSliceSpec insertionSortSlice where
  perm := fun _ l => List.perm_insertionSort _ l
  sorted := fun less l hasym hneg => insertionSort_pairwise less l hasym hneg l (fun _ h => h)

/-! ## Names -/

theorem extScan_suffix (sep : Char → Bool) (a b c : Char) (rest : List Char)
    (hd : sep '.' = false) (ha : sep a = false) (hb : sep b = false) (hc : sep c = false)
    (ha1 : (a == '.') = false) (hb1 : (b == '.') = false) (hc1 : (c == '.') = false) :
    extScan sep (c :: b :: a :: '.' :: rest) [] = ['.', a, b, c] := by
  simp [extScan, hd, ha, hb, hc, ha1, hb1, hc1]

theorem filepathExt_crt (win : Bool) (s : String) : filepathExt win (s ++ ".crt") = ".crt" := by
  unfold filepathExt
  have h : (s ++ ".crt").toList.reverse = 't' :: 'r' :: 'c' :: '.' :: s.toList.reverse := by
    simp [String.toList, String.data_append]
  rw [h, extScan_suffix] <;> cases win <;> decide

theorem filepathExt_key (win : Bool) (s : String) : filepathExt win (s ++ ".key") = ".key" := by
  unfold filepathExt
  have h : (s ++ ".key").toList.reverse = 'y' :: 'e' :: 'k' :: '.' :: s.toList.reverse := by
    simp [String.toList, String.data_append]
  rw [h, extScan_suffix] <;> cases win <;> decide

theorem filepathExt_pem (win : Bool) (s : String) : filepathExt win (s ++ ".pem") = ".pem" := by
  unfold filepathExt
  have h : (s ++ ".pem").toList.reverse = 'm' :: 'e' :: 'p' :: '.' :: s.toList.reverse := by
    simp [String.toList, String.data_append]
  rw [h, extScan_suffix] <;> cases win <;> decide

theorem hasCertExt_crt (env : Env) (s : String) : hasCertExt env (s ++ ".crt") = true := by
  simp only [hasCertExt, filepathExt_crt]; decide

theorem hasCertExt_key (env : Env) (s : String) : hasCertExt env (s ++ ".key") = true := by
  simp only [hasCertExt, filepathExt_key]; decide

theorem hasCertExt_pem (env : Env) (s : String) : hasCertExt env (s ++ ".pem") = true := by
  simp only [hasCertExt, filepathExt_pem]; decide

theorem crt_ne_key (s t : String) : s ++ ".crt" ≠ t ++ ".key" := by
  intro h
  have := congrArg (filepathExt false) h
  rw [filepathExt_crt, filepathExt_key] at this
  exact absurd this (by decide)

theorem crt_ne_pem (s t : String) : s ++ ".crt" ≠ t ++ ".pem" := by
  intro h
  have := congrArg (filepathExt false) h
  rw [filepathExt_crt, filepathExt_pem] at this
  exact absurd this (by decide)

theorem key_ne_pem (s t : String) : s ++ ".key" ≠ t ++ ".pem" := by
  intro h
  have := congrArg (filepathExt false) h
  rw [filepathExt_key, filepathExt_pem] at this
  exact absurd this (by decide)

theorem stamped_ne_plain (base ts ext : String) : base ++ "_" ++ ts ++ ext ≠ base ++ ext := by
  intro h
  have h1 := congrArg String.data h
  simp only [String.data_append, List.append_assoc] at h1
  have h2 := List.append_cancel_left h1
  have h3 := congrArg List.length h2
  simp at h3
  omega

/-! ## Directory listings -/

theorem sortByName_perm (l : List Entry) : (sortByName l).Perm l :=
  List.perm_insertionSort _ l

theorem mem_sortByName {l : List Entry} {x : Entry} : x ∈ sortByName l ↔ x ∈ l :=
  (sortByName_perm l).mem_iff

theorem length_sortByName (l : List Entry) : (sortByName l).length = l.length :=
  (sortByName_perm l).length_eq

theorem names_sortByName_nodup {l : List Entry} (h : (l.map Entry.name).Nodup) :
    ((sortByName l).map Entry.name).Nodup :=
  ((sortByName_perm l).map Entry.name).nodup_iff.mpr h

theorem find_name_some {l : List Entry} {n : String} {f : Entry}
    (h : l.find? (fun e => e.name == n) = some f) : f ∈ l ∧ f.name = n := by
  refine ⟨List.mem_of_find?_eq_some h, ?_⟩
  have := List.find?_some h
  simpa using this

theorem find_name_none {l : List Entry} {n : String}
    (h : l.find? (fun e => e.name == n) = none) : ∀ e ∈ l, e.name ≠ n := by
  intro e he
  have := List.find?_eq_none.mp h e he
  simpa using this

theorem find_name_of_nodup {l : List Entry} (hnd : (l.map Entry.name).Nodup) {f : Entry}
    (hf : f ∈ l) : l.find? (fun e => e.name == f.name) = some f := by
  induction l with
  | nil => cases hf
  | cons a l ih =>
    rw [List.map_cons, List.nodup_cons] at hnd
    rcases List.mem_cons.mp hf with rfl | hf
    · simp
    · have hne : a.name ≠ f.name := by
        intro h
        exact hnd.1 (h ▸ List.mem_map_of_mem Entry.name hf)
      rw [List.find?_cons]
      have : (a.name == f.name) = false := by simpa using hne
      rw [this]
      exact ih hnd.2 hf

theorem eq_of_name_eq_of_nodup {l : List Entry} (hnd : (l.map Entry.name).Nodup) {a b : Entry}
    (ha : a ∈ l) (hb : b ∈ l) (h : a.name = b.name) : a = b := by
  have h1 := find_name_of_nodup hnd ha
  have h2 := find_name_of_nodup hnd hb
  rw [h] at h1
  rw [h1] at h2
  exact Option.some.inj h2

theorem names_filter_nodup {l : List Entry} (hnd : (l.map Entry.name).Nodup) (p : Entry → Bool) :
    ((l.filter p).map Entry.name).Nodup :=
  hnd.sublist ((List.filter_sublist l).map Entry.name)

/-! ## The archive after a rename -/

theorem length_archive_le (old : List Entry) (f : Entry) : (archive old f).length ≤ old.length + 1 := by
  unfold archive
  split <;> simp

theorem names_archive_replace (old : List Entry) (f : Entry) :
    (old.map (fun e => if e.name == f.name then f else e)).map Entry.name = old.map Entry.name := by
  rw [List.map_map]
  apply List.map_congr_left
  intro e _
  by_cases h : e.name = f.name
  · simp [h]
  · simp [h]

theorem archive_of_fresh {old : List Entry} {f : Entry} (h : ∀ e ∈ old, e.name ≠ f.name) :
    archive old f = old ++ [f] := by
  unfold archive
  have : old.any (fun e => e.name == f.name) = false := by
    rw [Bool.eq_false_iff]
    intro hany
    obtain ⟨e, he, hn⟩ := List.any_eq_true.mp hany
    exact h e he (by simpa using hn)
  rw [this]
  simp

theorem mem_archive_iff {old : List Entry} {f x : Entry} :
    x ∈ archive old f ↔ x = f ∨ (x ∈ old ∧ x.name ≠ f.name) := by
  unfold archive
  split
  · rename_i hany
    obtain ⟨g, hg, hn⟩ := List.any_eq_true.mp hany
    have hn : g.name = f.name := by simpa using hn
    constructor
    · intro hx
      obtain ⟨e, he, hxe⟩ := List.mem_map.mp hx
      by_cases h : e.name = f.name
      · left; simp [h] at hxe; exact hxe.symm
      · right; simp [h] at hxe; subst hxe; exact ⟨he, h⟩
    · rintro (rfl | ⟨hx, hne⟩)
      · exact List.mem_map.mpr ⟨g, hg, by simp [hn]⟩
      · exact List.mem_map.mpr ⟨x, hx, by simp [hne]⟩
  · rename_i hany
    have hfresh : ∀ e ∈ old, e.name ≠ f.name := by
      intro e he hn
      exact hany (List.any_eq_true.mpr ⟨e, he, by simpa using hn⟩)
    constructor
    · intro hx
      rcases List.mem_append.mp hx with hx | hx
      · exact Or.inr ⟨hx, hfresh x hx⟩
      · exact Or.inl (by simpa using hx)
    · rintro (rfl | ⟨hx, _⟩)
      · simp
      · exact List.mem_append_left _ hx

theorem names_archive_nodup {old : List Entry} (hnd : (old.map Entry.name).Nodup) (f : Entry) :
    ((archive old f).map Entry.name).Nodup := by
  unfold archive
  split
  · rw [names_archive_replace]; exact hnd
  · rename_i hany
    rw [List.map_append, List.nodup_append]
    refine ⟨hnd, by simp, ?_⟩
    intro n hn hn2
    obtain ⟨e, he, rfl⟩ := List.mem_map.mp hn
    have : e.name = f.name := by simpa using hn2
    exact hany (List.any_eq_true.mpr ⟨e, he, by simpa using this⟩)

theorem length_foldl_archive_le (fs : List Entry) :
    ∀ old : List Entry, (fs.foldl archive old).length ≤ old.length + fs.length := by
  induction fs with
  | nil => intro old; simp
  | cons f fs ih =>
    intro old
    rw [List.foldl_cons]
    have h1 := ih (archive old f)
    have h2 := length_archive_le old f
    simp only [List.length_cons]
    omega

theorem length_foldl_archive_eq (fs : List Entry) (hnd : (fs.map Entry.name).Nodup) :
    ∀ old : List Entry, (∀ f ∈ fs, ∀ e ∈ old, e.name ≠ f.name) →
      (fs.foldl archive old).length = old.length + fs.length := by
  induction fs with
  | nil => intro old _; simp
  | cons f fs ih =>
    intro old hfresh
    rw [List.map_cons, List.nodup_cons] at hnd
    rw [List.foldl_cons]
    have hf : archive old f = old ++ [f] :=
      archive_of_fresh (hfresh f (List.mem_cons_self _ _))
    rw [ih hnd.2 (archive old f), hf]
    · simp only [List.length_append, List.length_cons, List.length_nil]; omega
    · intro g hg e he
      rw [hf] at he
      rcases List.mem_append.mp he with he | he
      · exact hfresh g (List.mem_cons_of_mem _ hg) e he
      · have : e = f := by simpa using he
        subst this
        intro h
        exact hnd.1 (h ▸ List.mem_map_of_mem Entry.name hg)

theorem mem_foldl_archive_iff (fs : List Entry) (hnd : (fs.map Entry.name).Nodup) :
    ∀ (old : List Entry) (x : Entry),
      x ∈ fs.foldl archive old ↔ x ∈ fs ∨ (x ∈ old ∧ x.name ∉ fs.map Entry.name) := by
  induction fs with
  | nil => intro old x; simp
  | cons f fs ih =>
    intro old x
    rw [List.map_cons, List.nodup_cons] at hnd
    rw [List.foldl_cons, ih hnd.2, mem_archive_iff]
    constructor
    · rintro (h | ⟨rfl | ⟨hx, hne⟩, hn⟩)
      · exact Or.inl (List.mem_cons_of_mem _ h)
      · exact Or.inl (List.mem_cons_self _ _)
      · right
        refine ⟨hx, ?_⟩
        simp only [List.map_cons, List.mem_cons, not_or]
        exact ⟨hne, hn⟩
    · rintro (h | ⟨hx, hn⟩)
      · rcases List.mem_cons.mp h with rfl | h
        · exact Or.inr ⟨Or.inl rfl, hnd.1⟩
        · exact Or.inl h
      · simp only [List.map_cons, List.mem_cons, not_or] at hn
        exact Or.inr ⟨Or.inr ⟨hx, hn.1⟩, hn.2⟩

theorem names_foldl_archive_nodup (fs : List Entry) :
    ∀ old : List Entry, (old.map Entry.name).Nodup → ((fs.foldl archive old).map Entry.name).Nodup := by
  induction fs with
  | nil => intro old h; simpa using h
  | cons f fs ih =>
    intro old h
    rw [List.foldl_cons]
    exact ih _ (names_archive_nodup h f)

/-! ## System calls -/

theorem osRename_ok {env : Env} {op np n : String} {w w1 : World}
    (h : osRename env op np n w = (none, w1)) :
    ∃ work old f, w.certDir = some work ∧ w.oldDir = some old ∧
      work.find? (fun e => e.name == n) = some f ∧
      w1 = { certDir := some (work.filter (fun e => e.name != n)),
             oldDir := some (archive old f),
             outside := w.outside,
             tick := w.tick,
             trace := w.trace ++ [.rename op np] } := by
  unfold osRename at h
  simp only [World.emit] at h
  split at h
  · cases h
  · split at h
    · rename_i work old hc ho
      split at h
      · cases h
      · rename_i f hf
        have hfn := (find_name_some hf).2
        split at h
        · rename_i g hg
          have hgn := find_name_some hg
          split at h
          · cases h
          · refine ⟨work, old, f, hc, ho, hf, ?_⟩
            have hany : old.any (fun e => e.name == f.name) = true :=
              List.any_eq_true.mpr ⟨g, hgn.1, by simp [hgn.2, hfn]⟩
            simp only [Prod.mk.injEq, true_and] at h
            rw [← h, archive, hany, hfn]
            simp
        · rename_i hg
          refine ⟨work, old, f, hc, ho, hf, ?_⟩
          have hfresh : ∀ e ∈ old, e.name ≠ f.name := by
            intro e he
            rw [hfn]
            exact find_name_none hg e he
          simp only [Prod.mk.injEq, true_and] at h
          rw [← h, archive_of_fresh hfresh]
    · cases h

theorem osRename_err {env : Env} {op np n e : String} {w w1 : World}
    (h : osRename env op np n w = (some e, w1)) : w1 = w.emit (.rename op np) := by
  unfold osRename at h
  simp only at h
  split at h
  · simp only [Prod.mk.injEq] at h; exact h.2.symm
  · split at h
    · split at h
      · simp only [Prod.mk.injEq] at h; exact h.2.symm
      · split at h
        · split at h
          · simp only [Prod.mk.injEq] at h; exact h.2.symm
          · cases h
        · cases h
    · simp only [Prod.mk.injEq] at h; exact h.2.symm

theorem osRename_dir_collision (env : Env) (op np : String) {n : String} {w : World} {old : List Entry}
    {g : Entry} (ho : w.oldDir = some old) (hg : old.find? (fun e => e.name == n) = some g)
    (hdir : g.isDir = true) : (osRename env op np n w).1 ≠ none := by
  unfold osRename
  simp only [World.emit]
  split
  · simp
  · split
    · rename_i work old2 hc ho2
      rw [ho] at ho2
      cases ho2
      split
      · simp
      · rw [hg]
        simp [hdir]
    · simp

theorem osRemove_ok {env : Env} {p n : String} {w w1 : World}
    (h : osRemove env p n w = (none, w1)) :
    ∃ old, w.oldDir = some old ∧ (∃ x ∈ old, x.name = n) ∧ env.removeErr n = none ∧
      w1 = { certDir := w.certDir, oldDir := some (old.filter (fun e => e.name != n)),
             outside := w.outside, tick := w.tick, trace := w.trace ++ [.remove p] } := by
  unfold osRemove at h
  simp only [World.emit] at h
  split at h
  · cases h
  · rename_i hre
    split at h
    · cases h
    · rename_i old ho
      split at h
      · rename_i hany
        obtain ⟨x, hx, hn⟩ := List.any_eq_true.mp hany
        refine ⟨old, ho, ⟨x, hx, by simpa using hn⟩, hre, ?_⟩
        simp only [Prod.mk.injEq, true_and] at h
        rw [← h]
      · cases h

theorem osRemove_err {env : Env} {p n e : String} {w w1 : World}
    (h : osRemove env p n w = (some e, w1)) : w1 = w.emit (.remove p) := by
  unfold osRemove at h
  simp only at h
  split at h
  · simp only [Prod.mk.injEq] at h; exact h.2.symm
  · split at h
    · simp only [Prod.mk.injEq] at h; exact h.2.symm
    · split at h
      · cases h
      · simp only [Prod.mk.injEq] at h; exact h.2.symm

theorem osRemove_of_removeErr {env : Env} {p n e : String} (w : World)
    (h : env.removeErr n = some e) : osRemove env p n w = (some e, w.emit (.remove p)) := by
  unfold osRemove
  simp only [h]

theorem osRemove_of_mem {env : Env} {p n : String} {w : World} {old : List Entry}
    (hre : env.removeErr n = none) (ho : w.oldDir = some old) (hx : ∃ x ∈ old, x.name = n) :
    osRemove env p n w =
      (none, { certDir := w.certDir, oldDir := some (old.filter (fun e => e.name != n)),
               outside := w.outside, tick := w.tick, trace := w.trace ++ [.remove p] }) := by
  unfold osRemove
  simp only [World.emit, hre, ho]
  obtain ⟨x, hx, hn⟩ := hx
  have hany : old.any (fun e => e.name == n) = true :=
    List.any_eq_true.mpr ⟨x, hx, by simpa using hn⟩
  simp [hany]

theorem osReadDir_ok {env : Env} {d : Dir} {p : String} {w w1 : World} {l : List Entry}
    (h : osReadDir env d p w = (.ok l, w1)) :
    ∃ l0, w.dir d = some l0 ∧ l = sortByName l0 ∧ env.readDirErr d = none ∧ w1 = w.emit (.readDir p) := by
  unfold osReadDir at h
  simp only at h
  split at h
  · cases h
  · rename_i hre
    split at h
    · cases h
    · rename_i l0 hl0
      simp only [Prod.mk.injEq, Except.ok.injEq] at h
      have hd : w.dir d = some l0 := by
        cases d <;> simpa [World.dir, World.emit] using hl0
      exact ⟨l0, hd, h.1.symm, hre, h.2.symm⟩

theorem osReadDir_err {env : Env} {d : Dir} {p e : String} {w w1 : World}
    (h : osReadDir env d p w = (.error e, w1)) : w1 = w.emit (.readDir p) := by
  unfold osReadDir at h
  simp only at h
  split at h
  · simp only [Prod.mk.injEq] at h; exact h.2.symm
  · split at h
    · simp only [Prod.mk.injEq] at h; exact h.2.symm
    · cases h

theorem osReadDir_of_some {env : Env} {d : Dir} {p : String} {w : World} {l0 : List Entry}
    (hre : env.readDirErr d = none) (hd : w.dir d = some l0) :
    osReadDir env d p w = (.ok (sortByName l0), w.emit (.readDir p)) := by
  unfold osReadDir
  have hd2 : (w.emit (.readDir p)).dir d = some l0 := by
    cases d <;> simpa [World.dir, World.emit] using hd
  simp only [hre, hd2]

/-! ## The move loop -/

theorem moveLoop_cons_skip {env : Env} {c o : String} {f : Entry} {rest : List Entry} {w : World}
    (h : movable env f = false) :
    moveLoop env c o (f :: rest) w = moveLoop env c o rest w := by
  rw [moveLoop]
  unfold movable at h
  cases hd : f.isDir
  · simp only [hd, Bool.not_false, Bool.true_and] at h
    simp [h]
  · simp

theorem moveLoop_cons_move {env : Env} {c o : String} {f : Entry} {rest : List Entry} {w : World}
    (h : movable env f = true) :
    moveLoop env c o (f :: rest) w =
      match osRename env (filepathJoin env c f.name) (filepathJoin env o f.name) f.name w with
      | (some err, w) =>
        (some ("failed to move file '" ++ filepathJoin env c f.name ++ "' to '"
          ++ filepathJoin env o f.name ++ "': " ++ err), w)
      | (none, w) => moveLoop env c o rest w := by
  rw [moveLoop]
  unfold movable at h
  simp only [Bool.and_eq_true, Bool.not_eq_true'] at h
  simp only [h.1, h.2, if_true, Bool.false_eq_true, if_false]

theorem moveLoop_ok (env : Env) (c o : String) :
    ∀ (files : List Entry) (w w1 : World) (work old : List Entry),
      w.certDir = some work → w.oldDir = some old → (work.map Entry.name).Nodup →
      (∀ f ∈ files, f ∈ work) → (files.map Entry.name).Nodup →
      moveLoop env c o files w = (none, w1) →
      w1.certDir = some (work.filter
        (fun e => decide (e.name ∉ (files.filter (movable env)).map Entry.name))) ∧
      w1.oldDir = some ((files.filter (movable env)).foldl archive old) ∧
      w1.tick = w.tick := by
  intro files
  induction files with
  | nil =>
    intro w w1 work old hc ho _ _ _ h
    simp only [moveLoop, Prod.mk.injEq, true_and] at h
    subst h
    simp [hc, ho]
  | cons f rest ih =>
    intro w w1 work old hc ho hnd hsub hfnd h
    rw [List.map_cons, List.nodup_cons] at hfnd
    have hrest : ∀ g ∈ rest, g ∈ work := fun g hg => hsub g (List.mem_cons_of_mem _ hg)
    cases hm : movable env f
    · rw [moveLoop_cons_skip hm] at h
      have := ih w w1 work old hc ho hnd hrest hfnd.2 h
      simpa [List.filter_cons, hm] using this
    · rw [moveLoop_cons_move hm] at h
      split at h
      · cases h
      · rename_i w2 hren
        obtain ⟨work2, old2, f2, hc2, ho2, hfind, hw2⟩ := osRename_ok hren
        rw [hc] at hc2
        rw [ho] at ho2
        cases hc2
        cases ho2
        have hf2 : f2 = f := by
          have := find_name_of_nodup hnd (hsub f (List.mem_cons_self _ _))
          rw [this] at hfind
          exact (Option.some.inj hfind).symm
        subst hf2
        have hrest2 : ∀ g ∈ rest, g ∈ work.filter (fun e => e.name != f2.name) := by
          intro g hg
          rw [List.mem_filter]
          refine ⟨hrest g hg, ?_⟩
          have : g.name ≠ f2.name := by
            intro hn
            exact hfnd.1 (hn ▸ List.mem_map_of_mem Entry.name hg)
          simpa using this
        have := ih w2 w1 (work.filter (fun e => e.name != f2.name)) (archive old f2)
          (by rw [hw2]) (by rw [hw2]) (names_filter_nodup hnd _) hrest2 hfnd.2 h
        obtain ⟨h1, h2, h3⟩ := this
        refine ⟨?_, ?_, ?_⟩
        · rw [h1, List.filter_filter]
          congr 1
          apply List.filter_congr
          intro e _
          simp only [List.filter_cons, hm, if_true, List.map_cons, List.mem_cons, not_or]
          by_cases hn : e.name = f2.name
          · simp [hn]
          · simp [hn]
        · rw [h2]
          simp [List.filter_cons, hm]
        · rw [h3, hw2]

theorem moveLoop_oldDir_none (env : Env) (c o : String) :
    ∀ (files : List Entry) (w w1 : World) (r : Option String),
      w.oldDir = none → moveLoop env c o files w = (r, w1) → w1.oldDir = none := by
  intro files
  induction files with
  | nil =>
    intro w w1 r ho h
    simp only [moveLoop, Prod.mk.injEq] at h
    rw [← h.2]; exact ho
  | cons f rest ih =>
    intro w w1 r ho h
    cases hm : movable env f
    · rw [moveLoop_cons_skip hm] at h
      exact ih w w1 r ho h
    · rw [moveLoop_cons_move hm] at h
      split at h
      · rename_i e w2 hren
        simp only [Prod.mk.injEq] at h
        rw [← h.2, osRename_err hren]
        exact ho
      · rename_i w2 hren
        obtain ⟨work2, old2, f2, hc2, ho2, _, _⟩ := osRename_ok hren
        rw [ho] at ho2
        cases ho2

theorem moveLoop_dir_collision (env : Env) (c o : String) (g : Entry) (hdir : g.isDir = true) :
    ∀ (files : List Entry) (w : World) (old : List Entry),
      w.oldDir = some old → (old.map Entry.name).Nodup → g ∈ old →
      (∃ f ∈ files, movable env f = true ∧ f.name = g.name) →
      (moveLoop env c o files w).1 ≠ none ∧
      ∃ old1, (moveLoop env c o files w).2.oldDir = some old1 ∧ g ∈ old1 := by
  intro files
  induction files with
  | nil =>
    intro w old _ _ _ hf
    obtain ⟨f, hf, _⟩ := hf
    cases hf
  | cons h rest ih =>
    intro w old ho hnd hg hf
    cases hm : movable env h
    · rw [moveLoop_cons_skip hm]
      apply ih w old ho hnd hg
      obtain ⟨f, hf, hfm, hfn⟩ := hf
      rcases List.mem_cons.mp hf with rfl | hf
      · rw [hm] at hfm; cases hfm
      · exact ⟨f, hf, hfm, hfn⟩
    · rw [moveLoop_cons_move hm]
      by_cases hn : h.name = g.name
      · have hfind : old.find? (fun e => e.name == h.name) = some g := by
          rw [hn]; exact find_name_of_nodup hnd hg
        have herr := osRename_dir_collision env (filepathJoin env c h.name)
          (filepathJoin env o h.name) ho hfind hdir
        split
        · rename_i e w2 hren
          refine ⟨by simp, old, ?_, hg⟩
          simp only [osRename_err hren, World.emit]
          exact ho
        · rename_i w2 hren
          rw [hren] at herr
          exact absurd rfl herr
      · split
        · rename_i e w2 hren
          refine ⟨by simp, old, ?_, hg⟩
          simp only [osRename_err hren, World.emit]
          exact ho
        · rename_i w2 hren
          obtain ⟨work2, old2, f2, hc2, ho2, hfind, hw2⟩ := osRename_ok hren
          rw [ho] at ho2
          cases ho2
          have hf2n := (find_name_some hfind).2
          apply ih w2 (archive old f2) (by rw [hw2]) (names_archive_nodup hnd f2)
          · rw [mem_archive_iff]
            right
            refine ⟨hg, ?_⟩
            rw [hf2n]
            exact fun hh => hn hh.symm
          · obtain ⟨f, hf, hfm, hfn⟩ := hf
            rcases List.mem_cons.mp hf with rfl | hf
            · exact absurd hfn hn
            · exact ⟨f, hf, hfm, hfn⟩

/-! ## The rotation as a whole -/

theorem moveOld_of_none {env : Env} {c o : String} {w : World} (hc : w.certDir = none) :
    moveOldCertificates env c o w = (none, w.emit (.stat c)) := by
  unfold moveOldCertificates
  have : (w.emit (.stat c)).certDir = none := by simpa [World.emit] using hc
  simp only [this]

theorem filter_moved_names {env : Env} {work moved : List Entry}
    (hnd : (work.map Entry.name).Nodup) (hmoved : ∀ x, x ∈ moved ↔ x ∈ work ∧ movable env x = true) :
    work.filter (fun e => decide (e.name ∉ moved.map Entry.name)) =
      work.filter (fun e => !movable env e) := by
  apply List.filter_congr
  intro e he
  cases hm : movable env e
  · simp only [Bool.not_false, decide_eq_true_eq]
    intro hmem
    obtain ⟨x, hx, hn⟩ := List.mem_map.mp hmem
    have hx2 := (hmoved x).mp hx
    have := eq_of_name_eq_of_nodup hnd hx2.1 he hn
    rw [this, hm] at hx2
    exact absurd hx2.2 (by simp)
  · simp only [Bool.not_true, decide_eq_false_iff_not, not_not]
    exact List.mem_map_of_mem Entry.name ((hmoved e).mpr ⟨he, hm⟩)

/-- What a successful rotation leaves behind. -/
theorem moveOld_ok {env : Env} {c o : String} {w w1 : World} {work : List Entry}
    (hwf : w.WF) (hc : w.certDir = some work)
    (h : moveOldCertificates env c o w = (none, w1)) :
    ∃ old, w.oldDir = some old ∧
      w1.certDir = some (work.filter (fun e => !movable env e)) ∧ w1.tick = w.tick ∧
      ((((sortByName work).filter (movable env)).foldl archive old).length ≤ 100 ∧
          w1.oldDir = some (((sortByName work).filter (movable env)).foldl archive old) ∨
        100 < (((sortByName work).filter (movable env)).foldl archive old).length ∧
          ∃ victim rest,
            env.sortSlice (lessByModTime env)
              (sortByName (((sortByName work).filter (movable env)).foldl archive old)) = victim :: rest ∧
            (∃ x ∈ ((sortByName work).filter (movable env)).foldl archive old, x.name = victim.name) ∧
            env.removeErr victim.name = none ∧
            w1.oldDir = some ((((sortByName work).filter (movable env)).foldl archive old).filter
              (fun e => e.name != victim.name))) := by
  have hndw : (work.map Entry.name).Nodup := by
    have := hwf.1
    rwa [hc] at this
  unfold moveOldCertificates at h
  have hc2 : (w.emit (.stat c)).certDir = some work := by simpa [World.emit] using hc
  simp only [hc2] at h
  split at h
  · cases h
  · rename_i files wa hrd
    obtain ⟨l0, hl0, hfiles, _, hwa⟩ := osReadDir_ok hrd
    have hl0w : l0 = work := by
      simp only [World.dir, World.emit] at hl0
      rw [hc] at hl0
      exact (Option.some.inj hl0).symm
    subst hl0w
    split at h
    · cases h
    · rename_i wb hloop
      split at h
      · cases h
      · rename_i oldFiles wc hrd2
        obtain ⟨old2, ho2, hof, _, hwc⟩ := osReadDir_ok hrd2
        simp only [World.dir] at ho2
        have hwac : wa.certDir = some l0 := by rw [hwa]; simpa [World.emit] using hc
        have hwao : wa.oldDir = w.oldDir := by rw [hwa]; simp [World.emit]
        have hwat : wa.tick = w.tick := by rw [hwa]; simp [World.emit]
        cases hold : w.oldDir with
        | none =>
          have := moveLoop_oldDir_none env c o files wa wb none (by rw [hwao, hold]) hloop
          rw [this] at ho2
          cases ho2
        | some old =>
          have hloop2 := moveLoop_ok env c o files wa wb l0 old hwac (by rw [hwao, hold]) hndw
            (by intro f hf; rw [hfiles] at hf; exact mem_sortByName.mp hf)
            (by rw [hfiles]; exact names_sortByName_nodup hndw) hloop
          obtain ⟨hb1, hb2, hb3⟩ := hloop2
          rw [hb2] at ho2
          have hold2 := (Option.some.inj ho2).symm
          have hcert : some (l0.filter
              (fun e => decide (e.name ∉ (files.filter (movable env)).map Entry.name))) =
              some (l0.filter (fun e => !movable env e)) := by
            congr 1
            apply filter_moved_names hndw
            intro x
            rw [List.mem_filter, hfiles, mem_sortByName]
          refine ⟨old, rfl, ?_⟩
          rw [← hfiles]
          rw [← hold2]
          split at h
          · rename_i hlen
            rw [hof, length_sortByName] at hlen
            split at h
            · cases h
            · rename_i victim rest hsort
              split at h
              · cases h
              · rename_i wd hrem
                obtain ⟨old3, ho3, hx, hre, hwd⟩ := osRemove_ok hrem
                simp only [Prod.mk.injEq, true_and] at h
                have ho3b : old3 = old2 := by
                  rw [hwc] at ho3
                  simp only [World.emit] at ho3
                  rw [hb2] at ho3
                  rw [hold2]
                  exact (Option.some.inj ho3).symm
                subst ho3b
                refine ⟨?_, ?_, Or.inr ⟨hlen, victim, rest, ?_, hx, hre, ?_⟩⟩
                · rw [← h, hwd, hwc]; simp only [World.emit]; rw [hb1, hcert]
                · rw [← h, hwd, hwc]; simp only [World.emit]; rw [hb3, hwat]
                · rw [← hof]; exact hsort
                · rw [← h, hwd]; simp only [World.emit]
          · rename_i hlen
            rw [hof, length_sortByName] at hlen
            simp only [Prod.mk.injEq, true_and] at h
            refine ⟨?_, ?_, Or.inl ⟨by omega, ?_⟩⟩
            · rw [← h, hwc]; simp only [World.emit]; rw [hb1, hcert]
            · rw [← h, hwc]; simp only [World.emit]; rw [hb3, hwat]
            · rw [← h, hwc]; simp only [World.emit]; rw [hb2, hold2]

theorem length_moved (env : Env) (work : List Entry) :
    ((sortByName work).filter (movable env)).length = (work.filter (movable env)).length :=
  ((sortByName_perm work).filter _).length_eq

theorem length_filter_name_lt {l : List Entry} {n : String} (h : ∃ x ∈ l, x.name = n) :
    (l.filter (fun e => e.name != n)).length < l.length := by
  obtain ⟨x, hx, hn⟩ := h
  apply List.length_filter_lt_length_iff_exists.mpr
  exact ⟨x, hx, by simp [hn]⟩

/-! ## C1 -/

set_option maxRecDepth 1000000 in
/-- C1, counterexample: with 100 entries in `old` and two artifact files in the working
directory the rotation returns without error and leaves 101 entries in `old`. -/
theorem archive_cap_counterexample :
    twoArtifactsWorld.oldCount = 100 ∧
    (moveOldCertificates calmEnv "certificate" "certificate/old" twoArtifactsWorld).1 = none ∧
    (moveOldCertificates calmEnv "certificate" "certificate/old" twoArtifactsWorld).2.oldCount = 101 := by
  decide

/-- C1, amended: when `old` holds at most 100 entries before the call and the call returns
without error, `old` holds at most `max 100 (n + k - 1)` entries, `n` being the count before
and `k` the number of artifact files in the working directory; at most 100 when the working
directory holds at most one artifact file. -/
theorem moveOldCertificates_archive_bound (env : Env) (certDir oldCertDir : String) (w w1 : World)
    (hwf : w.WF) (hcap : w.oldCount ≤ 100)
    (hok : moveOldCertificates env certDir oldCertDir w = (none, w1)) :
    w1.oldCount ≤ max 100 (w.oldCount + w.artifactCount env - 1) ∧
    (w.artifactCount env ≤ 1 → w1.oldCount ≤ 100) := by
  have key : w1.oldCount ≤ 100 ∨ w1.oldCount + 1 ≤ w.oldCount + w.artifactCount env := by
    cases hc : w.certDir with
    | none =>
      rw [moveOld_of_none hc] at hok
      simp only [Prod.mk.injEq, true_and] at hok
      left
      rw [← hok]
      simpa [World.oldCount, World.emit] using hcap
    | some work =>
      obtain ⟨old, ho, _, _, hcase⟩ := moveOld_ok hwf hc hok
      have hlen := length_foldl_archive_le ((sortByName work).filter (movable env)) old
      rw [length_moved] at hlen
      have hn : w.oldCount = old.length := by simp [World.oldCount, ho]
      have hk : w.artifactCount env = (work.filter (movable env)).length := by
        simp [World.artifactCount, hc]
      rcases hcase with ⟨hle, h1⟩ | ⟨_, victim, rest, _, hx, _, h1⟩
      · left
        have hw1 : w1.oldCount = (((sortByName work).filter (movable env)).foldl archive old).length := by
          simp only [World.oldCount, h1, Option.getD_some]
        rw [hw1]
        exact hle
      · right
        have := length_filter_name_lt hx
        have hw1 : w1.oldCount = ((((sortByName work).filter (movable env)).foldl archive old).filter
            (fun e => e.name != victim.name)).length := by
          simp only [World.oldCount, h1, Option.getD_some]
        rw [hw1, hn, hk]
        omega
  constructor
  · rcases key with h | h
    · exact le_max_of_le_left h
    · exact le_max_of_le_right (by omega)
  · intro hk
    rcases key with h | h
    · exact h
    · omega

/-- C1, witness: the bound at a working directory with one artifact file. -/
theorem moveOldCertificates_archive_bound_witness :
    (moveOldCertificates calmEnv "certificate" "certificate/old" smallWorld).2.oldCount
        ≤ max 100 (smallWorld.oldCount + smallWorld.artifactCount calmEnv - 1) ∧
    (smallWorld.artifactCount calmEnv ≤ 1 →
      (moveOldCertificates calmEnv "certificate" "certificate/old" smallWorld).2.oldCount ≤ 100) :=
  moveOldCertificates_archive_bound calmEnv "certificate" "certificate/old" smallWorld
    (moveOldCertificates calmEnv "certificate" "certificate/old" smallWorld).2
    (by decide) (by decide) (by decide)

theorem perm_cons_filter_name {l : List Entry} (hnd : (l.map Entry.name).Nodup) {v : Entry}
    (hv : v ∈ l) : l.Perm (v :: l.filter (fun e => e.name != v.name)) := by
  induction l with
  | nil => cases hv
  | cons a l ih =>
    rw [List.map_cons, List.nodup_cons] at hnd
    by_cases hav : a = v
    · subst hav
      have hself : l.filter (fun e => e.name != a.name) = l := by
        apply List.filter_eq_self.mpr
        intro e he
        have : e.name ≠ a.name := fun h => hnd.1 (h ▸ List.mem_map_of_mem Entry.name he)
        simpa using this
      simp [List.filter_cons, hself]
    · have hvl : v ∈ l := by
        rcases List.mem_cons.mp hv with h | h
        · exact absurd h.symm hav
        · exact h
      have hne : a.name ≠ v.name := fun h => hnd.1 (h ▸ List.mem_map_of_mem Entry.name hvl)
      have hkeep : (a :: l).filter (fun e => e.name != v.name)
          = a :: l.filter (fun e => e.name != v.name) := by
        simp [List.filter_cons, hne]
      rw [hkeep]
      exact ((ih hnd.2 hvl).cons a).trans (List.Perm.swap v a _)

/-- The rotation once the listing of `certificate`, the moves and the listing of `old` have
succeeded. -/
theorem moveOld_after_moves {env : Env} {c o : String} {w w1 w2 w3 : World}
    {files oldFiles : List Entry} (hexists : w.certDir ≠ none)
    (hlist : osReadDir env .cert c (w.emit (.stat c)) = (.ok files, w1))
    (hmoves : moveLoop env c o files w1 = (none, w2))
    (hold : osReadDir env .old o w2 = (.ok oldFiles, w3)) :
    moveOldCertificates env c o w =
      if oldFiles.length > 100 then
        match env.sortSlice (lessByModTime env) oldFiles with
        | [] => (some "index out of range [0] with length 0", w3)
        | oldestFile :: _ =>
          match osRemove env (filepathJoin env o oldestFile.name) oldestFile.name w3 with
          | (some e, w4) =>
            (some ("failed to delete oldest file '" ++ filepathJoin env o oldestFile.name ++ "': " ++ e), w4)
          | (none, w4) =>
            (none, w4.emit (.logPrint ("Deleted the oldest file: " ++ filepathJoin env o oldestFile.name)))
      else (none, w3) := by
  unfold moveOldCertificates
  cases hc : w.certDir with
  | none => exact absurd hc hexists
  | some work =>
    have hc2 : (w.emit (.stat c)).certDir = some work := by simpa [World.emit] using hc
    simp only [hc2, hlist, hmoves, hold]

theorem lessByModTime_of_info {env : Env} {a b : Entry} (ha : env.infoErr a.name = false)
    (hb : env.infoErr b.name = false) : lessByModTime env a b = decide (a.modTime < b.modTime) := by
  simp [lessByModTime, ha, hb]

/-- The head of the sorted listing is an entry with the least modification time. -/
theorem sortSlice_head_oldest {env : Env} (hsort : SortSliceSpec env.sortSlice) {l : List Entry}
    (hinfo : ∀ e ∈ l, env.infoErr e.name = false) {victim : Entry} {rest : List Entry}
    (h : env.sortSlice (lessByModTime env) l = victim :: rest) :
    victim ∈ l ∧ ∀ e ∈ l, victim.modTime ≤ e.modTime := by
  have hperm := hsort.perm (lessByModTime env) l
  have hsorted := hsort.sorted (lessByModTime env) l
    (by
      intro a ha b hb hab
      rw [lessByModTime_of_info (hinfo a ha) (hinfo b hb)] at hab
      rw [lessByModTime_of_info (hinfo b hb) (hinfo a ha)]
      simp only [decide_eq_true_eq] at hab
      simp only [decide_eq_false_iff_not]
      omega)
    (by
      intro a ha b hb c hc hab hbc
      rw [lessByModTime_of_info (hinfo a ha) (hinfo b hb)] at hab
      rw [lessByModTime_of_info (hinfo b hb) (hinfo c hc)] at hbc
      rw [lessByModTime_of_info (hinfo a ha) (hinfo c hc)]
      simp only [decide_eq_false_iff_not] at hab hbc ⊢
      omega)
  rw [h] at hperm hsorted
  have hv : victim ∈ l := hperm.subset (List.mem_cons_self _ _)
  refine ⟨hv, ?_⟩
  intro e he
  rcases List.mem_cons.mp (hperm.symm.subset he) with rfl | her
  · exact le_refl _
  · have := (List.pairwise_cons.mp hsorted).1 e her
    rw [lessByModTime_of_info (hinfo e he) (hinfo victim hv)] at this
    simp only [decide_eq_false_iff_not] at this
    omega

/-! ## C2 -/

set_option maxRecDepth 1000000 in
/-- C2, counterexample: once the moves are done `old` holds 101 entries and file info can be
read for each of them, yet no entry is deleted: the entry of least modification time is a
directory that is not empty, `os.Remove` fails on it and the function returns that error. -/
theorem eviction_not_done_counterexample :
    (moveLoop dirNotEmptyEnv "certificate" "certificate/old" (sortByName [oldDirEntry])
      ((keptDirWorld.emit (.stat "certificate")).emit (.readDir "certificate"))).1 = none ∧
    keptDirWorld.oldCount = 101 ∧
    (∀ e ∈ keptDirWorld.archived, dirNotEmptyEnv.infoErr e.name = false) ∧
    (moveOldCertificates dirNotEmptyEnv "certificate" "certificate/old" keptDirWorld).1 =
      some ("failed to delete oldest file 'certificate/old/kept': " ++
        "remove certificate/old/kept: directory not empty") ∧
    (moveOldCertificates dirNotEmptyEnv "certificate" "certificate/old" keptDirWorld).2.oldDir =
      keptDirWorld.oldDir := by
  decide

/-- C2: once the listing of the working directory, the moves and the listing of `old` have
succeeded, and file info can be read for every entry of `old`: if `old` lists more than 100
entries, the function calls `os.Remove` on one entry whose modification time is at most that
of every entry of `old`; when that call succeeds the function returns without error and `old`
holds its former entries but that one, and when it fails the function returns the error and
nothing is deleted. If `old` lists 100 entries or fewer, the function returns without
deleting anything. -/
theorem moveOldCertificates_evicts_oldest (env : Env) (certDir oldCertDir : String)
    (w w1 w2 w3 : World) (files oldFiles : List Entry)
    (hsort : SortSliceSpec env.sortSlice)
    (hexists : w.certDir ≠ none)
    (hlist : osReadDir env .cert certDir (w.emit (.stat certDir)) = (.ok files, w1))
    (hmoves : moveLoop env certDir oldCertDir files w1 = (none, w2))
    (hold : osReadDir env .old oldCertDir w2 = (.ok oldFiles, w3))
    (hnames : (oldFiles.map Entry.name).Nodup)
    (hinfo : ∀ e ∈ oldFiles, env.infoErr e.name = false) :
    (100 < oldFiles.length →
      ∃ victim ∈ oldFiles, (∀ e ∈ oldFiles, victim.modTime ≤ e.modTime) ∧
        (env.removeErr victim.name = none →
          (moveOldCertificates env certDir oldCertDir w).1 = none ∧
          (moveOldCertificates env certDir oldCertDir w).2.certDir = w2.certDir ∧
          ∃ remaining, (moveOldCertificates env certDir oldCertDir w).2.oldDir = some remaining ∧
            oldFiles.Perm (victim :: remaining)) ∧
        (∀ err, env.removeErr victim.name = some err →
          (moveOldCertificates env certDir oldCertDir w).1 =
            some ("failed to delete oldest file '" ++ filepathJoin env oldCertDir victim.name
              ++ "': " ++ err) ∧
          (moveOldCertificates env certDir oldCertDir w).2.certDir = w2.certDir ∧
          (moveOldCertificates env certDir oldCertDir w).2.oldDir = w2.oldDir)) ∧
    (oldFiles.length ≤ 100 →
      moveOldCertificates env certDir oldCertDir w = (none, w3) ∧
      w3.certDir = w2.certDir ∧ w3.oldDir = w2.oldDir) := by
  rw [moveOld_after_moves hexists hlist hmoves hold]
  obtain ⟨old, hdir, hof, _, hw3⟩ := osReadDir_ok hold
  simp only [World.dir] at hdir
  have hw3c : w3.certDir = w2.certDir := by rw [hw3]; simp [World.emit]
  have hw3o : w3.oldDir = some old := by rw [hw3]; simpa [World.emit] using hdir
  have hndold : (old.map Entry.name).Nodup := by
    rw [hof] at hnames
    exact ((sortByName_perm old).map Entry.name).nodup_iff.mp hnames
  constructor
  · intro hlen
    rw [if_pos hlen]
    cases hs : env.sortSlice (lessByModTime env) oldFiles with
    | nil =>
      have := (hsort.perm (lessByModTime env) oldFiles).length_eq
      rw [hs] at this
      simp only [List.length_nil] at this
      omega
    | cons victim rest =>
      obtain ⟨hv, hmin⟩ := sortSlice_head_oldest hsort hinfo hs
      have hvold : victim ∈ old := by
        rw [hof] at hv
        exact mem_sortByName.mp hv
      refine ⟨victim, hv, hmin, ?_, ?_⟩
      · intro hre
        simp only
        rw [osRemove_of_mem hre hw3o ⟨victim, hvold, rfl⟩]
        simp only [World.emit, true_and]
        refine ⟨hw3c, old.filter (fun e => e.name != victim.name), rfl, ?_⟩
        rw [hof]
        exact (sortByName_perm old).trans (perm_cons_filter_name hndold hvold)
      · intro err hre
        simp only
        rw [osRemove_of_removeErr w3 hre]
        simp only [World.emit, true_and]
        exact ⟨hw3c, by rw [hw3o, hdir]⟩
  · intro hlen
    rw [if_neg (by omega)]
    exact ⟨rfl, hw3c, by rw [hw3o, hdir]⟩

set_option maxRecDepth 1000000 in
/-- C2, witness: a full archive and two artifact files; an entry of least modification time
is the one deleted. -/
theorem moveOldCertificates_evicts_oldest_witness :
    100 < (sortByName twoArtifactsArchive).length ∧
    ∃ victim ∈ sortByName twoArtifactsArchive,
      (∀ e ∈ sortByName twoArtifactsArchive, victim.modTime ≤ e.modTime) ∧
      (moveOldCertificates calmEnv "certificate" "certificate/old" twoArtifactsWorld).1 = none ∧
      ∃ remaining,
        (moveOldCertificates calmEnv "certificate" "certificate/old" twoArtifactsWorld).2.oldDir =
          some remaining ∧
        (sortByName twoArtifactsArchive).Perm (victim :: remaining) := by
  have h := moveOldCertificates_evicts_oldest calmEnv "certificate" "certificate/old"
    twoArtifactsWorld
    { twoArtifactsWorld with trace := [.stat "certificate", .readDir "certificate"] }
    twoArtifactsMoved (twoArtifactsMoved.emit (.readDir "certificate/old"))
    (sortByName [regularFile "localhost.crt" [1] 500, regularFile "localhost.key" [2] 501, oldDirEntry])
    (sortByName twoArtifactsArchive)
    insertionSortSlice_spec (by decide) (by rfl) (by decide) (by rfl) (by decide)
    (fun _ _ => rfl)
  have hlen : 100 < (sortByName twoArtifactsArchive).length := by decide
  obtain ⟨victim, hv, hmin, hok, _⟩ := h.1 hlen
  exact ⟨hlen, victim, hv, hmin, (hok rfl).1, (hok rfl).2.2⟩

theorem mem_moved_iff {env : Env} {work : List Entry} {x : Entry} :
    x ∈ (sortByName work).filter (movable env) ↔ x ∈ work ∧ movable env x = true := by
  rw [List.mem_filter, mem_sortByName]

theorem names_moved_nodup {env : Env} {work : List Entry} (hnd : (work.map Entry.name).Nodup) :
    (((sortByName work).filter (movable env)).map Entry.name).Nodup :=
  names_filter_nodup (names_sortByName_nodup hnd) _

/-! ## C3 -/

set_option maxRecDepth 1000000 in
/-- C3, counterexample: no name of the working directory is taken in `old`, the call
returns without error and `old` ends at 100 entries, yet the artifact file
`localhost.crt` is not in `old`: it was the oldest of 101 entries and was deleted. -/
theorem moved_file_evicted_counterexample :
    (∀ f ∈ staleArtifactWorld.certDir.getD [], movable calmEnv f = true →
      ∀ g ∈ staleArtifactWorld.oldDir.getD [], g.name ≠ f.name) ∧
    (moveOldCertificates calmEnv "certificate" "certificate/old" staleArtifactWorld).1 = none ∧
    (moveOldCertificates calmEnv "certificate" "certificate/old" staleArtifactWorld).2.oldCount = 100 ∧
    regularFile "localhost.crt" [1] 5 ∈ staleArtifactWorld.certDir.getD [] ∧
    movable calmEnv (regularFile "localhost.crt" [1] 5) = true ∧
    ∀ e ∈ (moveOldCertificates calmEnv "certificate" "certificate/old" staleArtifactWorld).2.oldDir.getD [],
      e.name ≠ "localhost.crt" := by
  decide

/-- What a successful rotation leaves behind, the entry it deleted being named. -/
theorem moveOld_ok_deleted {env : Env} {c o : String} {w w1 : World} {work old : List Entry}
    (hwf : w.WF) (hc : w.certDir = some work) (ho : w.oldDir = some old)
    (h : moveOldCertificates env c o w = (none, w1)) :
    ∃ old1 deleted, w1.certDir = some (work.filter (fun e => !movable env e)) ∧
      w1.oldDir = some old1 ∧ w1.tick = w.tick ∧ deleted.length ≤ 1 ∧
      (old.length + (work.filter (movable env)).length ≤ 100 → deleted = []) ∧
      (∀ d ∈ deleted, ∀ e ∈ old1, e.name ≠ d.name) ∧
      (∀ x, x ∈ ((sortByName work).filter (movable env)).foldl archive old ↔
        x ∈ old1 ∨ x ∈ deleted) := by
  have hndo : (old.map Entry.name).Nodup := by
    have := hwf.2
    rwa [ho] at this
  obtain ⟨old0, ho0, hc1, ht, hcase⟩ := moveOld_ok hwf hc h
  rw [ho] at ho0
  cases ho0
  have hlen := length_foldl_archive_le ((sortByName work).filter (movable env)) old
  rw [length_moved] at hlen
  have hnd2 := names_foldl_archive_nodup ((sortByName work).filter (movable env)) old hndo
  rcases hcase with ⟨_, h1⟩ | ⟨hbig, victim, rest, _, ⟨x, hx, hxn⟩, _, h1⟩
  · exact ⟨_, [], hc1, h1, ht, by simp, fun _ => rfl, by simp, by simp⟩
  · refine ⟨_, [x], hc1, h1, ht, by simp, fun hroom => by omega, ?_, ?_⟩
    · intro d hd e he
      rw [List.mem_singleton.mp hd, hxn]
      have := (List.mem_filter.mp he).2
      simpa using this
    · intro y
      constructor
      · intro hy
        by_cases hn : y.name = victim.name
        · right
          rw [List.mem_singleton]
          exact eq_of_name_eq_of_nodup hnd2 hy hx (hn.trans hxn.symm)
        · left
          exact List.mem_filter.mpr ⟨hy, by simpa using hn⟩
      · rintro (hy | hy)
        · exact (List.mem_filter.mp hy).1
        · rw [List.mem_singleton.mp hy]
          exact hx

/-- C3, amended: in a well-formed world with no name collision in `old`, after the call
returns without error every artifact file of the working directory is gone from the working
directory and is an entry of `old` (same name, content, mode and time) unless it is the one
entry the call deleted; every directory and every file with another extension is still in
the working directory, nothing else is there, and every entry `old` had is still in `old`
unless it is the one deleted. At most one entry is deleted, its name is no longer in `old`,
and none is deleted when the entries of `old` and the artifact files of the working
directory number at most 100 together. -/
theorem moveOldCertificates_moves_artifacts (env : Env) (certDir oldCertDir : String)
    (w w1 : World) (work old : List Entry)
    (hwf : w.WF) (hwork : w.certDir = some work) (hold : w.oldDir = some old)
    (hfresh : ∀ f ∈ work, movable env f = true → ∀ g ∈ old, g.name ≠ f.name)
    (hok : moveOldCertificates env certDir oldCertDir w = (none, w1)) :
    ∃ work1 old1 deleted, w1.certDir = some work1 ∧ w1.oldDir = some old1 ∧
      deleted.length ≤ 1 ∧
      (w.oldCount + w.artifactCount env ≤ 100 → deleted = []) ∧
      (∀ d ∈ deleted, ∀ e ∈ old1, e.name ≠ d.name) ∧
      (∀ f ∈ work, f.isDir = false → hasCertExt env f.name = true →
        f ∉ work1 ∧ (∀ e ∈ work1, e.name ≠ f.name) ∧ (f ∈ old1 ∨ f ∈ deleted)) ∧
      (∀ e ∈ work, (e.isDir = true ∨ hasCertExt env e.name = false) → e ∈ work1) ∧
      (∀ e ∈ work1, e ∈ work) ∧
      (∀ g ∈ old, g ∈ old1 ∨ g ∈ deleted) := by
  have hndw : (work.map Entry.name).Nodup := by
    have := hwf.1
    rwa [hwork] at this
  obtain ⟨old1, deleted, hc1, h1, _, hdl, hroom, hgone, hmem⟩ := moveOld_ok_deleted hwf hwork hold hok
  have hn : w.oldCount = old.length := by simp [World.oldCount, hold]
  have hk : w.artifactCount env = (work.filter (movable env)).length := by
    simp [World.artifactCount, hwork]
  refine ⟨_, old1, deleted, hc1, h1, hdl, ?_, hgone, ?_, ?_, ?_, ?_⟩
  · intro hr
    rw [hn, hk] at hr
    exact hroom hr
  · intro f hf hdir hext
    have hm : movable env f = true := by simp [movable, hdir, hext]
    refine ⟨?_, ?_, ?_⟩
    · intro hmem
      have := (List.mem_filter.mp hmem).2
      rw [hm] at this
      exact absurd this (by simp)
    · intro e he hn
      have he2 := List.mem_filter.mp he
      have := eq_of_name_eq_of_nodup hndw he2.1 hf hn
      rw [this, hm] at he2
      exact absurd he2.2 (by simp)
    · apply (hmem f).mp
      rw [mem_foldl_archive_iff _ (names_moved_nodup hndw)]
      exact Or.inl (mem_moved_iff.mpr ⟨hf, hm⟩)
  · intro e he hcond
    have hm : movable env e = false := by
      rcases hcond with h | h <;> simp [movable, h]
    exact List.mem_filter.mpr ⟨he, by simp [hm]⟩
  · intro e he
    exact (List.mem_filter.mp he).1
  · intro g hg
    apply (hmem g).mp
    rw [mem_foldl_archive_iff _ (names_moved_nodup hndw)]
    right
    refine ⟨hg, ?_⟩
    intro hmem
    obtain ⟨f, hf, hfn⟩ := List.mem_map.mp hmem
    have hf2 := mem_moved_iff.mp hf
    exact hfresh f hf2.1 hf2.2 g hg hfn.symm

set_option maxRecDepth 1000000 in
/-- C3, witness: a full archive and one artifact file older than every archived file; the
call deletes one entry, and the artifact file is in `old` or is that entry. -/
theorem moveOldCertificates_moves_artifacts_witness :
    ∃ work1 old1 deleted,
      (moveOldCertificates calmEnv "certificate" "certificate/old" staleArtifactWorld).2.certDir =
        some work1 ∧
      (moveOldCertificates calmEnv "certificate" "certificate/old" staleArtifactWorld).2.oldDir =
        some old1 ∧
      deleted.length ≤ 1 ∧
      (staleArtifactWorld.oldCount + staleArtifactWorld.artifactCount calmEnv ≤ 100 → deleted = []) ∧
      (∀ d ∈ deleted, ∀ e ∈ old1, e.name ≠ d.name) ∧
      (∀ f ∈ [regularFile "localhost.crt" [1] 5, oldDirEntry],
        f.isDir = false → hasCertExt calmEnv f.name = true →
        f ∉ work1 ∧ (∀ e ∈ work1, e.name ≠ f.name) ∧ (f ∈ old1 ∨ f ∈ deleted)) ∧
      (∀ e ∈ [regularFile "localhost.crt" [1] 5, oldDirEntry],
        (e.isDir = true ∨ hasCertExt calmEnv e.name = false) → e ∈ work1) ∧
      (∀ e ∈ work1, e ∈ [regularFile "localhost.crt" [1] 5, oldDirEntry]) ∧
      (∀ g ∈ archiveOf100, g ∈ old1 ∨ g ∈ deleted) :=
  moveOldCertificates_moves_artifacts calmEnv "certificate" "certificate/old" staleArtifactWorld
    (moveOldCertificates calmEnv "certificate" "certificate/old" staleArtifactWorld).2
    [regularFile "localhost.crt" [1] 5, oldDirEntry] archiveOf100
    (by decide) rfl rfl (by decide) (by decide)

/-! ## C4 -/

/-- C4, counterexample: `localhost.crt` is in the working directory with content `[1]` and
in `old` with content `[2]`; the call returns without error and `old` holds the name with
content `[1]`: the archived content is gone. -/
theorem collision_overwrites_counterexample :
    regularFile "localhost.crt" [1] 500 ∈ collisionWorld.certDir.getD [] ∧
    regularFile "localhost.crt" [2] 100 ∈ collisionWorld.oldDir.getD [] ∧
    (moveOldCertificates calmEnv "certificate" "certificate/old" collisionWorld).1 = none ∧
    (moveOldCertificates calmEnv "certificate" "certificate/old" collisionWorld).2.oldDir =
      some [regularFile "localhost.crt" [1] 500] := by
  decide

theorem moveOld_dir_collision {env : Env} {c o : String} {w : World} {work old : List Entry}
    {f g : Entry} (hwf : w.WF) (hwork : w.certDir = some work) (hold : w.oldDir = some old)
    (hf : f ∈ work) (hm : movable env f = true) (hg : g ∈ old) (hn : g.name = f.name)
    (hdir : g.isDir = true) :
    (moveOldCertificates env c o w).1 ≠ none ∧
    ∃ old1, (moveOldCertificates env c o w).2.oldDir = some old1 ∧ g ∈ old1 := by
  have hndo : (old.map Entry.name).Nodup := by
    have := hwf.2
    rwa [hold] at this
  unfold moveOldCertificates
  have hc2 : (w.emit (.stat c)).certDir = some work := by simpa [World.emit] using hwork
  simp only [hc2]
  split
  · rename_i e wa hrd
    refine ⟨by simp, old, ?_, hg⟩
    simp only [osReadDir_err hrd, World.emit]
    exact hold
  · rename_i files wa hrd
    obtain ⟨l0, hl0, hfiles, _, hwa⟩ := osReadDir_ok hrd
    have hl0w : l0 = work := by
      simp only [World.dir, World.emit] at hl0
      rw [hwork] at hl0
      exact (Option.some.inj hl0).symm
    subst hl0w
    have hwao : wa.oldDir = some old := by rw [hwa]; simpa [World.emit] using hold
    have hcol := moveLoop_dir_collision env c o g hdir files wa old hwao hndo hg
      ⟨f, by rw [hfiles]; exact mem_sortByName.mpr hf, hm, hn.symm⟩
    split
    · rename_i e wb hloop
      rw [hloop] at hcol
      exact ⟨by simp, hcol.2⟩
    · rename_i wb hloop
      rw [hloop] at hcol
      exact absurd rfl hcol.1

/-- C4, amended: when an artifact file of the working directory has a name already taken
in `old`, the rename replaces a regular file: if the call returns without error, every entry
of `old` under that name is the file moved from the working directory, so the content
archived before is not kept. The call returns an error when the name is taken in `old` by a
directory, and that directory stays in `old`. -/
theorem moveOldCertificates_collision (env : Env) (certDir oldCertDir : String)
    (w : World) (work old : List Entry) (f g : Entry)
    (hwf : w.WF) (hwork : w.certDir = some work) (hold : w.oldDir = some old)
    (hf : f ∈ work) (hfile : f.isDir = false) (hext : hasCertExt env f.name = true)
    (hg : g ∈ old) (hname : g.name = f.name) :
    (∀ w1, moveOldCertificates env certDir oldCertDir w = (none, w1) →
      g.isDir = false ∧ ∀ e ∈ w1.oldDir.getD [], e.name = f.name → e = f) ∧
    (g.isDir = true →
      (moveOldCertificates env certDir oldCertDir w).1 ≠ none ∧
      ∃ old1, (moveOldCertificates env certDir oldCertDir w).2.oldDir = some old1 ∧ g ∈ old1) := by
  have hm : movable env f = true := by simp [movable, hfile, hext]
  have hndw : (work.map Entry.name).Nodup := by
    have := hwf.1
    rwa [hwork] at this
  constructor
  · intro w1 hok
    constructor
    · cases hd : g.isDir with
      | false => rfl
      | true =>
        have := (moveOld_dir_collision (c := certDir) (o := oldCertDir) hwf hwork hold hf hm hg
          hname hd).1
        rw [hok] at this
        exact absurd rfl this
    · obtain ⟨old0, ho, _, _, hcase⟩ := moveOld_ok hwf hwork hok
      rw [hold] at ho
      cases ho
      have hmem : ∀ e ∈ ((sortByName work).filter (movable env)).foldl archive old,
          e.name = f.name → e = f := by
        intro e he hn
        rw [mem_foldl_archive_iff _ (names_moved_nodup hndw)] at he
        rcases he with he | ⟨_, hnot⟩
        · exact eq_of_name_eq_of_nodup hndw (mem_moved_iff.mp he).1 hf hn
        · exfalso
          apply hnot
          rw [hn]
          exact List.mem_map_of_mem Entry.name (mem_moved_iff.mpr ⟨hf, hm⟩)
      rcases hcase with ⟨_, h1⟩ | ⟨_, victim, rest, _, _, _, h1⟩
      · intro e he hn
        rw [h1] at he
        exact hmem e he hn
      · intro e he hn
        rw [h1] at he
        exact hmem e (List.mem_filter.mp he).1 hn
  · intro hd
    exact moveOld_dir_collision hwf hwork hold hf hm hg hname hd

/-- C4, witness: the colliding name of `collisionWorld`. -/
theorem moveOldCertificates_collision_witness :
    (∀ w1, moveOldCertificates calmEnv "certificate" "certificate/old" collisionWorld = (none, w1) →
      (regularFile "localhost.crt" [2] 100).isDir = false ∧
      ∀ e ∈ w1.oldDir.getD [], e.name = (regularFile "localhost.crt" [1] 500).name →
        e = regularFile "localhost.crt" [1] 500) ∧
    ((regularFile "localhost.crt" [2] 100).isDir = true →
      (moveOldCertificates calmEnv "certificate" "certificate/old" collisionWorld).1 ≠ none ∧
      ∃ old1, (moveOldCertificates calmEnv "certificate" "certificate/old" collisionWorld).2.oldDir =
        some old1 ∧ regularFile "localhost.crt" [2] 100 ∈ old1) :=
  moveOldCertificates_collision calmEnv "certificate" "certificate/old" collisionWorld
    [regularFile "localhost.crt" [1] 500, oldDirEntry] [regularFile "localhost.crt" [2] 100]
    (regularFile "localhost.crt" [1] 500) (regularFile "localhost.crt" [2] 100)
    (by decide) rfl rfl (by decide) rfl (by decide) (by decide) rfl

/-! ## Paths -/

theorem splitPath_plain (sep : Char → Bool) (r : List Char) (h : ∀ c ∈ r, sep c = false) :
    splitPath sep r = [r] := by
  induction r with
  | nil => rfl
  | cons c r ih =>
    have hc := h c (List.mem_cons_self _ _)
    have ih2 := ih (fun x hx => h x (List.mem_cons_of_mem _ hx))
    simp [splitPath, hc, ih2]

theorem splitPath_append (sep : Char → Bool) (l : List Char) :
    ∃ I t, ∀ r, (∀ c ∈ r, sep c = false) → splitPath sep (l ++ r) = I ++ [t ++ r] := by
  induction l with
  | nil => exact ⟨[], [], fun r hr => by simpa using splitPath_plain sep r hr⟩
  | cons c l ih =>
    obtain ⟨I, t, h⟩ := ih
    by_cases hc : sep c = true
    · refine ⟨[] :: I, t, fun r hr => ?_⟩
      simp [splitPath, hc, h r hr]
    · have hc : sep c = false := by simpa using hc
      cases I with
      | nil =>
        refine ⟨[], c :: t, fun r hr => ?_⟩
        simp [splitPath, hc, h r hr]
      | cons e es =>
        refine ⟨(c :: e) :: es, t, fun r hr => ?_⟩
        simp [splitPath, hc, h r hr]

theorem splitPath_two (sep : Char → Bool) (s : Char) (hs : sep s = true) (l r : List Char)
    (hl : ∀ c ∈ l, sep c = false) (hr : ∀ c ∈ r, sep c = false) :
    splitPath sep (l ++ s :: r) = [l, r] := by
  induction l with
  | nil => simp [splitPath, hs, splitPath_plain sep r hr]
  | cons c l ih =>
    have hc := hl c (List.mem_cons_self _ _)
    have ih2 := ih (fun x hx => hl x (List.mem_cons_of_mem _ hx))
    simp [splitPath, hc, ih2]

theorem cleanElems_cons (rooted : Bool) (e : List Char) (rest acc : List (List Char)) :
    cleanElems rooted (e :: rest) acc =
      if e = [] ∨ e = ['.'] then cleanElems rooted rest acc
      else if e = ['.', '.'] then
        match acc with
        | [] => if rooted then cleanElems rooted rest [] else cleanElems rooted rest [e]
        | top :: below =>
          if top = ['.', '.'] then cleanElems rooted rest (e :: acc) else cleanElems rooted rest below
      else cleanElems rooted rest (e :: acc) := by
  rfl

theorem cleanElems_append_last (rooted : Bool) (I : List (List Char)) :
    ∀ acc, ∃ D, ∀ e, e ≠ [] → e ≠ ['.'] → e ≠ ['.', '.'] →
      cleanElems rooted (I ++ [e]) acc = D ++ [e] := by
  induction I with
  | nil =>
    intro acc
    refine ⟨acc.reverse, fun e h1 h2 h3 => ?_⟩
    simp [cleanElems, h1, h2, h3]
  | cons i I ih =>
    intro acc
    by_cases h1 : i = [] ∨ i = ['.']
    · obtain ⟨D, hD⟩ := ih acc
      refine ⟨D, fun e a b c => ?_⟩
      rw [List.cons_append, cleanElems_cons, if_pos h1]
      exact hD e a b c
    · by_cases h2 : i = ['.', '.']
      · cases acc with
        | nil =>
          cases rooted with
          | true =>
            obtain ⟨D, hD⟩ := ih []
            refine ⟨D, fun e a b c => ?_⟩
            rw [List.cons_append, cleanElems_cons, if_neg h1, if_pos h2]
            simpa using hD e a b c
          | false =>
            obtain ⟨D, hD⟩ := ih [i]
            refine ⟨D, fun e a b c => ?_⟩
            rw [List.cons_append, cleanElems_cons, if_neg h1, if_pos h2]
            simpa using hD e a b c
        | cons top below =>
          by_cases h3 : top = ['.', '.']
          · obtain ⟨D, hD⟩ := ih (i :: top :: below)
            refine ⟨D, fun e a b c => ?_⟩
            rw [List.cons_append, cleanElems_cons, if_neg h1, if_pos h2]
            simpa [h3] using hD e a b c
          · obtain ⟨D, hD⟩ := ih below
            refine ⟨D, fun e a b c => ?_⟩
            rw [List.cons_append, cleanElems_cons, if_neg h1, if_pos h2]
            simpa [h3] using hD e a b c
      · obtain ⟨D, hD⟩ := ih (i :: acc)
        refine ⟨D, fun e a b c => ?_⟩
        rw [List.cons_append, cleanElems_cons, if_neg h1, if_neg h2]
        exact hD e a b c

theorem joinElems_cons_cons (s : Char) (d x : List Char) (xs : List (List Char)) :
    joinElems s (d :: x :: xs) = d ++ s :: joinElems s (x :: xs) := by
  rw [joinElems]

theorem joinElems_append_last (s : Char) (D : List (List Char)) :
    ∃ P, ∀ e, joinElems s (D ++ [e]) = P ++ e := by
  induction D with
  | nil => exact ⟨[], fun e => by simp [joinElems]⟩
  | cons d D ih =>
    obtain ⟨P, hP⟩ := ih
    refine ⟨d ++ s :: P, fun e => ?_⟩
    cases D with
    | nil =>
      have := hP e
      simp only [List.nil_append] at this
      simp only [List.cons_append, List.nil_append, joinElems_cons_cons, this, List.append_assoc,
        List.cons_append]
    | cons x xs =>
      have := hP e
      simp only [List.cons_append] at this
      simp only [List.cons_append, joinElems_cons_cons, this, List.append_assoc]

theorem renderPath_append_last (windows rooted : Bool) (D : List (List Char)) :
    ∃ P, ∀ e, renderPath windows rooted (D ++ [e]) = P ++ e := by
  obtain ⟨P, hP⟩ := joinElems_append_last (separatorChar windows) D
  cases rooted with
  | true => exact ⟨separatorChar windows :: P, fun e => by simp [renderPath, hP e]⟩
  | false => exact ⟨P, fun e => by simp [renderPath, hP e]⟩

theorem placeOf_append_last (windows rooted : Bool) (D : List (List Char)) :
    ∃ (mk : String → Place) (Q : List Char),
      (mk = Place.cert ∨ mk = Place.old ∨ mk = Place.outside) ∧
      ∀ e, placeOf windows rooted (D ++ [e]) = mk (String.mk (Q ++ e)) := by
  obtain ⟨P, hP⟩ := renderPath_append_last windows rooted D
  cases rooted with
  | true =>
    exact ⟨Place.outside, P, Or.inr (Or.inr rfl), fun e => by simp [placeOf, hP e]⟩
  | false =>
    match D, hP with
    | [], hP =>
      exact ⟨Place.outside, P, Or.inr (Or.inr rfl), fun e => by
        have := hP e
        simp only [List.nil_append] at this
        simp [placeOf, this]⟩
    | [c], hP =>
      by_cases hc : c = "certificate".toList
      · exact ⟨Place.cert, [], Or.inl rfl, fun e => by simp [placeOf, hc]⟩
      · exact ⟨Place.outside, P, Or.inr (Or.inr rfl), fun e => by
          have := hP e
          simp only [List.cons_append, List.nil_append] at this
          simp only [List.cons_append, List.nil_append, placeOf, Bool.false_eq_true, if_false,
            if_neg hc, this]⟩
    | [c, o], hP =>
      by_cases hc : c = "certificate".toList ∧ o = "old".toList
      · exact ⟨Place.old, [], Or.inr (Or.inl rfl), fun e => by
          simp only [List.cons_append, List.nil_append, placeOf, Bool.false_eq_true, if_false,
            if_pos hc]⟩
      · exact ⟨Place.outside, P, Or.inr (Or.inr rfl), fun e => by
          have := hP e
          simp only [List.cons_append, List.nil_append] at this
          simp only [List.cons_append, List.nil_append, placeOf, Bool.false_eq_true, if_false,
            if_neg hc, this]⟩
    | c :: o :: x :: rest, hP =>
      exact ⟨Place.outside, P, Or.inr (Or.inr rfl), fun e => by
        have := hP e
        cases rest with
        | nil =>
          simp only [List.cons_append, List.nil_append] at this ⊢
          simp only [placeOf, Bool.false_eq_true, if_false, this]
        | cons y ys =>
          simp only [List.cons_append] at this ⊢
          simp only [placeOf, Bool.false_eq_true, if_false, this]⟩

theorem isRooted_append (windows : Bool) (l : List Char) :
    ∃ b, ∀ r, (∀ c ∈ r, isPathSeparator windows c = false) → isRooted windows (l ++ r) = b := by
  cases l with
  | nil =>
    refine ⟨false, fun r hr => ?_⟩
    cases r with
    | nil => rfl
    | cons c r => simpa [isRooted] using hr c (List.mem_cons_self _ _)
  | cons c l => exact ⟨isPathSeparator windows c, fun r _ => rfl⟩

theorem not_special_of_length {e : List Char} (h : 2 < e.length) :
    e ≠ [] ∧ e ≠ ['.'] ∧ e ≠ ['.', '.'] := by
  refine ⟨?_, ?_, ?_⟩ <;> intro he <;> rw [he] at h <;> simp at h

/-- The cleaned form of a path that ends in a separator-free run of more than two
characters ends in that run, after a prefix that does not depend on it. -/
theorem filepathClean_suffix (windows : Bool) (l : List Char) :
    ∃ P, ∀ r, (∀ c ∈ r, isPathSeparator windows c = false) → 2 < r.length →
      filepathClean windows (String.mk (l ++ r)) = String.mk (P ++ r) := by
  obtain ⟨b, hb⟩ := isRooted_append windows l
  obtain ⟨I, t, hI⟩ := splitPath_append (isPathSeparator windows) l
  obtain ⟨D, hD⟩ := cleanElems_append_last b I []
  obtain ⟨P, hP⟩ := renderPath_append_last windows b D
  refine ⟨P ++ t, fun r hr hlen => ?_⟩
  obtain ⟨h1, h2, h3⟩ := not_special_of_length (e := t ++ r) (by simp; omega)
  unfold filepathClean
  simp only [String.toList]
  rw [hb r hr, hI r hr, hD _ h1 h2 h3, hP, List.append_assoc]

/-- The place of a path that ends in a separator-free run of more than two characters:
its kind does not depend on the run, and its name ends in the run. -/
theorem locate_suffix (env : Env) (l : List Char) :
    ∃ (mk : String → Place) (Q : List Char),
      (mk = Place.cert ∨ mk = Place.old ∨ mk = Place.outside) ∧
      ∀ r, (∀ c ∈ r, isPathSeparator env.windows c = false) → 2 < r.length →
        locate env (String.mk (l ++ r)) = mk (String.mk (Q ++ r)) := by
  obtain ⟨b, hb⟩ := isRooted_append env.windows l
  obtain ⟨I, t, hI⟩ := splitPath_append (isPathSeparator env.windows) l
  obtain ⟨D, hD⟩ := cleanElems_append_last b I []
  obtain ⟨mk, Q, hk, hQ⟩ := placeOf_append_last env.windows b D
  refine ⟨mk, Q ++ t, hk, fun r hr hlen => ?_⟩
  obtain ⟨h1, h2, h3⟩ := not_special_of_length (e := t ++ r) (by simp; omega)
  unfold locate
  simp only [String.toList]
  rw [hb r hr, hI r hr, hD _ h1 h2 h3, hQ, List.append_assoc]

theorem certificate_ne_empty : ("certificate" : String) ≠ "" := by decide

theorem append_ne_empty (base suffix : String) (h : 2 < suffix.length) : base ++ suffix ≠ "" := by
  intro he
  have := congrArg String.length he
  simp at this
  omega

/-- The place of a file of the run: for a given base name the kind of the place and the
front of its name are the same for every ending. -/
theorem locate_join (env : Env) (base : String) :
    ∃ (mk : String → Place) (q : String),
      (mk = Place.cert ∨ mk = Place.old ∨ mk = Place.outside) ∧
      ∀ suffix : String, (∀ c ∈ suffix.toList, isPathSeparator env.windows c = false) →
        2 < suffix.length →
        locate env (filepathJoin env "certificate" (base ++ suffix)) = mk (q ++ suffix) := by
  obtain ⟨P, hP⟩ := filepathClean_suffix env.windows
    ("certificate" ++ pathSeparator env.windows ++ base).toList
  obtain ⟨mk, Q, hk, hQ⟩ := locate_suffix env P
  refine ⟨mk, String.mk Q, hk, fun suffix hs hlen => ?_⟩
  have hj : filepathJoin env "certificate" (base ++ suffix) =
      filepathClean env.windows (String.mk
        (("certificate" ++ pathSeparator env.windows ++ base).toList ++ suffix.toList)) := by
    unfold filepathJoin
    rw [if_neg certificate_ne_empty, if_neg (append_ne_empty base suffix hlen)]
    congr 1
  have hlen2 : 2 < suffix.toList.length := by simpa using hlen
  rw [hj, hP _ hs hlen2, hQ _ hs hlen2]
  congr 1

/-- The place of a file of the run whose name has no separator is an entry of
`certificate`, and its path is the directory, a separator and the name. -/
theorem locate_join_plain (env : Env) (n : String)
    (hn : ∀ c ∈ n.toList, isPathSeparator env.windows c = false) (hlen : 2 < n.length) :
    filepathJoin env "certificate" n = "certificate" ++ pathSeparator env.windows ++ n ∧
    locate env (filepathJoin env "certificate" n) = .cert n := by
  have hne : n ≠ "" := by
    have := append_ne_empty "" n hlen
    simpa using this
  have hsep : isPathSeparator env.windows (separatorChar env.windows) = true := by
    cases env.windows <;> decide
  have hcert : ∀ c ∈ "certificate".toList, isPathSeparator env.windows c = false := by
    cases env.windows <;> decide
  have hroot : ∀ rest, isRooted env.windows ("certificate".toList ++ rest) = false := by
    intro rest
    cases env.windows <;> rfl
  have hlen2 : 2 < n.toList.length := by simpa using hlen
  obtain ⟨h1, h2, h3⟩ := not_special_of_length hlen2
  have hdata : ("certificate" ++ pathSeparator env.windows ++ n).toList =
      "certificate".toList ++ separatorChar env.windows :: n.toList := by
    simp [String.toList, String.data_append, pathSeparator]
  have hclean : cleanElems false ["certificate".toList, n.toList] [] =
      ["certificate".toList, n.toList] := by
    have hc1 : ¬ ("certificate".toList = [] ∨ "certificate".toList = ['.']) := by decide
    have hc2 : ¬ ("certificate".toList = ['.', '.']) := by decide
    rw [cleanElems_cons, if_neg hc1, if_neg hc2, cleanElems_cons, if_neg (not_or.mpr ⟨h1, h2⟩),
      if_neg h3]
    rfl
  have hj : filepathJoin env "certificate" n = "certificate" ++ pathSeparator env.windows ++ n := by
    unfold filepathJoin
    rw [if_neg certificate_ne_empty, if_neg hne]
    unfold filepathClean
    rw [hdata, hroot, splitPath_two _ _ hsep _ _ hcert hn, hclean]
    apply String.ext
    simp [renderPath, joinElems, String.data_append, pathSeparator, String.toList]
  refine ⟨hj, ?_⟩
  rw [hj]
  unfold locate
  rw [hdata, hroot, splitPath_two _ _ hsep _ _ hcert hn, hclean]
  simp [placeOf, String.toList]

/-! ## Timestamps -/

theorem digitChar_plain (windows : Bool) (d : Nat) :
    isPathSeparator windows (digitChar d) = false := by
  unfold digitChar
  have h : d % 10 < 10 := Nat.mod_lt _ (by decide)
  generalize d % 10 = k at h
  interval_cases k <;> cases windows <;> decide

theorem decimalDigits_plain (windows : Bool) (fuel : Nat) :
    ∀ n, ∀ c ∈ decimalDigits fuel n, isPathSeparator windows c = false := by
  induction fuel with
  | zero => intro n c hc; simp [decimalDigits] at hc
  | succ fuel ih =>
    intro n c hc
    rw [decimalDigits] at hc
    split at hc
    · rw [List.mem_singleton] at hc
      rw [hc]
      exact digitChar_plain windows n
    · rcases List.mem_append.mp hc with h | h
      · exact ih _ c h
      · rw [List.mem_singleton] at h
        rw [h]
        exact digitChar_plain windows n

theorem zeroPad_plain (windows : Bool) (width n : Nat) :
    ∀ c ∈ zeroPad width n, isPathSeparator windows c = false := by
  intro c hc
  unfold zeroPad at hc
  rcases List.mem_append.mp hc with h | h
  · rw [(List.mem_replicate.mp h).2]
    cases windows <;> decide
  · exact decimalDigits_plain windows _ _ c h

theorem formatTimestamp_plain (windows : Bool) (t : LocalTime) :
    ∀ c ∈ (formatTimestamp t).toList, isPathSeparator windows c = false := by
  intro c hc
  unfold formatTimestamp at hc
  simp only [String.toList, List.mem_append, List.mem_cons] at hc
  rcases hc with ((h | h) | h) | h | (h | h) | h
  · exact zeroPad_plain windows _ _ c h
  · exact zeroPad_plain windows _ _ c h
  · exact zeroPad_plain windows _ _ c h
  · rw [h]; cases windows <;> decide
  · exact zeroPad_plain windows _ _ c h
  · exact zeroPad_plain windows _ _ c h
  · exact zeroPad_plain windows _ _ c h

/-! ## Writes -/

theorem find_map_other {l : List Entry} {n m : String} (f : Entry → Entry)
    (hf : ∀ e, (f e).name = e.name) (hid : ∀ e, e.name ≠ n → f e = e) (hm : m ≠ n) :
    (l.map f).find? (fun e => e.name == m) = l.find? (fun e => e.name == m) := by
  induction l with
  | nil => rfl
  | cons a l ih =>
    simp only [List.map_cons, List.find?_cons]
    rw [hf a]
    by_cases ha : a.name = m
    · have han : a.name ≠ n := by rw [ha]; exact hm
      simp [ha, hid a han]
    · have hb : (a.name == m) = false := by simpa using ha
      simp only [hb]
      exact ih

theorem find_map_self {l : List Entry} {n : String} {g : Entry} (f : Entry → Entry)
    (hf : ∀ e, (f e).name = e.name) (hg : l.find? (fun e => e.name == n) = some g) :
    (l.map f).find? (fun e => e.name == n) = some (f g) := by
  induction l with
  | nil => cases hg
  | cons a l ih =>
    simp only [List.map_cons, List.find?_cons] at hg ⊢
    rw [hf a]
    by_cases ha : a.name = n
    · simp only [ha, beq_self_eq_true] at hg ⊢
      rw [Option.some.inj hg]
    · have hb : (a.name == n) = false := by simpa using ha
      simp only [hb] at hg ⊢
      exact ih hg

/-- What a write leaves in the listing that holds its target. -/
theorem writeEntry_some {env : Env} {l l1 : List Entry} {n : String} {data : Blob} {perm now : Nat}
    (h : writeEntry env l n data perm now = some l1) :
    (∀ e ∈ l, e.name ≠ n → e ∈ l1) ∧
    (∀ e ∈ l1, e.name = n ∨ e ∈ l) ∧
    (∀ e ∈ l1, e.name = n → e.content = data) ∧
    (∃ e, l1.find? (fun e => e.name == n) = some e ∧ e.content = data ∧ e.isDir = false) ∧
    (∀ m, m ≠ n → l1.find? (fun e => e.name == m) = l.find? (fun e => e.name == m)) ∧
    ((∀ e ∈ l, e.name ≠ n) → (⟨n, false, data, createMode env perm, now⟩ : Entry) ∈ l1) ∧
    ((l.map Entry.name).Nodup → (l1.map Entry.name).Nodup) := by
  unfold writeEntry at h
  split at h
  · rename_i g hg
    split at h
    · cases h
    · rename_i hdir
      have hdir : g.isDir = false := by simpa using hdir
      have hl1 := (Option.some.inj h).symm
      have hname : ∀ e : Entry,
          (if e.name == n then { e with content := data, modTime := now } else e).name = e.name := by
        intro e
        by_cases hen : e.name = n <;> simp [hen]
      have hid : ∀ e : Entry, e.name ≠ n →
          (if e.name == n then { e with content := data, modTime := now } else e) = e := by
        intro e hen
        simp [hen]
      rw [hl1]
      refine ⟨?_, ?_, ?_, ?_, ?_, ?_, ?_⟩
      · intro e he hne
        exact List.mem_map.mpr ⟨e, he, hid e hne⟩
      · intro e he
        obtain ⟨x, hx, hxe⟩ := List.mem_map.mp he
        by_cases hxn : x.name = n
        · left
          rw [← hxe, hname, hxn]
        · right
          rw [hid x hxn] at hxe
          rw [← hxe]
          exact hx
      · intro e he hn
        obtain ⟨x, hx, hxe⟩ := List.mem_map.mp he
        by_cases hxn : x.name = n
        · simp only [hxn, beq_self_eq_true, if_true] at hxe
          rw [← hxe]
        · rw [hid x hxn] at hxe
          rw [← hxe] at hn
          exact absurd hn hxn
      · refine ⟨_, find_map_self _ hname hg, ?_, ?_⟩
        · simp [(find_name_some hg).2]
        · simp [(find_name_some hg).2, hdir]
      · intro m hm
        exact find_map_other _ hname hid hm
      · intro hfresh
        exact absurd (find_name_some hg).2 (hfresh g (find_name_some hg).1)
      · intro hnd
        have : (l.map (fun e =>
            if e.name == n then { e with content := data, modTime := now } else e)).map
            Entry.name = l.map Entry.name := by
          rw [List.map_map]
          apply List.map_congr_left
          intro e _
          exact hname e
        rw [this]
        exact hnd
  · rename_i hg
    have hfresh := find_name_none hg
    have hl1 := (Option.some.inj h).symm
    rw [hl1]
    refine ⟨?_, ?_, ?_, ?_, ?_, ?_, ?_⟩
    · intro e he _
      exact List.mem_append_left _ he
    · intro e he
      rcases List.mem_append.mp he with he | he
      · exact Or.inr he
      · left
        rw [List.mem_singleton.mp he]
    · intro e he hn
      rcases List.mem_append.mp he with he | he
      · exact absurd hn (hfresh e he)
      · rw [List.mem_singleton.mp he]
    · refine ⟨⟨n, false, data, createMode env perm, now⟩, ?_, rfl, rfl⟩
      rw [List.find?_append, hg]
      simp
    · intro m hm
      rw [List.find?_append]
      have : ([(⟨n, false, data, createMode env perm, now⟩ : Entry)].find?
          (fun e => e.name == m)) = none := by
        simp [List.find?_cons, Ne.symm hm]
      rw [this]
      simp
    · intro _
      exact List.mem_append_right _ (List.mem_singleton.mpr rfl)
    · intro hnd
      rw [List.map_append, List.nodup_append]
      refine ⟨hnd, by simp, ?_⟩
      intro x hx hx2
      obtain ⟨e, he, rfl⟩ := List.mem_map.mp hx
      have : e.name = n := by simpa using hx2
      exact hfresh e he this

theorem osWriteFile_err {env : Env} {p e : String} {data : Blob} {perm : Nat} {w w1 : World}
    (h : osWriteFile env p data perm w = (some e, w1)) : w1 = w.emit (.writeFile p perm) := by
  unfold osWriteFile at h
  simp only at h
  split at h
  · simp only [Prod.mk.injEq] at h; exact h.2.symm
  · split at h
    · split at h
      · simp only [Prod.mk.injEq] at h; exact h.2.symm
      · split at h
        · simp only [Prod.mk.injEq] at h; exact h.2.symm
        · cases h
    · split at h
      · simp only [Prod.mk.injEq] at h; exact h.2.symm
      · split at h
        · simp only [Prod.mk.injEq] at h; exact h.2.symm
        · cases h
    · split at h
      · simp only [Prod.mk.injEq] at h; exact h.2.symm
      · cases h

/-- A successful write: the listing that holds the target is rewritten, the two others are
left alone. -/
theorem osWriteFile_ok {env : Env} {p : String} {data : Blob} {perm : Nat} {w w1 : World}
    (h : osWriteFile env p data perm w = (none, w1)) :
    w1.tick = w.tick + 1 ∧
    ∃ l1, writeEntry env (w.listAt (locate env p)) (locate env p).key data perm (env.clock w.tick)
        = some l1 ∧
      w1.listAt (locate env p) = l1 ∧
      ((∃ n, locate env p = .cert n ∧ w.certDir ≠ none ∧ w1.certDir = some l1 ∧
          w1.oldDir = w.oldDir ∧ w1.outside = w.outside) ∨
        (∃ n, locate env p = .old n ∧ w.oldDir ≠ none ∧ w1.oldDir = some l1 ∧
          w1.certDir = w.certDir ∧ w1.outside = w.outside) ∨
        (∃ q, locate env p = .outside q ∧ w1.outside = l1 ∧
          w1.certDir = w.certDir ∧ w1.oldDir = w.oldDir)) := by
  unfold osWriteFile at h
  simp only [World.emit] at h
  split at h
  · cases h
  · split at h
    · rename_i n hloc
      split at h
      · cases h
      · rename_i work hc
        split at h
        · cases h
        · rename_i work1 hwe
          simp only [Prod.mk.injEq, true_and] at h
          rw [hloc]
          refine ⟨by rw [← h], work1, ?_, by rw [← h]; rfl, Or.inl ⟨n, rfl, ?_, ?_, ?_, ?_⟩⟩
          · simp only [World.listAt, World.files, hc, Option.getD_some, Place.key]
            exact hwe
          · rw [hc]; simp
          · rw [← h]
          · rw [← h]
          · rw [← h]
    · rename_i n hloc
      split at h
      · cases h
      · rename_i old ho
        split at h
        · cases h
        · rename_i old1 hwe
          simp only [Prod.mk.injEq, true_and] at h
          rw [hloc]
          refine ⟨by rw [← h], old1, ?_, by rw [← h]; rfl, Or.inr (Or.inl ⟨n, rfl, ?_, ?_, ?_, ?_⟩)⟩
          · simp only [World.listAt, World.archived, ho, Option.getD_some, Place.key]
            exact hwe
          · rw [ho]; simp
          · rw [← h]
          · rw [← h]
          · rw [← h]
    · rename_i q hloc
      split at h
      · cases h
      · rename_i out1 hwe
        simp only [Prod.mk.injEq, true_and] at h
        rw [hloc]
        refine ⟨by rw [← h], out1, ?_, by rw [← h]; rfl, Or.inr (Or.inr ⟨q, rfl, ?_, ?_, ?_⟩)⟩
        · simp only [World.listAt, Place.key]
          exact hwe
        · rw [← h]
        · rw [← h]
        · rw [← h]

/-- What a successful write to an entry of `certificate` leaves in the working directory. -/
theorem osWriteFile_files {env : Env} {p n : String} {data : Blob} {perm : Nat} {w w1 : World}
    (hloc : locate env p = .cert n)
    (h : osWriteFile env p data perm w = (none, w1)) :
    w1.certDir ≠ none ∧ w1.oldDir = w.oldDir ∧ w1.outside = w.outside ∧ w1.tick = w.tick + 1 ∧
    (∀ e ∈ w.files, e.name ≠ n → e ∈ w1.files) ∧
    (∀ e ∈ w1.files, e.name = n ∨ e ∈ w.files) ∧
    (∀ e ∈ w1.files, e.name = n → e.content = data) ∧
    (∃ e ∈ w1.files, e.name = n) ∧
    ((∀ e ∈ w.files, e.name ≠ n) →
      (⟨n, false, data, createMode env perm, env.clock w.tick⟩ : Entry) ∈ w1.files) ∧
    ((w.files.map Entry.name).Nodup → (w1.files.map Entry.name).Nodup) := by
  obtain ⟨ht, l1, hwe, _, hcase⟩ := osWriteFile_ok h
  rw [hloc] at hwe hcase
  simp only [World.listAt, Place.key] at hwe
  obtain ⟨h1, h2, h3, ⟨e, he, _⟩, _, h6, h7⟩ := writeEntry_some hwe
  rcases hcase with ⟨_, _, _, hc1, ho, hout⟩ | ⟨_, hx, _⟩ | ⟨_, hx, _⟩
  · have hf : w1.files = l1 := by simp [World.files, hc1]
    rw [hf]
    exact ⟨by rw [hc1]; simp, ho, hout, ht, h1, h2, h3,
      ⟨e, (find_name_some he).1, (find_name_some he).2⟩, h6, h7⟩
  · cases hx
  · cases hx

/-- A write, whether it succeeds or not, keeps every entry that does not have the name of
its target. -/
theorem osWriteFile_keeps {env : Env} {p : String} {data : Blob} {perm : Nat} {w w1 : World}
    {r : Option String} (h : osWriteFile env p data perm w = (r, w1)) :
    (∀ x ∈ w.files, x.name ≠ (locate env p).key → x ∈ w1.files) ∧
    (∀ x ∈ w.archived, x.name ≠ (locate env p).key → x ∈ w1.archived) ∧
    (∀ x ∈ w.outside, x.name ≠ (locate env p).key → x ∈ w1.outside) := by
  cases r with
  | some e =>
    rw [osWriteFile_err h]
    exact ⟨fun x hx _ => hx, fun x hx _ => hx, fun x hx _ => hx⟩
  | none =>
    obtain ⟨_, l1, hwe, _, hcase⟩ := osWriteFile_ok h
    obtain ⟨h1, _⟩ := writeEntry_some hwe
    rcases hcase with ⟨n, hloc, _, hc1, ho, hout⟩ | ⟨n, hloc, _, ho1, hc, hout⟩ |
      ⟨q, hloc, hout1, hc, ho⟩
    · rw [hloc] at h1 ⊢
      simp only [World.listAt, Place.key] at h1 ⊢
      refine ⟨?_, ?_, ?_⟩
      · intro x hx hn
        have : w1.files = l1 := by simp [World.files, hc1]
        rw [this]
        exact h1 x hx hn
      · intro x hx _
        simpa [World.archived, ho] using hx
      · intro x hx _
        rw [hout]
        exact hx
    · rw [hloc] at h1 ⊢
      simp only [World.listAt, Place.key] at h1 ⊢
      refine ⟨?_, ?_, ?_⟩
      · intro x hx _
        simpa [World.files, hc] using hx
      · intro x hx hn
        have : w1.archived = l1 := by simp [World.archived, ho1]
        rw [this]
        exact h1 x hx hn
      · intro x hx _
        rw [hout]
        exact hx
    · rw [hloc] at h1 ⊢
      simp only [World.listAt, Place.key] at h1 ⊢
      refine ⟨?_, ?_, ?_⟩
      · intro x hx _
        simpa [World.files, hc] using hx
      · intro x hx _
        simpa [World.archived, ho] using hx
      · intro x hx hn
        rw [hout1]
        exact h1 x hx hn

/-- After a successful write the target is a regular file holding the data. -/
theorem osWriteFile_lookup_self {env : Env} {p : String} {data : Blob} {perm : Nat} {w w1 : World}
    (h : osWriteFile env p data perm w = (none, w1)) :
    ∃ e, w1.lookup (locate env p) = some e ∧ e.content = data ∧ e.isDir = false := by
  obtain ⟨_, l1, hwe, hl, _⟩ := osWriteFile_ok h
  obtain ⟨_, _, _, ⟨e, he, hc, hd⟩, _⟩ := writeEntry_some hwe
  refine ⟨e, ?_, hc, hd⟩
  unfold World.lookup
  rw [hl]
  exact he

/-- A write, whether it succeeds or not, leaves what is found at every other place. -/
theorem osWriteFile_lookup_other {env : Env} {p : String} {data : Blob} {perm : Nat} {w w1 : World}
    {r : Option String} (h : osWriteFile env p data perm w = (r, w1))
    (pl : Place) (hpl : pl ≠ locate env p) : w1.lookup pl = w.lookup pl := by
  cases r with
  | some e =>
    rw [osWriteFile_err h]
    rfl
  | none =>
    obtain ⟨_, l1, hwe, _, hcase⟩ := osWriteFile_ok h
    obtain ⟨_, _, _, _, hother, _⟩ := writeEntry_some hwe
    have hf : ∀ (a b : World), a.certDir = b.certDir → a.files = b.files := by
      intro a b hab
      simp [World.files, hab]
    have ha : ∀ (a b : World), a.oldDir = b.oldDir → a.archived = b.archived := by
      intro a b hab
      simp [World.archived, hab]
    rcases hcase with ⟨n, hloc, _, hc1, ho, hout⟩ | ⟨n, hloc, _, ho1, hc, hout⟩ |
      ⟨q, hloc, hout1, hc, ho⟩
    · rw [hloc] at hother hpl
      simp only [World.listAt, Place.key] at hother
      cases pl with
      | cert m =>
        have hm : m ≠ n := fun hmn => hpl (by rw [hmn])
        have : w1.files = l1 := by simp [World.files, hc1]
        simp only [World.lookup, World.listAt, Place.key, this]
        exact hother m hm
      | old m => simp only [World.lookup, World.listAt, Place.key, ha _ _ ho]
      | outside m => simp only [World.lookup, World.listAt, Place.key, hout]
    · rw [hloc] at hother hpl
      simp only [World.listAt, Place.key] at hother
      cases pl with
      | cert m => simp only [World.lookup, World.listAt, Place.key, hf _ _ hc]
      | old m =>
        have hm : m ≠ n := fun hmn => hpl (by rw [hmn])
        have : w1.archived = l1 := by simp [World.archived, ho1]
        simp only [World.lookup, World.listAt, Place.key, this]
        exact hother m hm
      | outside m => simp only [World.lookup, World.listAt, Place.key, hout]
    · rw [hloc] at hother hpl
      simp only [World.listAt, Place.key] at hother
      cases pl with
      | cert m => simp only [World.lookup, World.listAt, Place.key, hf _ _ hc]
      | old m => simp only [World.lookup, World.listAt, Place.key, ha _ _ ho]
      | outside m =>
        have hm : m ≠ q := fun hmn => hpl (by rw [hmn])
        simp only [World.lookup, World.listAt, Place.key, hout1]
        exact hother m hm

/-! ## Generation, directory creation, trust store and loading -/

theorem Generate_ok {env : Env} {org dns : List String} {w w1 : World} {cert key : Blob}
    (h : GenerateSelfSignedCertificate env org dns w = (.ok (cert, key), w1)) :
    ∃ priv, env.generateKey = .ok priv ∧
      cert = .pem "CERTIFICATE" (.certificate
        { serialNumber := 1
          issuer := { organization := org }
          subject := { organization := org }
          notBefore := env.clock w.tick
          notAfter := env.clock w.tick + 365 * 24 * timeHour
          keyUsage := KeyUsageKeyEncipherment ||| KeyUsageDigitalSignature
          extKeyUsage := [ExtKeyUsageServerAuth]
          basicConstraintsValid := true
          dnsNames := dns
          publicKey := some priv.publicKey
          signedBy := some priv.publicKey }) ∧
      key = .pem "EC PRIVATE KEY" (.ecPrivateKey priv) ∧
      w1.certDir = w.certDir ∧ w1.oldDir = w.oldDir ∧ w1.tick = w.tick + 1 ∧
      w1.outside = w.outside := by
  unfold GenerateSelfSignedCertificate at h
  simp only [timeNow, World.emit, x509CreateCertificate, x509MarshalECPrivateKey] at h
  split at h
  · cases h
  · rename_i priv hpriv
    split at h
    · cases h
    · rename_i certDER hcert
      split at h
      · cases h
      · rename_i keyDER hkey
        simp only [Prod.mk.injEq, Except.ok.injEq] at h
        obtain ⟨⟨hc, hk⟩, hw⟩ := h
        split at hcert
        · cases hcert
        · split at hkey
          · cases hkey
          · simp only [Except.ok.injEq] at hcert hkey
            refine ⟨priv, hpriv, ?_, ?_, ?_, ?_, ?_, ?_⟩
            · rw [← hc, ← hcert]
            · rw [← hk, ← hkey]
            · rw [← hw]
            · rw [← hw]
            · rw [← hw]
            · rw [← hw]

theorem Generate_err {env : Env} {org dns : List String} {w w1 : World} {e : String}
    (h : GenerateSelfSignedCertificate env org dns w = (.error e, w1)) :
    w1.certDir = w.certDir ∧ w1.oldDir = w.oldDir ∧ w1.outside = w.outside := by
  unfold GenerateSelfSignedCertificate at h
  simp only [timeNow, World.emit] at h
  split at h
  · simp only [Prod.mk.injEq] at h
    rw [← h.2]
    exact ⟨rfl, rfl, rfl⟩
  · split at h
    · simp only [Prod.mk.injEq] at h
      rw [← h.2]
      exact ⟨rfl, rfl, rfl⟩
    · split at h
      · simp only [Prod.mk.injEq] at h
        rw [← h.2]
        exact ⟨rfl, rfl, rfl⟩
      · cases h

theorem osMkdirAll_WF (env : Env) (p : String) (perm : Nat) {w : World} (hwf : w.WF) :
    (osMkdirAll env p perm w).WF := by
  unfold osMkdirAll
  simp only [World.emit]
  split
  · exact hwf
  · split
    · exact ⟨by simp, by simpa using hwf.2⟩
    · rename_i work hc
      split
      · exact hwf
      · rename_i hfind
        have h1 := hwf.1
        rw [hc] at h1
        simp only [Option.getD_some] at h1
        constructor
        · simp only [Option.getD_some, List.map_append, List.map_cons, List.map_nil]
          rw [List.nodup_append]
          refine ⟨h1, by simp, ?_⟩
          intro x hx hx2
          obtain ⟨e, he, rfl⟩ := List.mem_map.mp hx
          have : e.name = "old" := by simpa using hx2
          exact find_name_none hfind e he this
        · simpa using hwf.2

/-- Creating the directories keeps the archive and adds at most the entry of `old`, a
directory, to the working directory. -/
theorem osMkdirAll_files (env : Env) (p : String) (perm : Nat) (w : World) :
    (osMkdirAll env p perm w).archived = w.archived ∧
    (osMkdirAll env p perm w).outside = w.outside ∧
    (∀ e ∈ w.files, e ∈ (osMkdirAll env p perm w).files) ∧
    ((osMkdirAll env p perm w).files.filter (movable env)).length =
      (w.files.filter (movable env)).length := by
  unfold osMkdirAll
  simp only [World.emit]
  split
  · exact ⟨rfl, rfl, fun e he => he, rfl⟩
  · split
    · rename_i hc
      refine ⟨by simp [World.archived], rfl, ?_, ?_⟩
      · intro e he
        simp [World.files, hc] at he
      · simp [World.files, hc, movable]
    · rename_i work hc
      split
      · exact ⟨rfl, rfl, fun e he => he, rfl⟩
      · refine ⟨by simp [World.archived], rfl, ?_, ?_⟩
        · intro e he
          simp only [World.files, hc, Option.getD_some] at he ⊢
          exact List.mem_append_left _ he
        · simp [World.files, hc, movable]

theorem Remove_dirs (env : Env) :
    ∀ (org : List String) (w w1 : World) (r : Option String),
      RemoveCertificateFromCurrentUser env org w = (r, w1) →
      w1.certDir = w.certDir ∧ w1.oldDir = w.oldDir ∧ w1.tick = w.tick ∧ w1.outside = w.outside := by
  intro org
  induction org with
  | nil =>
    intro w w1 r h
    simp only [RemoveCertificateFromCurrentUser, Prod.mk.injEq] at h
    rw [← h.2]
    exact ⟨rfl, rfl, rfl, rfl⟩
  | cons o rest ih =>
    intro w w1 r h
    rw [RemoveCertificateFromCurrentUser] at h
    simp only [runPowershell] at h
    split at h
    · simp only [Prod.mk.injEq] at h
      rw [← h.2]
      exact ⟨rfl, rfl, rfl, rfl⟩
    · have := ih _ _ _ h
      simpa [World.emit] using this

theorem plain_pem (windows : Bool) : ∀ c ∈ (".pem" : String).toList, isPathSeparator windows c = false := by
  cases windows <;> decide

theorem plain_crt (windows : Bool) : ∀ c ∈ (".crt" : String).toList, isPathSeparator windows c = false := by
  cases windows <;> decide

theorem plain_key (windows : Bool) : ∀ c ∈ (".key" : String).toList, isPathSeparator windows c = false := by
  cases windows <;> decide

theorem length_append_gt (front suffix : String) (h : 2 < suffix.length) :
    2 < (front ++ suffix).length := by
  simp only [String.length_append]
  omega

theorem key_of_kind {mk : String → Place}
    (hk : mk = Place.cert ∨ mk = Place.old ∨ mk = Place.outside) (s : String) : (mk s).key = s := by
  rcases hk with h | h | h <;> rw [h] <;> rfl

theorem kind_injective {mk : String → Place}
    (hk : mk = Place.cert ∨ mk = Place.old ∨ mk = Place.outside) {s t : String} (h : s ≠ t) :
    mk s ≠ mk t := by
  intro heq
  have := congrArg Place.key heq
  rw [key_of_kind hk, key_of_kind hk] at this
  exact h this

/-- The name of the place of the `.pem` copy ends in `.pem`. -/
theorem pem_place_key (env : Env) (front : String) :
    ∃ s : String, (locate env (filepathJoin env "certificate" (front ++ ".pem"))).key = s ++ ".pem" := by
  obtain ⟨mk, q, hk, h⟩ := locate_join env front
  refine ⟨q, ?_⟩
  rw [h ".pem" (plain_pem env.windows) (by decide), key_of_kind hk]

/-- The trust-store step touches no file other than a `.pem` file. -/
theorem AddCertificate_files {env : Env} {certName : String} {org : List String} {pem : Blob}
    {w w1 : World} {r : Option String}
    (h : AddCertificateToWindowsCAStore env certName org pem w = (r, w1)) :
    (∀ e ∈ w.files, (∀ s : String, e.name ≠ s ++ ".pem") → e ∈ w1.files) ∧
    (∀ e ∈ w.archived, (∀ s : String, e.name ≠ s ++ ".pem") → e ∈ w1.archived) ∧
    (∀ e ∈ w.outside, (∀ s : String, e.name ≠ s ++ ".pem") → e ∈ w1.outside) ∧
    (∀ pl : Place, (∀ s : String, pl.key ≠ s ++ ".pem") → w1.lookup pl = w.lookup pl) := by
  have hsame : ∀ a b : World, a.certDir = b.certDir → a.oldDir = b.oldDir →
      a.outside = b.outside →
      (∀ e ∈ b.files, (∀ s : String, e.name ≠ s ++ ".pem") → e ∈ a.files) ∧
      (∀ e ∈ b.archived, (∀ s : String, e.name ≠ s ++ ".pem") → e ∈ a.archived) ∧
      (∀ e ∈ b.outside, (∀ s : String, e.name ≠ s ++ ".pem") → e ∈ a.outside) ∧
      (∀ pl : Place, (∀ s : String, pl.key ≠ s ++ ".pem") → a.lookup pl = b.lookup pl) := by
    intro a b h1 h2 h3
    have hf : a.files = b.files := by simp [World.files, h1]
    have ha : a.archived = b.archived := by simp [World.archived, h2]
    refine ⟨fun e he _ => hf ▸ he, fun e he _ => ha ▸ he, fun e he _ => h3 ▸ he, ?_⟩
    intro pl _
    cases pl <;> simp only [World.lookup, World.listAt, hf, ha, h3]
  unfold AddCertificateToWindowsCAStore at h
  split at h
  · rename_i e wa hrem
    obtain ⟨h1, h2, _, h3⟩ := Remove_dirs env _ _ _ _ hrem
    simp only [Prod.mk.injEq] at h
    rw [← h.2]
    exact hsame _ _ h1 h2 h3
  · rename_i wa hrem
    obtain ⟨h1, h2, _, h3⟩ := Remove_dirs env _ _ _ _ hrem
    have hf : wa.files = w.files := by simp [World.files, h1]
    have ha : wa.archived = w.archived := by simp [World.archived, h2]
    simp only [timeNow, runPowershell] at h
    have hfinal : ∀ (r0 : Option String) (wb : World),
        osWriteFile env (filepathJoin env "certificate"
          (certName ++ "_ca_" ++ formatTimestamp (env.localTime (env.clock wa.tick)) ++ ".pem"))
          pem 0o644 { wa with tick := wa.tick + 1 } = (r0, wb) →
        (∀ e ∈ w.files, (∀ s : String, e.name ≠ s ++ ".pem") → e ∈ wb.files) ∧
        (∀ e ∈ w.archived, (∀ s : String, e.name ≠ s ++ ".pem") → e ∈ wb.archived) ∧
        (∀ e ∈ w.outside, (∀ s : String, e.name ≠ s ++ ".pem") → e ∈ wb.outside) ∧
        (∀ pl : Place, (∀ s : String, pl.key ≠ s ++ ".pem") → wb.lookup pl = w.lookup pl) := by
      intro r0 wb hwr
      obtain ⟨s, hs⟩ := pem_place_key env
        (certName ++ "_ca_" ++ formatTimestamp (env.localTime (env.clock wa.tick)))
      obtain ⟨k1, k2, k3⟩ := osWriteFile_keeps hwr
      rw [hs] at k1 k2 k3
      refine ⟨?_, ?_, ?_, ?_⟩
      · intro e he hne
        exact k1 e (by rw [← hf] at he; exact he) (hne s)
      · intro e he hne
        exact k2 e (by rw [← ha] at he; exact he) (hne s)
      · intro e he hne
        exact k3 e (by rw [← h3] at he; exact he) (hne s)
      · intro pl hpl
        have hne : pl ≠ locate env (filepathJoin env "certificate"
            (certName ++ "_ca_" ++ formatTimestamp (env.localTime (env.clock wa.tick)) ++ ".pem")) := by
          intro heq
          exact hpl s (by rw [heq, hs])
        rw [osWriteFile_lookup_other hwr pl hne]
        exact (hsame _ w h1 h2 h3).2.2.2 pl hpl
    split at h
    · rename_i e wb hwr
      simp only [Prod.mk.injEq] at h
      rw [← h.2]
      exact hfinal _ _ hwr
    · rename_i wb hwr
      have hw1 : w1.certDir = wb.certDir ∧ w1.oldDir = wb.oldDir ∧ w1.outside = wb.outside := by
        split at h
        · simp only [Prod.mk.injEq] at h
          rw [← h.2]
          exact ⟨rfl, rfl, rfl⟩
        · simp only [Prod.mk.injEq] at h
          rw [← h.2]
          exact ⟨rfl, rfl, rfl⟩
      obtain ⟨g1, g2, g3, g4⟩ := hfinal _ _ hwr
      obtain ⟨s1, s2, s3, s4⟩ := hsame w1 wb hw1.1 hw1.2.1 hw1.2.2
      have hf1 : w1.files = wb.files := by simp [World.files, hw1.1]
      have ha1 : w1.archived = wb.archived := by simp [World.archived, hw1.2.1]
      refine ⟨?_, ?_, ?_, ?_⟩
      · intro e he hne
        rw [hf1]
        exact g1 e he hne
      · intro e he hne
        rw [ha1]
        exact g2 e he hne
      · intro e he hne
        rw [hw1.2.2]
        exact g3 e he hne
      · intro pl hpl
        rw [s4 pl hpl]
        exact g4 pl hpl

/-- The trust-store step of a name without separator: the `.pem` copy is an entry of the
working directory, and nothing else changes. -/
theorem AddCertificate_files_plain {env : Env} {certName : String} {org : List String} {pem : Blob}
    {w w1 : World} {r : Option String}
    (hplain : ∀ c ∈ certName.toList, isPathSeparator env.windows c = false)
    (h : AddCertificateToWindowsCAStore env certName org pem w = (r, w1)) :
    w1.oldDir = w.oldDir ∧ w1.outside = w.outside ∧
    (∀ e ∈ w1.files, e ∈ w.files ∨ ∃ s : String, e.name = s ++ ".pem") ∧
    ((w.files.map Entry.name).Nodup → (w1.files.map Entry.name).Nodup) := by
  unfold AddCertificateToWindowsCAStore at h
  split at h
  · rename_i e wa hrem
    obtain ⟨h1, h2, _, h3⟩ := Remove_dirs env _ _ _ _ hrem
    simp only [Prod.mk.injEq] at h
    rw [← h.2]
    have hf : wa.files = w.files := by simp [World.files, h1]
    rw [hf]
    exact ⟨h2, h3, fun e he => Or.inl he, fun hnd => hnd⟩
  · rename_i wa hrem
    obtain ⟨h1, h2, _, h3⟩ := Remove_dirs env _ _ _ _ hrem
    have hf : wa.files = w.files := by simp [World.files, h1]
    simp only [timeNow, runPowershell] at h
    have hloc := (locate_join_plain env
      (certName ++ "_ca_" ++ formatTimestamp (env.localTime (env.clock wa.tick)) ++ ".pem")
      (by
        intro c hc
        simp only [String.toList, String.data_append, List.mem_append] at hc
        rcases hc with ((hc | hc) | hc) | hc
        · exact hplain c hc
        · revert c
          cases env.windows <;> decide
        · exact formatTimestamp_plain env.windows _ c hc
        · exact plain_pem env.windows c hc)
      (length_append_gt _ _ (by decide))).2
    split at h
    · rename_i e wb hwr
      simp only [Prod.mk.injEq] at h
      rw [← h.2, osWriteFile_err hwr]
      simp only [World.emit, World.files]
      rw [h1, h2, h3]
      exact ⟨rfl, rfl, fun e he => Or.inl he, fun hnd => hnd⟩
    · rename_i wb hwr
      obtain ⟨_, ho, hout, _, _, hmem, _, _, _, hnd⟩ := osWriteFile_files hloc hwr
      simp only [World.files] at hmem hnd hf
      have hfinal : w1.certDir = wb.certDir ∧ w1.oldDir = wb.oldDir ∧ w1.outside = wb.outside := by
        split at h
        · simp only [Prod.mk.injEq] at h
          rw [← h.2]
          exact ⟨rfl, rfl, rfl⟩
        · simp only [Prod.mk.injEq] at h
          rw [← h.2]
          exact ⟨rfl, rfl, rfl⟩
      simp only [World.files]
      rw [hfinal.1, hfinal.2.1, hfinal.2.2, ho, hout]
      refine ⟨h2, h3, ?_, ?_⟩
      · intro e he
        rcases hmem e he with hn | hin
        · exact Or.inr ⟨_, hn⟩
        · left
          rw [← h1]
          exact hin
      · intro hnd0
        rw [← h1] at hnd0
        exact hnd hnd0

theorem osReadFile_world {env : Env} {p : String} {w : World} :
    (osReadFile env p w).2 = w.emit (.readFile p) := by
  unfold osReadFile
  simp only
  split
  · rfl
  · split
    · split <;> rfl
    · split <;> rfl
    · rfl

theorem loadTLSConfig_dirs {env : Env} {p1 p2 : String} {w w1 : World} {r : Option String}
    (h : loadTLSConfig env p1 p2 w = (r, w1)) :
    w1.certDir = w.certDir ∧ w1.oldDir = w.oldDir ∧ w1.outside = w.outside := by
  unfold loadTLSConfig at h
  split at h
  · rename_i e wa h1
    have ha := congrArg Prod.snd h1
    rw [osReadFile_world] at ha
    simp only at ha
    simp only [Prod.mk.injEq] at h
    rw [← h.2, ← ha]
    exact ⟨rfl, rfl, rfl⟩
  · rename_i c wa h1
    have ha := congrArg Prod.snd h1
    rw [osReadFile_world] at ha
    simp only at ha
    split at h
    · rename_i e wb h2
      have hb := congrArg Prod.snd h2
      rw [osReadFile_world] at hb
      simp only at hb
      simp only [Prod.mk.injEq] at h
      rw [← h.2, ← hb, ← ha]
      exact ⟨rfl, rfl, rfl⟩
    · rename_i k wb h2
      have hb := congrArg Prod.snd h2
      rw [osReadFile_world] at hb
      simp only at hb
      split at h
      · simp only [Prod.mk.injEq] at h
        rw [← h.2, ← hb, ← ha]
        exact ⟨rfl, rfl, rfl⟩
      · simp only [Prod.mk.injEq] at h
        rw [← h.2, ← hb, ← ha]
        exact ⟨rfl, rfl, rfl⟩

/-! ## The whole run -/

/-- A run that gets past its four writes: the steps it has taken. -/
theorem Create_written {env : Env} {certName : String} {org dns : List String} {w wf : World}
    {exit : Exit}
    (h : CreateSelfSignedCertificateFile env certName org dns w = (exit, wf))
    (hexit : exit = .caStoreError ∨ exit = .tlsConfigError ∨ exit = .done) :
    ∃ cert key w1 w2 w3 w4 w5 w6 w7 r,
      GenerateSelfSignedCertificate env org dns w = (.ok (cert, key), w1) ∧
      moveOldCertificates env "certificate" (filepathJoin env "certificate" "old")
        (osMkdirAll env (filepathJoin env "certificate" "old") 0o700 w1) = (none, w2) ∧
      osWriteFile env
        (filepathJoin env "certificate"
          (baseName certName ++ "_" ++ formatTimestamp (env.localTime (env.clock w2.tick)) ++ ".crt"))
        cert 0o644 { w2 with tick := w2.tick + 1 } = (none, w3) ∧
      osWriteFile env
        (filepathJoin env "certificate"
          (baseName certName ++ "_" ++ formatTimestamp (env.localTime (env.clock w2.tick)) ++ ".key"))
        key 0o600 w3 = (none, w4) ∧
      osWriteFile env (filepathJoin env "certificate" (baseName certName ++ ".crt"))
        cert 0o644 w4 = (none, w5) ∧
      osWriteFile env (filepathJoin env "certificate" (baseName certName ++ ".key"))
        key 0o600 w5 = (none, w6) ∧
      AddCertificateToWindowsCAStore env (baseName certName) org cert
        (fmtPrint ("Certificate and private key have been written to '"
          ++ filepathJoin env "certificate"
            (baseName certName ++ "_" ++ formatTimestamp (env.localTime (env.clock w2.tick)) ++ ".crt")
          ++ "' and '"
          ++ filepathJoin env "certificate"
            (baseName certName ++ "_" ++ formatTimestamp (env.localTime (env.clock w2.tick)) ++ ".key")
          ++ "'\n") w6) = (r, w7) ∧
      wf.certDir = w7.certDir ∧ wf.oldDir = w7.oldDir ∧ wf.outside = w7.outside ∧
      (exit = .caStoreError → r ≠ none) ∧ (exit = .done → r = none) := by
  unfold CreateSelfSignedCertificateFile at h
  simp only [timeNow] at h
  split at h
  · obtain ⟨rfl, rfl⟩ := Prod.mk.inj h
    simp at hexit
  · rename_i cert key w1 hgen
    split at h
    · obtain ⟨rfl, rfl⟩ := Prod.mk.inj h
      simp at hexit
    · rename_i w2 hmove
      split at h
      · obtain ⟨rfl, rfl⟩ := Prod.mk.inj h
        simp at hexit
      · rename_i w3 hw3
        split at h
        · obtain ⟨rfl, rfl⟩ := Prod.mk.inj h
          simp at hexit
        · rename_i w4 hw4
          split at h
          · obtain ⟨rfl, rfl⟩ := Prod.mk.inj h
            simp at hexit
          · rename_i w5 hw5
            split at h
            · obtain ⟨rfl, rfl⟩ := Prod.mk.inj h
              simp at hexit
            · rename_i w6 hw6
              split at h
              · rename_i e w7 hadd
                obtain ⟨rfl, rfl⟩ := Prod.mk.inj h
                exact ⟨cert, key, w1, w2, w3, w4, w5, w6, w7, some e, hgen, hmove, hw3, hw4, hw5,
                  hw6, hadd, rfl, rfl, rfl, (fun _ => by simp), fun hh => by cases hh⟩
              · rename_i w7 hadd
                split at h
                · rename_i e w8 hload
                  obtain ⟨rfl, rfl⟩ := Prod.mk.inj h
                  obtain ⟨hl1, hl2, hl3⟩ := loadTLSConfig_dirs hload
                  exact ⟨cert, key, w1, w2, w3, w4, w5, w6, w7, none, hgen, hmove, hw3, hw4, hw5,
                    hw6, hadd, (by simpa [fmtPrint, World.emit] using hl1),
                    (by simpa [fmtPrint, World.emit] using hl2),
                    (by simpa [fmtPrint, World.emit] using hl3), (fun hh => by cases hh), fun _ => rfl⟩
                · rename_i w8 hload
                  obtain ⟨rfl, rfl⟩ := Prod.mk.inj h
                  obtain ⟨hl1, hl2, hl3⟩ := loadTLSConfig_dirs hload
                  exact ⟨cert, key, w1, w2, w3, w4, w5, w6, w7, none, hgen, hmove, hw3, hw4, hw5,
                    hw6, hadd, (by simpa [fmtPrint, World.emit] using hl1),
                    (by simpa [fmtPrint, World.emit] using hl2),
                    (by simpa [fmtPrint, World.emit] using hl3), (fun hh => by cases hh), fun _ => rfl⟩

theorem writeEntry_fresh {env : Env} {l l1 : List Entry} {n : String} {data : Blob} {perm now : Nat}
    (h : writeEntry env l n data perm now = some l1)
    (hno : ∀ g ∈ l, g.name = n → g.isDir = false → False) : ∀ e ∈ l, e.name ≠ n := by
  unfold writeEntry at h
  split at h
  · rename_i g hg
    split at h
    · cases h
    · rename_i hdir
      exact (hno g (find_name_some hg).1 (find_name_some hg).2 (by simpa using hdir)).elim
  · rename_i hg
    exact find_name_none hg

/-- A successful write of an artifact name that is not yet in the working directory creates
the file with the given content, with the mode the system gives to a new file. -/
theorem osWriteFile_fresh {env : Env} {p n : String} {data : Blob} {perm : Nat} {w w1 : World}
    {written : List String} (hloc : locate env p = .cert n)
    (hown : OnlyWritten env written w) (hn : n ∉ written)
    (hext : hasCertExt env n = true)
    (h : osWriteFile env p data perm w = (none, w1)) :
    (⟨n, false, data, createMode env perm, env.clock w.tick⟩ : Entry) ∈ w1.files ∧
    OnlyWritten env (n :: written) w1 ∧
    (∀ e ∈ w.files, e ∈ w1.files) ∧
    (∀ e ∈ w1.files, e.name = n ∨ e ∈ w.files) ∧
    w1.oldDir = w.oldDir ∧ w1.tick = w.tick + 1 ∧
    ((w.files.map Entry.name).Nodup → (w1.files.map Entry.name).Nodup) ∧
    w1.outside = w.outside := by
  obtain ⟨_, l1, hwe, _, _⟩ := osWriteFile_ok h
  rw [hloc] at hwe
  simp only [World.listAt, Place.key] at hwe
  obtain ⟨_, ho, hout, ht, hkeep, hmem, _, _, hnew, hnd⟩ := osWriteFile_files hloc h
  have hfresh : ∀ e ∈ w.files, e.name ≠ n := by
    apply writeEntry_fresh hwe
    intro g hg hgn hgd
    have hm : movable env g = true := by simp [movable, hgd, hgn, hext]
    have := hown g hg hm
    rw [hgn] at this
    exact hn this
  refine ⟨hnew hfresh, ?_, fun e he => hkeep e he (hfresh e he), hmem, ho, ht, hnd, hout⟩
  intro e he hm
  rcases hmem e he with hen | hin
  · rw [hen]; exact List.mem_cons_self _ _
  · exact List.mem_cons_of_mem _ (hown e hin hm)

theorem plain_of_PlainName {env : Env} {s : String} (h : PlainName env s) :
    ∀ c ∈ s.toList, isPathSeparator env.windows c = false := by
  intro c hc
  have := List.all_eq_true.mp h c hc
  simp only [isPlainChar, Bool.and_eq_true, Bool.not_eq_true'] at this
  exact this.1

theorem plain_baseName {env : Env} {certName : String} (h : PlainName env certName) :
    ∀ c ∈ (baseName certName).toList, isPathSeparator env.windows c = false := by
  unfold baseName
  split
  · cases env.windows <;> decide
  · exact plain_of_PlainName h

theorem plain_stamped {windows : Bool} {base ext : String} (t : LocalTime)
    (hb : ∀ c ∈ base.toList, isPathSeparator windows c = false)
    (he : ∀ c ∈ ext.toList, isPathSeparator windows c = false) :
    ∀ c ∈ (base ++ "_" ++ formatTimestamp t ++ ext).toList, isPathSeparator windows c = false := by
  intro c hc
  simp only [String.toList, String.data_append, List.mem_append] at hc
  rcases hc with ((hc | hc) | hc) | hc
  · exact hb c hc
  · revert c
    cases windows <;> decide
  · exact formatTimestamp_plain windows _ c hc
  · exact he c hc

theorem plain_append {windows : Bool} {base ext : String}
    (hb : ∀ c ∈ base.toList, isPathSeparator windows c = false)
    (he : ∀ c ∈ ext.toList, isPathSeparator windows c = false) :
    ∀ c ∈ (base ++ ext).toList, isPathSeparator windows c = false := by
  intro c hc
  simp only [String.toList, String.data_append, List.mem_append] at hc
  rcases hc with hc | hc
  · exact hb c hc
  · exact he c hc

theorem key_ne_crt (s t : String) : s ++ ".key" ≠ t ++ ".crt" :=
  fun h => crt_ne_key t s h.symm

/-- The certificate and key files that a run past its four writes leaves in the working
directory, and what else is there. -/
theorem Create_files {env : Env} {certName : String} {org dns : List String} {w wf : World}
    {exit : Exit} (hwf : w.WF) (hplain : PlainName env certName)
    (h : CreateSelfSignedCertificateFile env certName org dns w = (exit, wf))
    (hexit : exit = .caStoreError ∨ exit = .tlsConfigError ∨ exit = .done) :
    ∃ cert key w1 w2 work,
      GenerateSelfSignedCertificate env org dns w = (.ok (cert, key), w1) ∧
      (osMkdirAll env (filepathJoin env "certificate" "old") 0o700 w1).certDir = some work ∧
      moveOldCertificates env "certificate" (filepathJoin env "certificate" "old")
        (osMkdirAll env (filepathJoin env "certificate" "old") 0o700 w1) = (none, w2) ∧
      (⟨baseName certName ++ "_" ++ formatTimestamp (env.localTime (env.clock w2.tick)) ++ ".crt", false, cert,
        createMode env 0o644, env.clock (w2.tick + 1)⟩ : Entry) ∈ wf.files ∧
      (⟨baseName certName ++ "_" ++ formatTimestamp (env.localTime (env.clock w2.tick)) ++ ".key", false, key,
        createMode env 0o600, env.clock (w2.tick + 2)⟩ : Entry) ∈ wf.files ∧
      (⟨baseName certName ++ ".crt", false, cert, createMode env 0o644, env.clock (w2.tick + 3)⟩ :
        Entry) ∈ wf.files ∧
      (⟨baseName certName ++ ".key", false, key, createMode env 0o600, env.clock (w2.tick + 4)⟩ :
        Entry) ∈ wf.files ∧
      (wf.files.map Entry.name).Nodup ∧
      (wf.archived.map Entry.name).Nodup ∧
      wf.oldDir = w2.oldDir ∧ wf.outside = w2.outside ∧
      (∀ e ∈ wf.files,
        e.name = baseName certName ++ "_" ++ formatTimestamp (env.localTime (env.clock w2.tick)) ++ ".crt" ∨
        e.name = baseName certName ++ "_" ++ formatTimestamp (env.localTime (env.clock w2.tick)) ++ ".key" ∨
        e.name = baseName certName ++ ".crt" ∨ e.name = baseName certName ++ ".key" ∨
        (∃ s : String, e.name = s ++ ".pem") ∨ (e ∈ work ∧ movable env e = false)) := by
  obtain ⟨cert, key, w1, w2, w3, w4, w5, w6, w7, r, hgen, hmove, hw3, hw4, hw5, hw6, hadd, hfc, hfo,
    hfout, _, _⟩ := Create_written h hexit
  have hpb := plain_baseName hplain
  have hloc3 := (locate_join_plain env _
    (plain_stamped (env.localTime (env.clock w2.tick)) hpb (plain_crt env.windows))
    (length_append_gt _ _ (by decide))).2
  have hloc4 := (locate_join_plain env _
    (plain_stamped (env.localTime (env.clock w2.tick)) hpb (plain_key env.windows))
    (length_append_gt _ _ (by decide))).2
  have hloc5 := (locate_join_plain env _ (plain_append hpb (plain_crt env.windows))
    (length_append_gt _ _ (by decide))).2
  have hloc6 := (locate_join_plain env _ (plain_append hpb (plain_key env.windows))
    (length_append_gt _ _ (by decide))).2
  obtain ⟨_, _, _, _, hg1, hg2, _⟩ := Generate_ok hgen
  have hwf1 : w1.WF := by
    unfold World.WF
    rw [hg1, hg2]
    exact hwf
  have hwfm := osMkdirAll_WF env (filepathJoin env "certificate" "old") 0o700 hwf1
  generalize hwm : osMkdirAll env (filepathJoin env "certificate" "old") 0o700 w1 = wm at hmove hwfm
  have hw2c : w2.certDir ≠ none := by
    obtain ⟨_, l1, _, _, hcase⟩ := osWriteFile_ok hw3
    rw [hloc3] at hcase
    rcases hcase with ⟨_, _, hc, _⟩ | ⟨_, hx, _⟩ | ⟨_, hx, _⟩
    · exact hc
    · cases hx
    · cases hx
  cases hcm : wm.certDir with
  | none =>
    rw [moveOld_of_none hcm] at hmove
    simp only [Prod.mk.injEq, true_and] at hmove
    rw [← hmove] at hw2c
    simp only [World.emit] at hw2c
    exact absurd hcm hw2c
  | some work =>
    obtain ⟨old, hom, hc2, _, hcase⟩ := moveOld_ok hwfm hcm hmove
    have hndo : (old.map Entry.name).Nodup := by
      have := hwfm.2
      rwa [hom] at this
    have hnd2o : (w2.archived.map Entry.name).Nodup := by
      rcases hcase with ⟨_, h1⟩ | ⟨_, _, _, _, _, _, h1⟩
      · simp only [World.archived, h1, Option.getD_some]
        exact names_foldl_archive_nodup _ _ hndo
      · simp only [World.archived, h1, Option.getD_some]
        exact names_filter_nodup (names_foldl_archive_nodup _ _ hndo) _
    have hndw : (work.map Entry.name).Nodup := by
      have := hwfm.1
      rwa [hcm] at this
    have hfiles2 : w2.files = work.filter (fun e => !movable env e) := by
      simp [World.files, hc2]
    have how2 : OnlyWritten env [] ({ w2 with tick := w2.tick + 1 } : World) := by
      intro e he hm
      have he2 : e ∈ w2.files := he
      rw [hfiles2] at he2
      have := (List.mem_filter.mp he2).2
      rw [hm] at this
      exact absurd this (by simp)
    have hnd2 : ((({ w2 with tick := w2.tick + 1 } : World).files).map Entry.name).Nodup := by
      have : ({ w2 with tick := w2.tick + 1 } : World).files = w2.files := rfl
      rw [this, hfiles2]
      exact names_filter_nodup hndw _
    obtain ⟨he3, how3, hk3, hm3, ho3, ht3, hn3, hu3⟩ :=
      osWriteFile_fresh hloc3 how2 (by simp) (hasCertExt_crt env _) hw3
    obtain ⟨he4, how4, hk4, hm4, ho4, ht4, hn4, hu4⟩ :=
      osWriteFile_fresh hloc4 how3
        (by
          simp only [List.mem_cons, List.mem_nil_iff, or_false]
          exact key_ne_crt _ _)
        (hasCertExt_key env _) hw4
    obtain ⟨he5, how5, hk5, hm5, ho5, ht5, hn5, hu5⟩ :=
      osWriteFile_fresh hloc5 how4
        (by
          simp only [List.mem_cons, List.mem_nil_iff, or_false, not_or]
          exact ⟨crt_ne_key _ _, fun hh => stamped_ne_plain _ _ _ hh.symm⟩)
        (hasCertExt_crt env _) hw5
    obtain ⟨he6, how6, hk6, hm6, ho6, ht6, hn6, hu6⟩ :=
      osWriteFile_fresh hloc6 how5
        (by
          simp only [List.mem_cons, List.mem_nil_iff, or_false, not_or]
          exact ⟨key_ne_crt _ _, fun hh => stamped_ne_plain _ _ _ hh.symm, key_ne_crt _ _⟩)
        (hasCertExt_key env _) hw6
    obtain ⟨ha2, _⟩ := AddCertificate_files hadd
    obtain ⟨ha1, ha5, ha3, ha4⟩ := AddCertificate_files_plain hpb hadd
    have hpf : (fmtPrint ("Certificate and private key have been written to '"
          ++ filepathJoin env "certificate"
            (baseName certName ++ "_" ++ formatTimestamp (env.localTime (env.clock w2.tick)) ++ ".crt")
          ++ "' and '"
          ++ filepathJoin env "certificate"
            (baseName certName ++ "_" ++ formatTimestamp (env.localTime (env.clock w2.tick)) ++ ".key")
          ++ "'\n") w6).files = w6.files := rfl
    rw [hpf] at ha2 ha3 ha4
    have hff : wf.files = w7.files := by simp [World.files, hfc]
    have t3 : w3.tick = w2.tick + 2 := by rw [ht3]
    have t4 : w4.tick = w2.tick + 3 := by rw [ht4, t3]
    have t5 : w5.tick = w2.tick + 4 := by rw [ht5, t4]
    rw [t3] at he4
    rw [t4] at he5
    rw [t5] at he6
    have hfo2 : wf.oldDir = w2.oldDir := by
      rw [hfo, ha1]
      show w6.oldDir = w2.oldDir
      rw [ho6, ho5, ho4, ho3]
    have hfu2 : wf.outside = w2.outside := by
      rw [hfout, ha5]
      show w6.outside = w2.outside
      rw [hu6, hu5, hu4, hu3]
    refine ⟨cert, key, w1, w2, work, hgen, (by rw [hwm]; exact hcm), (by rw [hwm]; exact hmove),
      ?_, ?_, ?_, ?_, ?_, ?_, hfo2, hfu2, ?_⟩
    · rw [hff]
      exact ha2 _ (hk6 _ (hk5 _ (hk4 _ he3))) (fun s => crt_ne_pem _ s)
    · rw [hff]
      exact ha2 _ (hk6 _ (hk5 _ he4)) (fun s => key_ne_pem _ s)
    · rw [hff]
      exact ha2 _ (hk6 _ he5) (fun s => crt_ne_pem _ s)
    · rw [hff]
      exact ha2 _ he6 (fun s => key_ne_pem _ s)
    · rw [hff]
      exact ha4 (hn6 (hn5 (hn4 (hn3 hnd2))))
    · have : wf.archived = w2.archived := by simp [World.archived, hfo2]
      rw [this]
      exact hnd2o
    · intro e he
      rw [hff] at he
      rcases ha3 e he with he | hs
      · rcases hm6 e he with hn | he
        · exact Or.inr (Or.inr (Or.inr (Or.inl hn)))
        · rcases hm5 e he with hn | he
          · exact Or.inr (Or.inr (Or.inl hn))
          · rcases hm4 e he with hn | he
            · exact Or.inr (Or.inl hn)
            · rcases hm3 e he with hn | he
              · exact Or.inl hn
              · right; right; right; right; right
                have he2 : e ∈ w2.files := he
                rw [hfiles2] at he2
                have := List.mem_filter.mp he2
                exact ⟨this.1, by simpa using this.2⟩
      · exact Or.inr (Or.inr (Or.inr (Or.inr (Or.inl hs))))

/-! ## The branches of a run -/

theorem Create_generateError {env : Env} {certName : String} {org dns : List String} {w w1 : World}
    {e : String} (hgen : GenerateSelfSignedCertificate env org dns w = (.error e, w1)) :
    CreateSelfSignedCertificateFile env certName org dns w =
      (.generateError, fmtPrint ("Error generating self-signed certificate: " ++ e ++ "\n") w1) := by
  unfold CreateSelfSignedCertificateFile
  simp only [hgen]

theorem Create_moveError {env : Env} {certName : String} {org dns : List String} {w w1 w2 : World}
    {cert key : Blob} {e : String}
    (hgen : GenerateSelfSignedCertificate env org dns w = (.ok (cert, key), w1))
    (hmove : moveOldCertificates env "certificate" (filepathJoin env "certificate" "old")
      (osMkdirAll env (filepathJoin env "certificate" "old") 0o700 w1) = (some e, w2)) :
    CreateSelfSignedCertificateFile env certName org dns w =
      (.moveError, fmtPrint ("Error moving old certificates: " ++ e ++ "\n") w2) := by
  unfold CreateSelfSignedCertificateFile
  simp only [hgen, hmove]

theorem Create_writeError1 {env : Env} {certName : String} {org dns : List String}
    {w w1 w2 w3 : World} {cert key : Blob} {e : String}
    (hgen : GenerateSelfSignedCertificate env org dns w = (.ok (cert, key), w1))
    (hmove : moveOldCertificates env "certificate" (filepathJoin env "certificate" "old")
      (osMkdirAll env (filepathJoin env "certificate" "old") 0o700 w1) = (none, w2))
    (hw1 : osWriteFile env
        (filepathJoin env "certificate"
          (baseName certName ++ "_" ++ formatTimestamp (env.localTime (env.clock w2.tick)) ++ ".crt"))
        cert 0o644 { w2 with tick := w2.tick + 1 } = (some e, w3)) :
    CreateSelfSignedCertificateFile env certName org dns w =
      (.writeError 1, fmtPrint ("Error writing certificate to file: " ++ e ++ "\n") w3) := by
  unfold CreateSelfSignedCertificateFile
  unfold baseName at hw1
  simp only [hgen, hmove, timeNow, hw1]

theorem Create_writeError2 {env : Env} {certName : String} {org dns : List String}
    {w w1 w2 w3 w4 : World} {cert key : Blob} {e : String}
    (hgen : GenerateSelfSignedCertificate env org dns w = (.ok (cert, key), w1))
    (hmove : moveOldCertificates env "certificate" (filepathJoin env "certificate" "old")
      (osMkdirAll env (filepathJoin env "certificate" "old") 0o700 w1) = (none, w2))
    (hw1 : osWriteFile env
        (filepathJoin env "certificate"
          (baseName certName ++ "_" ++ formatTimestamp (env.localTime (env.clock w2.tick)) ++ ".crt"))
        cert 0o644 { w2 with tick := w2.tick + 1 } = (none, w3))
    (hw2 : osWriteFile env
        (filepathJoin env "certificate"
          (baseName certName ++ "_" ++ formatTimestamp (env.localTime (env.clock w2.tick)) ++ ".key"))
        key 0o600 w3 = (some e, w4)) :
    CreateSelfSignedCertificateFile env certName org dns w =
      (.writeError 2, fmtPrint ("Error writing private key to file: " ++ e ++ "\n") w4) := by
  unfold CreateSelfSignedCertificateFile
  unfold baseName at hw1 hw2
  simp only [hgen, hmove, timeNow, hw1, hw2]

theorem Create_writeError3 {env : Env} {certName : String} {org dns : List String}
    {w w1 w2 w3 w4 w5 : World} {cert key : Blob} {e : String}
    (hgen : GenerateSelfSignedCertificate env org dns w = (.ok (cert, key), w1))
    (hmove : moveOldCertificates env "certificate" (filepathJoin env "certificate" "old")
      (osMkdirAll env (filepathJoin env "certificate" "old") 0o700 w1) = (none, w2))
    (hw1 : osWriteFile env
        (filepathJoin env "certificate"
          (baseName certName ++ "_" ++ formatTimestamp (env.localTime (env.clock w2.tick)) ++ ".crt"))
        cert 0o644 { w2 with tick := w2.tick + 1 } = (none, w3))
    (hw2 : osWriteFile env
        (filepathJoin env "certificate"
          (baseName certName ++ "_" ++ formatTimestamp (env.localTime (env.clock w2.tick)) ++ ".key"))
        key 0o600 w3 = (none, w4))
    (hw3 : osWriteFile env (filepathJoin env "certificate" (baseName certName ++ ".crt"))
        cert 0o644 w4 = (some e, w5)) :
    CreateSelfSignedCertificateFile env certName org dns w =
      (.writeError 3,
        fmtPrint ("Error writing non-timestamped certificate to file: " ++ e ++ "\n") w5) := by
  unfold CreateSelfSignedCertificateFile
  unfold baseName at hw1 hw2 hw3
  simp only [hgen, hmove, timeNow, hw1, hw2, hw3]

theorem Create_writeError4 {env : Env} {certName : String} {org dns : List String}
    {w w1 w2 w3 w4 w5 w6 : World} {cert key : Blob} {e : String}
    (hgen : GenerateSelfSignedCertificate env org dns w = (.ok (cert, key), w1))
    (hmove : moveOldCertificates env "certificate" (filepathJoin env "certificate" "old")
      (osMkdirAll env (filepathJoin env "certificate" "old") 0o700 w1) = (none, w2))
    (hw1 : osWriteFile env
        (filepathJoin env "certificate"
          (baseName certName ++ "_" ++ formatTimestamp (env.localTime (env.clock w2.tick)) ++ ".crt"))
        cert 0o644 { w2 with tick := w2.tick + 1 } = (none, w3))
    (hw2 : osWriteFile env
        (filepathJoin env "certificate"
          (baseName certName ++ "_" ++ formatTimestamp (env.localTime (env.clock w2.tick)) ++ ".key"))
        key 0o600 w3 = (none, w4))
    (hw3 : osWriteFile env (filepathJoin env "certificate" (baseName certName ++ ".crt"))
        cert 0o644 w4 = (none, w5))
    (hw4 : osWriteFile env (filepathJoin env "certificate" (baseName certName ++ ".key"))
        key 0o600 w5 = (some e, w6)) :
    CreateSelfSignedCertificateFile env certName org dns w =
      (.writeError 4,
        fmtPrint ("Error writing non-timestamped private key to file: " ++ e ++ "\n") w6) := by
  unfold CreateSelfSignedCertificateFile
  unfold baseName at hw1 hw2 hw3 hw4
  simp only [hgen, hmove, timeNow, hw1, hw2, hw3, hw4]

theorem Create_caStoreError {env : Env} {certName : String} {org dns : List String}
    {w w1 w2 w3 w4 w5 w6 w7 : World} {cert key : Blob} {e : String}
    (hgen : GenerateSelfSignedCertificate env org dns w = (.ok (cert, key), w1))
    (hmove : moveOldCertificates env "certificate" (filepathJoin env "certificate" "old")
      (osMkdirAll env (filepathJoin env "certificate" "old") 0o700 w1) = (none, w2))
    (hw1 : osWriteFile env
        (filepathJoin env "certificate"
          (baseName certName ++ "_" ++ formatTimestamp (env.localTime (env.clock w2.tick)) ++ ".crt"))
        cert 0o644 { w2 with tick := w2.tick + 1 } = (none, w3))
    (hw2 : osWriteFile env
        (filepathJoin env "certificate"
          (baseName certName ++ "_" ++ formatTimestamp (env.localTime (env.clock w2.tick)) ++ ".key"))
        key 0o600 w3 = (none, w4))
    (hw3 : osWriteFile env (filepathJoin env "certificate" (baseName certName ++ ".crt"))
        cert 0o644 w4 = (none, w5))
    (hw4 : osWriteFile env (filepathJoin env "certificate" (baseName certName ++ ".key"))
        key 0o600 w5 = (none, w6))
    (hadd : AddCertificateToWindowsCAStore env (baseName certName) org cert
        (fmtPrint ("Certificate and private key have been written to '"
          ++ filepathJoin env "certificate"
            (baseName certName ++ "_" ++ formatTimestamp (env.localTime (env.clock w2.tick)) ++ ".crt")
          ++ "' and '"
          ++ filepathJoin env "certificate"
            (baseName certName ++ "_" ++ formatTimestamp (env.localTime (env.clock w2.tick)) ++ ".key")
          ++ "'\n") w6) = (some e, w7)) :
    CreateSelfSignedCertificateFile env certName org dns w =
      (.caStoreError, fmtPrint ("Error adding certificate to Windows CA store: " ++ e ++ "\n") w7) := by
  unfold CreateSelfSignedCertificateFile
  unfold baseName at hw1 hw2 hw3 hw4 hadd
  simp only [hgen, hmove, timeNow, hw1, hw2, hw3, hw4, hadd]

/-! ## C5 -/

set_option maxRecDepth 1000000 in
/-- C5, counterexample: `old` holds 102 entries once the moves are done and `os.Remove`
fails; the run prints the error and ends there: it calls `os.WriteFile` not once, and the
working directory holds neither `localhost.crt` nor `localhost.key`. -/
theorem eviction_failure_counterexample :
    (CreateSelfSignedCertificateFile removeFailsEnv "" ["Local MyCompany Cert"] ["localhost"]
      twoArtifactsWorld).1 = .moveError ∧
    (CreateSelfSignedCertificateFile removeFailsEnv "" ["Local MyCompany Cert"] ["localhost"]
      twoArtifactsWorld).2.files = [oldDirEntry] ∧
    Event.remove "certificate/old/a" ∈
      (CreateSelfSignedCertificateFile removeFailsEnv "" ["Local MyCompany Cert"] ["localhost"]
        twoArtifactsWorld).2.trace ∧
    Event.print ("Error moving old certificates: failed to delete oldest file "
        ++ "'certificate/old/a': access is denied\n") ∈
      (CreateSelfSignedCertificateFile removeFailsEnv "" ["Local MyCompany Cert"] ["localhost"]
        twoArtifactsWorld).2.trace ∧
    ∀ ev ∈ (CreateSelfSignedCertificateFile removeFailsEnv "" ["Local MyCompany Cert"] ["localhost"]
        twoArtifactsWorld).2.trace, ev.isWriteFile = false := by
  decide

/-- C5, amended: when the deletion of the oldest archive entry fails, `moveOldCertificates`
returns the error and `CreateSelfSignedCertificateFile` prints it and returns: the run ends
with the world the failed `os.Remove` left plus the printed line, so no certificate or key
file is written, and the two directories are as the moves left them. -/
theorem CreateSelfSignedCertificateFile_eviction_failure (env : Env) (certName : String)
    (org dns : List String) (w w1 w2 w3 w4 : World) (pair : Blob × Blob)
    (files oldFiles rest : List Entry) (victim : Entry) (err : String)
    (hgen : GenerateSelfSignedCertificate env org dns w = (.ok pair, w1))
    (hexists : (osMkdirAll env (filepathJoin env "certificate" "old") 0o700 w1).certDir ≠ none)
    (hlist : osReadDir env .cert "certificate"
      ((osMkdirAll env (filepathJoin env "certificate" "old") 0o700 w1).emit (.stat "certificate"))
        = (.ok files, w2))
    (hmoves : moveLoop env "certificate" (filepathJoin env "certificate" "old") files w2 = (none, w3))
    (hold : osReadDir env .old (filepathJoin env "certificate" "old") w3 = (.ok oldFiles, w4))
    (hmany : 100 < oldFiles.length)
    (holdest : env.sortSlice (lessByModTime env) oldFiles = victim :: rest)
    (hremove : env.removeErr victim.name = some err) :
    CreateSelfSignedCertificateFile env certName org dns w =
      (.moveError,
        fmtPrint ("Error moving old certificates: " ++
          ("failed to delete oldest file '"
            ++ filepathJoin env (filepathJoin env "certificate" "old") victim.name ++ "': " ++ err)
          ++ "\n")
          (w4.emit (.remove (filepathJoin env (filepathJoin env "certificate" "old") victim.name)))) ∧
    (CreateSelfSignedCertificateFile env certName org dns w).2.certDir = w3.certDir ∧
    (CreateSelfSignedCertificateFile env certName org dns w).2.oldDir = w3.oldDir ∧
    (CreateSelfSignedCertificateFile env certName org dns w).2.trace =
      w3.trace ++ [.readDir (filepathJoin env "certificate" "old"),
        .remove (filepathJoin env (filepathJoin env "certificate" "old") victim.name),
        .print ("Error moving old certificates: " ++
          ("failed to delete oldest file '"
            ++ filepathJoin env (filepathJoin env "certificate" "old") victim.name ++ "': " ++ err)
          ++ "\n")] := by
  obtain ⟨cert, key⟩ := pair
  have hmove := moveOld_after_moves hexists hlist hmoves hold
  rw [if_pos hmany, holdest] at hmove
  simp only [osRemove_of_removeErr w4 hremove] at hmove
  have hrun : CreateSelfSignedCertificateFile env certName org dns w = _ :=
    Create_moveError hgen hmove
  have hw4 : w4 = w3.emit (.readDir (filepathJoin env "certificate" "old")) := by
    obtain ⟨_, _, _, _, h⟩ := osReadDir_ok hold
    exact h
  rw [hrun]
  refine ⟨rfl, ?_, ?_, ?_⟩
  · rw [hw4]; rfl
  · rw [hw4]; rfl
  · rw [hw4]; simp [fmtPrint, World.emit]

set_option maxRecDepth 1000000 in
/-- C5, witness: the full archive with two artifact files, every `os.Remove` failing. -/
theorem CreateSelfSignedCertificateFile_eviction_failure_witness :
    (CreateSelfSignedCertificateFile removeFailsEnv "" ["Local MyCompany Cert"] ["localhost"]
      twoArtifactsWorld).2.certDir = some [oldDirEntry] ∧
    (CreateSelfSignedCertificateFile removeFailsEnv "" ["Local MyCompany Cert"] ["localhost"]
      twoArtifactsWorld).2.oldDir = some twoArtifactsArchive := by
  have h := CreateSelfSignedCertificateFile_eviction_failure removeFailsEnv ""
    ["Local MyCompany Cert"] ["localhost"] twoArtifactsWorld
    (GenerateSelfSignedCertificate removeFailsEnv ["Local MyCompany Cert"] ["localhost"]
      twoArtifactsWorld).2
    (((GenerateSelfSignedCertificate removeFailsEnv ["Local MyCompany Cert"] ["localhost"]
      twoArtifactsWorld).2.emit (.mkdirAll "certificate/old" 0o700)).emit (.stat "certificate")
        |>.emit (.readDir "certificate"))
    { certDir := some [oldDirEntry], oldDir := some twoArtifactsArchive, outside := [], tick := 1,
      trace := [.generateKey, .createCertificate, .marshalECPrivateKey,
        .mkdirAll "certificate/old" 0o700, .stat "certificate", .readDir "certificate",
        .rename "certificate/localhost.crt" "certificate/old/localhost.crt",
        .rename "certificate/localhost.key" "certificate/old/localhost.key"] }
    { certDir := some [oldDirEntry], oldDir := some twoArtifactsArchive, outside := [], tick := 1,
      trace := [.generateKey, .createCertificate, .marshalECPrivateKey,
        .mkdirAll "certificate/old" 0o700, .stat "certificate", .readDir "certificate",
        .rename "certificate/localhost.crt" "certificate/old/localhost.crt",
        .rename "certificate/localhost.key" "certificate/old/localhost.key",
        .readDir "certificate/old"] }
    (generated (GenerateSelfSignedCertificate removeFailsEnv ["Local MyCompany Cert"] ["localhost"]
      twoArtifactsWorld))
    (sortByName [regularFile "localhost.crt" [1] 500, regularFile "localhost.key" [2] 501, oldDirEntry])
    (sortByName twoArtifactsArchive)
    ((insertionSortSlice (lessByModTime removeFailsEnv) (sortByName twoArtifactsArchive)).tail)
    (regularFile "a" [0] 10) "access is denied"
    (by rfl) (by decide) (by rfl) (by decide) (by rfl) (by decide) (by decide) (by rfl)
  exact ⟨h.2.1, h.2.2.1⟩

/-! ## C6 -/

/-- C6: the run generates, rotates, writes its four files and reconciles the trust store in
that order, each step entered only when the steps before it returned no error. When a step
returns an error the run ends with the world that step left plus one printed line: no later
step runs. A failing write leaves every file as the writes before it left them, and a
failing trust-store step keeps every file that is not a `.pem` file, in the working
directory, in `old` and elsewhere; for a name without separator it leaves `old` and the
files elsewhere as they were. -/
theorem CreateSelfSignedCertificateFile_stops_at_first_error (env : Env) (certName : String)
    (org dns : List String) (w : World) :
    (∀ e w1, GenerateSelfSignedCertificate env org dns w = (.error e, w1) →
      CreateSelfSignedCertificateFile env certName org dns w =
        (.generateError, fmtPrint ("Error generating self-signed certificate: " ++ e ++ "\n") w1) ∧
      w1.certDir = w.certDir ∧ w1.oldDir = w.oldDir ∧ w1.outside = w.outside) ∧
    (∀ cert key w1, GenerateSelfSignedCertificate env org dns w = (.ok (cert, key), w1) →
      (∀ e w2, moveOldCertificates env "certificate" (filepathJoin env "certificate" "old")
          (osMkdirAll env (filepathJoin env "certificate" "old") 0o700 w1) = (some e, w2) →
        CreateSelfSignedCertificateFile env certName org dns w =
          (.moveError, fmtPrint ("Error moving old certificates: " ++ e ++ "\n") w2)) ∧
      (∀ w2, moveOldCertificates env "certificate" (filepathJoin env "certificate" "old")
          (osMkdirAll env (filepathJoin env "certificate" "old") 0o700 w1) = (none, w2) →
        (∀ e w3, osWriteFile env
            (filepathJoin env "certificate"
              (baseName certName ++ "_" ++ formatTimestamp (env.localTime (env.clock w2.tick)) ++ ".crt"))
            cert 0o644 { w2 with tick := w2.tick + 1 } = (some e, w3) →
          CreateSelfSignedCertificateFile env certName org dns w =
            (.writeError 1, fmtPrint ("Error writing certificate to file: " ++ e ++ "\n") w3) ∧
          w3.certDir = w2.certDir ∧ w3.oldDir = w2.oldDir ∧ w3.outside = w2.outside) ∧
        (∀ w3, osWriteFile env
            (filepathJoin env "certificate"
              (baseName certName ++ "_" ++ formatTimestamp (env.localTime (env.clock w2.tick)) ++ ".crt"))
            cert 0o644 { w2 with tick := w2.tick + 1 } = (none, w3) →
          (∀ e w4, osWriteFile env
              (filepathJoin env "certificate"
                (baseName certName ++ "_" ++ formatTimestamp (env.localTime (env.clock w2.tick)) ++ ".key"))
              key 0o600 w3 = (some e, w4) →
            CreateSelfSignedCertificateFile env certName org dns w =
              (.writeError 2, fmtPrint ("Error writing private key to file: " ++ e ++ "\n") w4) ∧
            w4.certDir = w3.certDir ∧ w4.oldDir = w3.oldDir ∧ w4.outside = w3.outside) ∧
          (∀ w4, osWriteFile env
              (filepathJoin env "certificate"
                (baseName certName ++ "_" ++ formatTimestamp (env.localTime (env.clock w2.tick)) ++ ".key"))
              key 0o600 w3 = (none, w4) →
            (∀ e w5, osWriteFile env (filepathJoin env "certificate" (baseName certName ++ ".crt"))
                cert 0o644 w4 = (some e, w5) →
              CreateSelfSignedCertificateFile env certName org dns w =
                (.writeError 3,
                  fmtPrint ("Error writing non-timestamped certificate to file: " ++ e ++ "\n") w5) ∧
              w5.certDir = w4.certDir ∧ w5.oldDir = w4.oldDir ∧ w5.outside = w4.outside) ∧
            (∀ w5, osWriteFile env (filepathJoin env "certificate" (baseName certName ++ ".crt"))
                cert 0o644 w4 = (none, w5) →
              (∀ e w6, osWriteFile env (filepathJoin env "certificate" (baseName certName ++ ".key"))
                  key 0o600 w5 = (some e, w6) →
                CreateSelfSignedCertificateFile env certName org dns w =
                  (.writeError 4,
                    fmtPrint ("Error writing non-timestamped private key to file: " ++ e ++ "\n") w6) ∧
                w6.certDir = w5.certDir ∧ w6.oldDir = w5.oldDir ∧ w6.outside = w5.outside) ∧
              (∀ w6, osWriteFile env (filepathJoin env "certificate" (baseName certName ++ ".key"))
                  key 0o600 w5 = (none, w6) →
                ∀ e w7, AddCertificateToWindowsCAStore env (baseName certName) org cert
                    (fmtPrint ("Certificate and private key have been written to '"
                      ++ filepathJoin env "certificate"
                        (baseName certName ++ "_" ++ formatTimestamp (env.localTime (env.clock w2.tick)) ++ ".crt")
                      ++ "' and '"
                      ++ filepathJoin env "certificate"
                        (baseName certName ++ "_" ++ formatTimestamp (env.localTime (env.clock w2.tick)) ++ ".key")
                      ++ "'\n") w6) = (some e, w7) →
                  CreateSelfSignedCertificateFile env certName org dns w =
                    (.caStoreError,
                      fmtPrint ("Error adding certificate to Windows CA store: " ++ e ++ "\n") w7) ∧
                  (∀ x ∈ w6.files, (∀ s : String, x.name ≠ s ++ ".pem") → x ∈ w7.files) ∧
                  (∀ x ∈ w6.archived, (∀ s : String, x.name ≠ s ++ ".pem") → x ∈ w7.archived) ∧
                  (∀ x ∈ w6.outside, (∀ s : String, x.name ≠ s ++ ".pem") → x ∈ w7.outside) ∧
                  (PlainName env certName →
                    w7.oldDir = w6.oldDir ∧ w7.outside = w6.outside))))))) := by
  refine ⟨?_, ?_⟩
  · intro e w1 hgen
    exact ⟨Create_generateError hgen, Generate_err hgen⟩
  · intro cert key w1 hgen
    refine ⟨fun e w2 hmove => Create_moveError hgen hmove, ?_⟩
    intro w2 hmove
    refine ⟨?_, ?_⟩
    · intro e w3 h1
      have := osWriteFile_err h1
      exact ⟨Create_writeError1 hgen hmove h1, by rw [this]; rfl, by rw [this]; rfl,
        by rw [this]; rfl⟩
    · intro w3 h1
      refine ⟨?_, ?_⟩
      · intro e w4 h2
        have := osWriteFile_err h2
        exact ⟨Create_writeError2 hgen hmove h1 h2, by rw [this]; rfl, by rw [this]; rfl,
          by rw [this]; rfl⟩
      · intro w4 h2
        refine ⟨?_, ?_⟩
        · intro e w5 h3
          have := osWriteFile_err h3
          exact ⟨Create_writeError3 hgen hmove h1 h2 h3, by rw [this]; rfl, by rw [this]; rfl,
            by rw [this]; rfl⟩
        · intro w5 h3
          refine ⟨?_, ?_⟩
          · intro e w6 h4
            have := osWriteFile_err h4
            exact ⟨Create_writeError4 hgen hmove h1 h2 h3 h4, by rw [this]; rfl, by rw [this]; rfl,
              by rw [this]; rfl⟩
          · intro w6 h4 e w7 hadd
            obtain ⟨ha1, ha2, ha3, _⟩ := AddCertificate_files hadd
            refine ⟨Create_caStoreError hgen hmove h1 h2 h3 h4 hadd, ha1, ha2, ha3, ?_⟩
            intro hplain
            obtain ⟨hb1, hb2, _, _⟩ := AddCertificate_files_plain (plain_baseName hplain) hadd
            exact ⟨hb1, hb2⟩

set_option maxRecDepth 1000000 in
/-- C6, witness: in an empty world the third write fails; the run ends there, the two
timestamped files written before stay in the working directory and no command is run. -/
theorem CreateSelfSignedCertificateFile_stops_at_first_error_witness :
    (CreateSelfSignedCertificateFile writeFailsEnv "" ["Local MyCompany Cert"] ["localhost"]
      emptyWorld).1 = .writeError 3 ∧
    (CreateSelfSignedCertificateFile writeFailsEnv "" ["Local MyCompany Cert"] ["localhost"]
      emptyWorld).2.files.map Entry.name = ["old", "localhost_20240101_001642.crt", "localhost_20240101_001642.key"] ∧
    ∀ ev ∈ (CreateSelfSignedCertificateFile writeFailsEnv "" ["Local MyCompany Cert"] ["localhost"]
      emptyWorld).2.trace, ev.isExec = false := by
  have h := (((((CreateSelfSignedCertificateFile_stops_at_first_error writeFailsEnv ""
    ["Local MyCompany Cert"] ["localhost"] emptyWorld).2
      (generated (GenerateSelfSignedCertificate writeFailsEnv ["Local MyCompany Cert"] ["localhost"]
        emptyWorld)).1
      (generated (GenerateSelfSignedCertificate writeFailsEnv ["Local MyCompany Cert"] ["localhost"]
        emptyWorld)).2
      (GenerateSelfSignedCertificate writeFailsEnv ["Local MyCompany Cert"] ["localhost"]
        emptyWorld).2 rfl).2
      { certDir := some [{ oldDirEntry with modTime := 1001 }], oldDir := some [], outside := [], tick := 2,
        trace := [.generateKey, .createCertificate, .marshalECPrivateKey,
          .mkdirAll "certificate/old" 0o700, .stat "certificate", .readDir "certificate",
          .readDir "certificate/old"] } rfl).2
      (osWriteFile writeFailsEnv "certificate/localhost_20240101_001642.crt"
        (generated (GenerateSelfSignedCertificate writeFailsEnv ["Local MyCompany Cert"]
          ["localhost"] emptyWorld)).1 0o644
        { certDir := some [{ oldDirEntry with modTime := 1001 }], oldDir := some [], outside := [], tick := 3,
          trace := [.generateKey, .createCertificate, .marshalECPrivateKey,
            .mkdirAll "certificate/old" 0o700, .stat "certificate", .readDir "certificate",
            .readDir "certificate/old"] }).2 rfl).2
      (osWriteFile writeFailsEnv "certificate/localhost_20240101_001642.key"
        (generated (GenerateSelfSignedCertificate writeFailsEnv ["Local MyCompany Cert"]
          ["localhost"] emptyWorld)).2 0o600
        (osWriteFile writeFailsEnv "certificate/localhost_20240101_001642.crt"
          (generated (GenerateSelfSignedCertificate writeFailsEnv ["Local MyCompany Cert"]
            ["localhost"] emptyWorld)).1 0o644
          { certDir := some [{ oldDirEntry with modTime := 1001 }], oldDir := some [], outside := [], tick := 3,
            trace := [.generateKey, .createCertificate, .marshalECPrivateKey,
              .mkdirAll "certificate/old" 0o700, .stat "certificate", .readDir "certificate",
              .readDir "certificate/old"] }).2).2 rfl).1
      "no space left on device"
      ((osWriteFile writeFailsEnv "certificate/localhost_20240101_001642.key"
        (generated (GenerateSelfSignedCertificate writeFailsEnv ["Local MyCompany Cert"]
          ["localhost"] emptyWorld)).2 0o600
        (osWriteFile writeFailsEnv "certificate/localhost_20240101_001642.crt"
          (generated (GenerateSelfSignedCertificate writeFailsEnv ["Local MyCompany Cert"]
            ["localhost"] emptyWorld)).1 0o644
          { certDir := some [{ oldDirEntry with modTime := 1001 }], oldDir := some [], outside := [], tick := 3,
            trace := [.generateKey, .createCertificate, .marshalECPrivateKey,
              .mkdirAll "certificate/old" 0o700, .stat "certificate", .readDir "certificate",
              .readDir "certificate/old"] }).2).2.emit
        (.writeFile "certificate/localhost.crt" 0o644)) rfl
  rw [h.1]
  decide

/-- The run in the calm world when the import command fails: it ends in the trust-store
branch with the four files written. -/
theorem Create_importFails_run :
    (CreateSelfSignedCertificateFile importFailsEnv "" ["Local MyCompany Cert"] ["localhost"]
      emptyWorld).1 = .caStoreError ∧
    ((CreateSelfSignedCertificateFile importFailsEnv "" ["Local MyCompany Cert"] ["localhost"]
      emptyWorld).2.files.map Entry.name) =
      ["old", "localhost_20240101_001642.crt", "localhost_20240101_001642.key", "localhost.crt",
        "localhost.key", "localhost_ca_20240101_001647.pem"] := by
  decide

/-! ## C7 -/

set_option maxRecDepth 1000000 in
/-- C7, counterexample: under the umask `077` the run ends normally and every file it wrote,
`localhost.crt` among them, has mode 0600, not 0644; and with the name `../x` the run ends
normally although `certificate` lists none of the four files, which are written next to
`certificate` instead. -/
theorem written_files_counterexample :
    (CreateSelfSignedCertificateFile strictUmaskEnv "" ["Local MyCompany Cert"] ["localhost"]
      emptyWorld).1 = .done ∧
    (CreateSelfSignedCertificateFile strictUmaskEnv "" ["Local MyCompany Cert"] ["localhost"]
      emptyWorld).2.files.map (fun e => (e.name, e.mode)) =
      [("old", 0o700), ("localhost_20240101_001642.crt", 0o600),
        ("localhost_20240101_001642.key", 0o600), ("localhost.crt", 0o600),
        ("localhost.key", 0o600), ("localhost_ca_20240101_001647.pem", 0o600)] ∧
    (CreateSelfSignedCertificateFile calmEnv "../x" ["Local MyCompany Cert"] ["localhost"]
      emptyWorld).1 = .done ∧
    (CreateSelfSignedCertificateFile calmEnv "../x" ["Local MyCompany Cert"] ["localhost"]
      emptyWorld).2.files.map Entry.name = ["old"] ∧
    (CreateSelfSignedCertificateFile calmEnv "../x" ["Local MyCompany Cert"] ["localhost"]
      emptyWorld).2.outside.map Entry.name =
      ["x_20240101_001642.crt", "x_20240101_001642.key", "x.crt", "x.key",
        "x_ca_20240101_001647.pem"] := by
  decide

theorem createMode_of_umask (env : Env) (perm : Nat) (hw : env.windows = false)
    (hmask : perm &&& env.umask = 0) : createMode env perm = perm := by
  unfold createMode
  rw [hw, hmask]
  simp

/-- C7, amended: in a well-formed world and for a name without separator, when the run gets
past its four writes (it ends in the trust-store step, in the loading step or normally), the
working directory lists `<base>_<timestamp>.crt` and `<base>.crt` as regular files holding
the generated certificate PEM, and `<base>_<timestamp>.key` and `<base>.key` as regular
files holding the generated key PEM, each name once. Their modes are those the system gives
to a file created with 0644 and with 0600: these very bits when the umask clears none of
them. The timestamp is the rendering of a clock reading and `<base>` is `localhost` when the
given name is empty. -/
theorem CreateSelfSignedCertificateFile_writes (env : Env) (certName : String)
    (org dns : List String) (w wf : World) (exit : Exit) (hwf : w.WF)
    (hplain : PlainName env certName)
    (hrun : CreateSelfSignedCertificateFile env certName org dns w = (exit, wf))
    (hpast : exit = .caStoreError ∨ exit = .tlsConfigError ∨ exit = .done) :
    ∃ cert key w1 timestamp,
      GenerateSelfSignedCertificate env org dns w = (.ok (cert, key), w1) ∧
      (∃ k, timestamp = formatTimestamp (env.localTime (env.clock k))) ∧
      (∃ t, (⟨baseName certName ++ "_" ++ timestamp ++ ".crt", false, cert, createMode env 0o644, t⟩ :
        Entry) ∈ wf.files) ∧
      (∃ t, (⟨baseName certName ++ ".crt", false, cert, createMode env 0o644, t⟩ : Entry)
        ∈ wf.files) ∧
      (∃ t, (⟨baseName certName ++ "_" ++ timestamp ++ ".key", false, key, createMode env 0o600, t⟩ :
        Entry) ∈ wf.files) ∧
      (∃ t, (⟨baseName certName ++ ".key", false, key, createMode env 0o600, t⟩ : Entry)
        ∈ wf.files) ∧
      (wf.files.map Entry.name).Nodup ∧
      (env.windows = false → 0o644 &&& env.umask = 0 → createMode env 0o644 = 0o644) ∧
      (env.windows = false → 0o600 &&& env.umask = 0 → createMode env 0o600 = 0o600) ∧
      (certName = "" → baseName certName = "localhost") ∧
      (certName ≠ "" → baseName certName = certName) := by
  obtain ⟨cert, key, w1, w2, work, hgen, _, _, h1, h2, h3, h4, hnd, _⟩ :=
    Create_files hwf hplain hrun hpast
  refine ⟨cert, key, w1, formatTimestamp (env.localTime (env.clock w2.tick)), hgen, ⟨_, rfl⟩,
    ⟨_, h1⟩, ⟨_, h3⟩, ⟨_, h2⟩, ⟨_, h4⟩, hnd, createMode_of_umask env _, createMode_of_umask env _,
    ?_, ?_⟩
  · intro h; simp [baseName, h]
  · intro h; simp [baseName, h]

set_option maxRecDepth 1000000 in
/-- C7, witness: the first run in an empty world with the default name. -/
theorem CreateSelfSignedCertificateFile_writes_witness :
    ∃ cert key w1 timestamp,
      GenerateSelfSignedCertificate calmEnv ["Local MyCompany Cert"] ["localhost"] emptyWorld =
        (.ok (cert, key), w1) ∧
      (∃ k, timestamp = formatTimestamp (calmEnv.localTime (calmEnv.clock k))) ∧
      (∃ t, (⟨baseName "" ++ "_" ++ timestamp ++ ".crt", false, cert, createMode calmEnv 0o644, t⟩ :
        Entry) ∈ (calmRun emptyWorld).2.files) ∧
      (∃ t, (⟨baseName "" ++ ".crt", false, cert, createMode calmEnv 0o644, t⟩ : Entry) ∈
        (calmRun emptyWorld).2.files) ∧
      (∃ t, (⟨baseName "" ++ "_" ++ timestamp ++ ".key", false, key, createMode calmEnv 0o600, t⟩ :
        Entry) ∈ (calmRun emptyWorld).2.files) ∧
      (∃ t, (⟨baseName "" ++ ".key", false, key, createMode calmEnv 0o600, t⟩ : Entry) ∈
        (calmRun emptyWorld).2.files) ∧
      ((calmRun emptyWorld).2.files.map Entry.name).Nodup ∧
      (calmEnv.windows = false → 0o644 &&& calmEnv.umask = 0 → createMode calmEnv 0o644 = 0o644) ∧
      (calmEnv.windows = false → 0o600 &&& calmEnv.umask = 0 → createMode calmEnv 0o600 = 0o600) ∧
      (("" : String) = "" → baseName "" = "localhost") ∧
      (("" : String) ≠ "" → baseName "" = "") :=
  CreateSelfSignedCertificateFile_writes calmEnv "" ["Local MyCompany Cert"] ["localhost"]
    emptyWorld
    (calmRun emptyWorld).2
    (calmRun emptyWorld).1
    (by decide) (by decide) rfl (by decide)

/-! ## C10 -/

/-- C10: whenever `GenerateSelfSignedCertificate` succeeds it returns the PEM of a
certificate and the PEM of an EC private key such that the issuer of the certificate is its
subject (the given organization names), the certificate is signed by the returned key, and
the public key of the certificate is the public key of the returned private key; the pair
loads as a TLS key pair. -/
theorem GenerateSelfSignedCertificate_self_signed (env : Env) (org dns : List String)
    (w w1 : World) (certPEM keyPEM : Blob)
    (hok : GenerateSelfSignedCertificate env org dns w = (.ok (certPEM, keyPEM), w1)) :
    ∃ c k, certPEM = .pem "CERTIFICATE" (.certificate c) ∧
      keyPEM = .pem "EC PRIVATE KEY" (.ecPrivateKey k) ∧
      c.issuer = c.subject ∧ c.subject = { organization := org } ∧ c.dnsNames = dns ∧
      c.publicKey = some k.publicKey ∧ c.signedBy = some k.publicKey ∧
      tlsX509KeyPair certPEM keyPEM = none := by
  obtain ⟨priv, _, hc, hk, _⟩ := Generate_ok hok
  refine ⟨_, priv, hc, hk, rfl, rfl, rfl, rfl, rfl, ?_⟩
  rw [hc, hk]
  simp [tlsX509KeyPair]

/-- C10, witness: the generation of the calm environment. -/
theorem GenerateSelfSignedCertificate_self_signed_witness :
    ∃ c k,
      (generated (GenerateSelfSignedCertificate calmEnv ["Local MyCompany Cert"] ["localhost"]
        emptyWorld)).1 = .pem "CERTIFICATE" (.certificate c) ∧
      (generated (GenerateSelfSignedCertificate calmEnv ["Local MyCompany Cert"] ["localhost"]
        emptyWorld)).2 = .pem "EC PRIVATE KEY" (.ecPrivateKey k) ∧
      c.issuer = c.subject ∧ c.subject = { organization := ["Local MyCompany Cert"] } ∧
      c.dnsNames = ["localhost"] ∧
      c.publicKey = some k.publicKey ∧ c.signedBy = some k.publicKey ∧
      tlsX509KeyPair
        (generated (GenerateSelfSignedCertificate calmEnv ["Local MyCompany Cert"] ["localhost"]
          emptyWorld)).1
        (generated (GenerateSelfSignedCertificate calmEnv ["Local MyCompany Cert"] ["localhost"]
          emptyWorld)).2 = none :=
  GenerateSelfSignedCertificate_self_signed calmEnv ["Local MyCompany Cert"] ["localhost"]
    emptyWorld
    (GenerateSelfSignedCertificate calmEnv ["Local MyCompany Cert"] ["localhost"] emptyWorld).2
    (generated (GenerateSelfSignedCertificate calmEnv ["Local MyCompany Cert"] ["localhost"]
      emptyWorld)).1
    (generated (GenerateSelfSignedCertificate calmEnv ["Local MyCompany Cert"] ["localhost"]
      emptyWorld)).2
    rfl

/-! ## C9 -/

theorem containsText_suffix (a b : String) : ContainsText (a ++ b) b :=
  ⟨a, "", by simp⟩

theorem lookup_congr {a b : World} (h1 : a.certDir = b.certDir) (h2 : a.oldDir = b.oldDir)
    (h3 : a.outside = b.outside) (pl : Place) : a.lookup pl = b.lookup pl := by
  cases pl <;> simp only [World.lookup, World.listAt, World.files, World.archived, h1, h2, h3]

theorem plain_stamp_suffix (windows : Bool) (t : LocalTime) {ext : String}
    (he : ∀ c ∈ ext.toList, isPathSeparator windows c = false) :
    ∀ c ∈ ("_" ++ formatTimestamp t ++ ext).toList, isPathSeparator windows c = false := by
  intro c hc
  simp only [String.toList, String.data_append, List.mem_append] at hc
  rcases hc with (hc | hc) | hc
  · revert c
    cases windows <;> decide
  · exact formatTimestamp_plain windows _ c hc
  · exact he c hc

/-- Whatever the name given, a run that gets past its four writes leaves, at the place
each of the four paths leads to, a regular file with the generated content. -/
theorem Create_lookup {env : Env} {certName : String} {org dns : List String} {w wf : World}
    {exit : Exit}
    (h : CreateSelfSignedCertificateFile env certName org dns w = (exit, wf))
    (hexit : exit = .caStoreError ∨ exit = .tlsConfigError ∨ exit = .done) :
    ∃ cert key w1 w2,
      GenerateSelfSignedCertificate env org dns w = (.ok (cert, key), w1) ∧
      moveOldCertificates env "certificate" (filepathJoin env "certificate" "old")
        (osMkdirAll env (filepathJoin env "certificate" "old") 0o700 w1) = (none, w2) ∧
      (∃ e, wf.lookup (locate env (filepathJoin env "certificate"
          (baseName certName ++ "_" ++ formatTimestamp (env.localTime (env.clock w2.tick)) ++ ".crt")))
        = some e ∧ e.isDir = false ∧ e.content = cert) ∧
      (∃ e, wf.lookup (locate env (filepathJoin env "certificate" (baseName certName ++ ".crt")))
        = some e ∧ e.isDir = false ∧ e.content = cert) ∧
      (∃ e, wf.lookup (locate env (filepathJoin env "certificate"
          (baseName certName ++ "_" ++ formatTimestamp (env.localTime (env.clock w2.tick)) ++ ".key")))
        = some e ∧ e.isDir = false ∧ e.content = key) ∧
      (∃ e, wf.lookup (locate env (filepathJoin env "certificate" (baseName certName ++ ".key")))
        = some e ∧ e.isDir = false ∧ e.content = key) := by
  obtain ⟨cert, key, w1, w2, w3, w4, w5, w6, w7, r, hgen, hmove, hw3, hw4, hw5, hw6, hadd, hfc, hfo,
    hfout, _, _⟩ := Create_written h hexit
  obtain ⟨mk, q, hk, hloc⟩ := locate_join env (baseName certName)
  refine ⟨cert, key, w1, w2, hgen, hmove, ?_⟩
  generalize hts : formatTimestamp (env.localTime (env.clock w2.tick)) = ts at hw3 hw4 hadd ⊢
  have hp3 : locate env (filepathJoin env "certificate" (baseName certName ++ "_" ++ ts ++ ".crt"))
      = mk (q ++ "_" ++ ts ++ ".crt") := by
    have := hloc ("_" ++ ts ++ ".crt")
      (by rw [← hts]; exact plain_stamp_suffix env.windows _ (plain_crt env.windows))
      (length_append_gt _ _ (by decide))
    simpa only [String.append_assoc] using this
  have hp4 : locate env (filepathJoin env "certificate" (baseName certName ++ "_" ++ ts ++ ".key"))
      = mk (q ++ "_" ++ ts ++ ".key") := by
    have := hloc ("_" ++ ts ++ ".key")
      (by rw [← hts]; exact plain_stamp_suffix env.windows _ (plain_key env.windows))
      (length_append_gt _ _ (by decide))
    simpa only [String.append_assoc] using this
  have hp5 : locate env (filepathJoin env "certificate" (baseName certName ++ ".crt"))
      = mk (q ++ ".crt") := hloc ".crt" (plain_crt env.windows) (by decide)
  have hp6 : locate env (filepathJoin env "certificate" (baseName certName ++ ".key"))
      = mk (q ++ ".key") := hloc ".key" (plain_key env.windows) (by decide)
  obtain ⟨e3, he3, hd3, hc3⟩ := osWriteFile_lookup_self hw3
  obtain ⟨e4, he4, hd4, hc4⟩ := osWriteFile_lookup_self hw4
  obtain ⟨e5, he5, hd5, hc5⟩ := osWriteFile_lookup_self hw5
  obtain ⟨e6, he6, hd6, hc6⟩ := osWriteFile_lookup_self hw6
  have n34 : mk (q ++ "_" ++ ts ++ ".crt") ≠ mk (q ++ "_" ++ ts ++ ".key") :=
    kind_injective hk (crt_ne_key _ _)
  have n35 : mk (q ++ "_" ++ ts ++ ".crt") ≠ mk (q ++ ".crt") :=
    kind_injective hk (stamped_ne_plain _ _ _)
  have n36 : mk (q ++ "_" ++ ts ++ ".crt") ≠ mk (q ++ ".key") :=
    kind_injective hk (crt_ne_key _ _)
  have n45 : mk (q ++ "_" ++ ts ++ ".key") ≠ mk (q ++ ".crt") :=
    kind_injective hk (key_ne_crt _ _)
  have n46 : mk (q ++ "_" ++ ts ++ ".key") ≠ mk (q ++ ".key") :=
    kind_injective hk (stamped_ne_plain _ _ _)
  have n56 : mk (q ++ ".crt") ≠ mk (q ++ ".key") :=
    kind_injective hk (crt_ne_key _ _)
  rw [hp3] at he3
  rw [hp4] at he4
  rw [hp5] at he5
  rw [hp6] at he6
  have k4 := osWriteFile_lookup_other hw4
  have k5 := osWriteFile_lookup_other hw5
  have k6 := osWriteFile_lookup_other hw6
  rw [hp4] at k4
  rw [hp5] at k5
  rw [hp6] at k6
  obtain ⟨_, _, _, ka⟩ := AddCertificate_files hadd
  have kf : ∀ pl, (∀ s : String, pl.key ≠ s ++ ".pem") → wf.lookup pl = w6.lookup pl := by
    intro pl hpl
    rw [lookup_congr hfc hfo hfout pl, ka pl hpl]
    rfl
  have f3 : wf.lookup (mk (q ++ "_" ++ ts ++ ".crt")) = some e3 := by
    rw [kf _ (by rw [key_of_kind hk]; exact fun s => crt_ne_pem _ s), k6 _ n36, k5 _ n35,
      k4 _ n34, he3]
  have f4 : wf.lookup (mk (q ++ "_" ++ ts ++ ".key")) = some e4 := by
    rw [kf _ (by rw [key_of_kind hk]; exact fun s => key_ne_pem _ s), k6 _ n46, k5 _ n45, he4]
  have f5 : wf.lookup (mk (q ++ ".crt")) = some e5 := by
    rw [kf _ (by rw [key_of_kind hk]; exact fun s => crt_ne_pem _ s), k6 _ n56, he5]
  have f6 : wf.lookup (mk (q ++ ".key")) = some e6 := by
    rw [kf _ (by rw [key_of_kind hk]; exact fun s => key_ne_pem _ s), he6]
  rw [hp3, hp4, hp5, hp6]
  exact ⟨⟨e3, f3, hc3, hd3⟩, ⟨e5, f5, hc5, hd5⟩, ⟨e4, f4, hc4, hd4⟩, ⟨e6, f6, hc6, hd6⟩⟩

/-- C9: when the organization entries have been removed, the `.pem` copy has been written
and the import command returns an error, `AddCertificateToWindowsCAStore` returns an error
whose message contains the combined output of the command; the call keeps every file that
is not a `.pem` file, in the working directory, in `old` and elsewhere, and for a name
without separator it leaves `old` and the files elsewhere as they were. A run that ends in
the trust-store step still has, whatever the name given, a regular file with the generated
content at each of the four certificate and key paths; for a name without separator these
are entries of the working directory. -/
theorem AddCertificateToWindowsCAStore_import_failure (env : Env) (certName : String)
    (org : List String) (certPEM : Blob) (w w1 w2 : World) (err : String)
    (hremove : RemoveCertificateFromCurrentUser env org w = (none, w1))
    (hwrite : osWriteFile env
      (filepathJoin env "certificate"
        (certName ++ "_ca_" ++ formatTimestamp (env.localTime (env.clock w1.tick)) ++ ".pem"))
      certPEM 0o644 { w1 with tick := w1.tick + 1 } = (none, w2))
    (himport : (env.powershell (importScript (filepathJoin env "certificate"
      (certName ++ "_ca_" ++ formatTimestamp (env.localTime (env.clock w1.tick)) ++ ".pem")))).err
        = some err) :
    (∃ msg, (AddCertificateToWindowsCAStore env certName org certPEM w).1 = some msg ∧
      msg = "failed to add certificate to Windows CA store: " ++ err ++ ", output: " ++
        (env.powershell (importScript (filepathJoin env "certificate"
          (certName ++ "_ca_" ++ formatTimestamp (env.localTime (env.clock w1.tick)) ++ ".pem")))).output ∧
      ContainsText msg (env.powershell (importScript (filepathJoin env "certificate"
        (certName ++ "_ca_" ++ formatTimestamp (env.localTime (env.clock w1.tick)) ++ ".pem")))).output) ∧
    (∀ x ∈ w.files, (∀ s : String, x.name ≠ s ++ ".pem") →
      x ∈ (AddCertificateToWindowsCAStore env certName org certPEM w).2.files) ∧
    (∀ x ∈ w.archived, (∀ s : String, x.name ≠ s ++ ".pem") →
      x ∈ (AddCertificateToWindowsCAStore env certName org certPEM w).2.archived) ∧
    (∀ x ∈ w.outside, (∀ s : String, x.name ≠ s ++ ".pem") →
      x ∈ (AddCertificateToWindowsCAStore env certName org certPEM w).2.outside) ∧
    (PlainName env certName →
      (AddCertificateToWindowsCAStore env certName org certPEM w).2.oldDir = w.oldDir ∧
      (AddCertificateToWindowsCAStore env certName org certPEM w).2.outside = w.outside) ∧
    (∀ (name : String) (dns : List String) (w0 wf : World),
      CreateSelfSignedCertificateFile env name org dns w0 = (.caStoreError, wf) →
      ∃ cert key w3 timestamp,
        GenerateSelfSignedCertificate env org dns w0 = (.ok (cert, key), w3) ∧
        (∃ e, wf.lookup (locate env (filepathJoin env "certificate"
            (baseName name ++ "_" ++ timestamp ++ ".crt"))) = some e ∧
          e.isDir = false ∧ e.content = cert) ∧
        (∃ e, wf.lookup (locate env (filepathJoin env "certificate" (baseName name ++ ".crt")))
            = some e ∧
          e.isDir = false ∧ e.content = cert) ∧
        (∃ e, wf.lookup (locate env (filepathJoin env "certificate"
            (baseName name ++ "_" ++ timestamp ++ ".key"))) = some e ∧
          e.isDir = false ∧ e.content = key) ∧
        (∃ e, wf.lookup (locate env (filepathJoin env "certificate" (baseName name ++ ".key")))
            = some e ∧
          e.isDir = false ∧ e.content = key)) ∧
    (∀ (name : String) (dns : List String) (w0 wf : World), w0.WF → PlainName env name →
      CreateSelfSignedCertificateFile env name org dns w0 = (.caStoreError, wf) →
      ∃ cert key w3 timestamp,
        GenerateSelfSignedCertificate env org dns w0 = (.ok (cert, key), w3) ∧
        (∃ t, (⟨baseName name ++ "_" ++ timestamp ++ ".crt", false, cert, createMode env 0o644, t⟩ :
          Entry) ∈ wf.files) ∧
        (∃ t, (⟨baseName name ++ ".crt", false, cert, createMode env 0o644, t⟩ : Entry)
          ∈ wf.files) ∧
        (∃ t, (⟨baseName name ++ "_" ++ timestamp ++ ".key", false, key, createMode env 0o600, t⟩ :
          Entry) ∈ wf.files) ∧
        (∃ t, (⟨baseName name ++ ".key", false, key, createMode env 0o600, t⟩ : Entry)
          ∈ wf.files)) := by
  have hrun : AddCertificateToWindowsCAStore env certName org certPEM w =
      (some ("failed to add certificate to Windows CA store: " ++ err ++ ", output: " ++
        (env.powershell (importScript (filepathJoin env "certificate"
          (certName ++ "_ca_" ++ formatTimestamp (env.localTime (env.clock w1.tick)) ++ ".pem")))).output),
       w2.emit (.exec "powershell" ["-Command", importScript (filepathJoin env "certificate"
          (certName ++ "_ca_" ++ formatTimestamp (env.localTime (env.clock w1.tick)) ++ ".pem"))])) := by
    unfold AddCertificateToWindowsCAStore
    simp only [hremove, timeNow, hwrite, runPowershell, himport]
  obtain ⟨ha1, ha2, ha3, _⟩ := AddCertificate_files hrun
  refine ⟨⟨_, by rw [hrun], rfl, containsText_suffix _ _⟩, by rw [hrun]; exact ha1,
    by rw [hrun]; exact ha2, by rw [hrun]; exact ha3, ?_, ?_, ?_⟩
  · intro hplain
    obtain ⟨hb1, hb2, _, _⟩ := AddCertificate_files_plain (plain_of_PlainName hplain) hrun
    rw [hrun]
    exact ⟨hb1, hb2⟩
  · intro name dns w0 wf hcreate
    obtain ⟨cert, key, w3, w4, hgen, _, h1, h2, h3, h4⟩ := Create_lookup hcreate (Or.inl rfl)
    exact ⟨cert, key, w3, _, hgen, h1, h2, h3, h4⟩
  · intro name dns w0 wf hwf0 hplain hcreate
    obtain ⟨cert, key, w3, w4, work, hgen, _, _, h1, h2, h3, h4, _⟩ :=
      Create_files hwf0 hplain hcreate (Or.inl rfl)
    exact ⟨cert, key, w3, _, hgen, ⟨_, h1⟩, ⟨_, h3⟩, ⟨_, h2⟩, ⟨_, h4⟩⟩

set_option maxRecDepth 1000000 in
/-- C9, witness: the import command of `importFailsEnv` exits with status 1 on the small
working directory. -/
theorem AddCertificateToWindowsCAStore_import_failure_witness :
    (AddCertificateToWindowsCAStore importFailsEnv "localhost" ["Local MyCompany Cert"]
      (.raw [1]) smallWorld).1 =
      some ("failed to add certificate to Windows CA store: exit status 1, output: "
        ++ "Import-Certificate : Access is denied") ∧
    regularFile "localhost.crt" [1] 500 ∈
      (AddCertificateToWindowsCAStore importFailsEnv "localhost" ["Local MyCompany Cert"]
        (.raw [1]) smallWorld).2.files := by
  have h := AddCertificateToWindowsCAStore_import_failure importFailsEnv "localhost"
    ["Local MyCompany Cert"] (.raw [1]) smallWorld
    (RemoveCertificateFromCurrentUser importFailsEnv ["Local MyCompany Cert"] smallWorld).2
    (osWriteFile importFailsEnv "certificate/localhost_ca_20240101_001640.pem"
      (.raw [1]) 0o644
      { (RemoveCertificateFromCurrentUser importFailsEnv ["Local MyCompany Cert"] smallWorld).2
        with tick := 1 }).2
    "exit status 1" (by decide) (by decide) (by decide)
  obtain ⟨⟨msg, h1, h2, _⟩, h3, _⟩ := h
  refine ⟨?_, h3 _ (by decide) (fun s => crt_ne_pem "localhost" s)⟩
  rw [h1, h2]
  decide

/-! ## C8 -/

set_option maxRecDepth 1000000 in
/-- C8, counterexample: two successful runs in a row with the default name, starting next to
an archive of 100 files that are all newer than the files of the first run, the files of a
run being written at distinct instants. The second run moves the five files of the first
run to `old`, finds 105 entries there and deletes the oldest,
`localhost_20240101_001641.crt`: after the second run the certificate of the first
timestamped pair is in neither directory, and the only timestamped pair is that of the
second run. -/
theorem two_runs_counterexample :
    (calmRun crowdedWorld).1 = .done ∧
    (calmRun (calmRun crowdedWorld).2).1 = .done ∧
    (calmRun crowdedWorld).2.files.map Entry.name =
      ["old", "localhost_20240101_001641.crt", "localhost_20240101_001641.key", "localhost.crt",
        "localhost.key", "localhost_ca_20240101_001646.pem"] ∧
    (calmRun (calmRun crowdedWorld).2).2.files.map Entry.name =
      ["old", "localhost_20240101_001649.crt", "localhost_20240101_001649.key", "localhost.crt",
        "localhost.key", "localhost_ca_20240101_001654.pem"] ∧
    ((calmRun (calmRun crowdedWorld).2).2.archived.map Entry.name).filter
        (fun n => n.toList.take 9 == "localhost".toList) =
      ["localhost.crt", "localhost.key", "localhost_20240101_001641.key",
        "localhost_ca_20240101_001646.pem"] ∧
    (calmRun (calmRun crowdedWorld).2).2.outside = [] ∧
    ∀ e ∈ (calmRun (calmRun crowdedWorld).2).2.files ++
      (calmRun (calmRun crowdedWorld).2).2.archived, e.name ≠ "localhost_20240101_001641.crt" := by
  decide

/-- C8, amended: for two successful runs in a row with the same name, a name without
separator, from a well-formed world, after the second run the working directory lists
`<base>.crt` and `<base>.key` once each, holding the certificate and the key generated by
the second run, together with the timestamped pair of the second run; the timestamped pair
of the first run was moved to `old`, where each of its files is found with the content of
the first run unless it is the one entry the second run deleted. The second run deletes at
most one entry of `old`, and none when the entries of `old` and the artifact files of the
working directory after the first run number at most 100 together. -/
theorem CreateSelfSignedCertificateFile_twice (env1 env2 : Env) (certName : String)
    (org1 dns1 org2 dns2 : List String) (w0 w1 w2 : World) (hwf : w0.WF)
    (hplain1 : PlainName env1 certName) (hplain2 : PlainName env2 certName)
    (hfirst : CreateSelfSignedCertificateFile env1 certName org1 dns1 w0 = (.done, w1))
    (hsecond : CreateSelfSignedCertificateFile env2 certName org2 dns2 w1 = (.done, w2)) :
    ∃ cert1 key1 g1 stamp1 cert2 key2 g2 stamp2 deleted,
      GenerateSelfSignedCertificate env1 org1 dns1 w0 = (.ok (cert1, key1), g1) ∧
      GenerateSelfSignedCertificate env2 org2 dns2 w1 = (.ok (cert2, key2), g2) ∧
      (∃ t, (⟨baseName certName ++ ".crt", false, cert2, createMode env2 0o644, t⟩ : Entry)
        ∈ w2.files) ∧
      (∃ t, (⟨baseName certName ++ ".key", false, key2, createMode env2 0o600, t⟩ : Entry)
        ∈ w2.files) ∧
      (w2.files.map Entry.name).Nodup ∧
      (∃ t, (⟨baseName certName ++ "_" ++ stamp2 ++ ".crt", false, cert2, createMode env2 0o644, t⟩ :
        Entry) ∈ w2.files) ∧
      (∃ t, (⟨baseName certName ++ "_" ++ stamp2 ++ ".key", false, key2, createMode env2 0o600, t⟩ :
        Entry) ∈ w2.files) ∧
      (∃ t, (⟨baseName certName ++ "_" ++ stamp1 ++ ".crt", false, cert1, createMode env1 0o644, t⟩ :
        Entry) ∈ w1.files) ∧
      (∃ t, (⟨baseName certName ++ "_" ++ stamp1 ++ ".key", false, key1, createMode env1 0o600, t⟩ :
        Entry) ∈ w1.files) ∧
      deleted.length ≤ 1 ∧
      (w1.oldCount + w1.artifactCount env2 ≤ 100 → deleted = []) ∧
      (∀ d ∈ deleted, ∀ e ∈ w2.archived, e.name ≠ d.name) ∧
      (∃ t,
        (⟨baseName certName ++ "_" ++ stamp1 ++ ".crt", false, cert1, createMode env1 0o644, t⟩ :
          Entry) ∈ w2.archived ∨
        (⟨baseName certName ++ "_" ++ stamp1 ++ ".crt", false, cert1, createMode env1 0o644, t⟩ :
          Entry) ∈ deleted) ∧
      (∃ t,
        (⟨baseName certName ++ "_" ++ stamp1 ++ ".key", false, key1, createMode env1 0o600, t⟩ :
          Entry) ∈ w2.archived ∨
        (⟨baseName certName ++ "_" ++ stamp1 ++ ".key", false, key1, createMode env1 0o600, t⟩ :
          Entry) ∈ deleted) := by
  obtain ⟨cert1, key1, g1, v1, work1, hgen1, _, _, a1, a2, _, _, hnd1, hnd1o, _⟩ :=
    Create_files hwf hplain1 hfirst (Or.inr (Or.inr rfl))
  have hwf1 : w1.WF := ⟨hnd1, hnd1o⟩
  obtain ⟨cert2, key2, g2, v2, work2, hgen2, hcm, hmove, b1, b2, b3, b4, hnd2, _, hold2, _⟩ :=
    Create_files hwf1 hplain2 hsecond (Or.inr (Or.inr rfl))
  obtain ⟨_, _, _, _, hg2c, hg2o, _⟩ := Generate_ok hgen2
  have hg2f : g2.files = w1.files := by simp [World.files, hg2c]
  have hg2a : g2.archived = w1.archived := by simp [World.archived, hg2o]
  have hwfg : g2.WF := by
    unfold World.WF
    rw [hg2c, hg2o]
    exact hwf1
  obtain ⟨hma, _, hmf, hml⟩ := osMkdirAll_files env2 (filepathJoin env2 "certificate" "old") 0o700 g2
  have hwfm := osMkdirAll_WF env2 (filepathJoin env2 "certificate" "old") 0o700 hwfg
  generalize osMkdirAll env2 (filepathJoin env2 "certificate" "old") 0o700 g2 = wm
    at hcm hmove hma hmf hml hwfm
  have hwmf : wm.files = work2 := by simp [World.files, hcm]
  obtain ⟨old, hom, _⟩ := moveOld_ok hwfm hcm hmove
  obtain ⟨old1, deleted, _, ho1, _, hdl, hroom, hgone, hmem⟩ :=
    moveOld_ok_deleted hwfm hcm hom hmove
  have hndw : (work2.map Entry.name).Nodup := by
    have := hwfm.1
    rwa [hcm] at this
  have harch : w2.archived = old1 := by
    simp [World.archived, hold2, ho1]
  have hin : ∀ e ∈ w1.files, movable env2 e = true → e ∈ w2.archived ∨ e ∈ deleted := by
    intro e he hm
    rw [harch]
    apply (hmem e).mp
    rw [mem_foldl_archive_iff _ (names_moved_nodup hndw)]
    left
    apply mem_moved_iff.mpr
    refine ⟨?_, hm⟩
    rw [← hwmf]
    apply hmf
    rw [hg2f]
    exact he
  refine ⟨cert1, key1, g1, formatTimestamp (env1.localTime (env1.clock v1.tick)), cert2, key2, g2,
    formatTimestamp (env2.localTime (env2.clock v2.tick)), deleted, hgen1, hgen2, ⟨_, b3⟩, ⟨_, b4⟩,
    hnd2, ⟨_, b1⟩, ⟨_, b2⟩, ⟨_, a1⟩, ⟨_, a2⟩, hdl, ?_, ?_, ⟨_, hin _ a1 ?_⟩, ⟨_, hin _ a2 ?_⟩⟩
  · intro hr
    apply hroom
    have h1 : old.length = w1.oldCount := by
      have : wm.archived = old := by simp [World.archived, hom]
      rw [← this, hma, hg2a]
      rfl
    have h2 : (work2.filter (movable env2)).length = w1.artifactCount env2 := by
      rw [← hwmf, hml, hg2f]
      rfl
    rw [h1, h2]
    exact hr
  · rw [harch]
    exact hgone
  · simp [movable, hasCertExt_crt]
  · simp [movable, hasCertExt_key]

set_option maxRecDepth 1000000 in
/-- C8, witness: two runs in a row next to a full archive of newer files; the second run
deletes one entry. -/
theorem CreateSelfSignedCertificateFile_twice_witness :
    ∃ cert1 key1 g1 stamp1 cert2 key2 g2 stamp2 deleted,
      GenerateSelfSignedCertificate calmEnv ["Local MyCompany Cert"] ["localhost"] crowdedWorld =
        (.ok (cert1, key1), g1) ∧
      GenerateSelfSignedCertificate calmEnv ["Local MyCompany Cert"] ["localhost"]
        (calmRun crowdedWorld).2 = (.ok (cert2, key2), g2) ∧
      (∃ t, (⟨baseName "" ++ ".crt", false, cert2, createMode calmEnv 0o644, t⟩ : Entry) ∈
        (calmRun (calmRun crowdedWorld).2).2.files) ∧
      (∃ t, (⟨baseName "" ++ ".key", false, key2, createMode calmEnv 0o600, t⟩ : Entry) ∈
        (calmRun (calmRun crowdedWorld).2).2.files) ∧
      ((calmRun (calmRun crowdedWorld).2).2.files.map Entry.name).Nodup ∧
      (∃ t, (⟨baseName "" ++ "_" ++ stamp2 ++ ".crt", false, cert2, createMode calmEnv 0o644, t⟩ :
        Entry) ∈ (calmRun (calmRun crowdedWorld).2).2.files) ∧
      (∃ t, (⟨baseName "" ++ "_" ++ stamp2 ++ ".key", false, key2, createMode calmEnv 0o600, t⟩ :
        Entry) ∈ (calmRun (calmRun crowdedWorld).2).2.files) ∧
      (∃ t, (⟨baseName "" ++ "_" ++ stamp1 ++ ".crt", false, cert1, createMode calmEnv 0o644, t⟩ :
        Entry) ∈ (calmRun crowdedWorld).2.files) ∧
      (∃ t, (⟨baseName "" ++ "_" ++ stamp1 ++ ".key", false, key1, createMode calmEnv 0o600, t⟩ :
        Entry) ∈ (calmRun crowdedWorld).2.files) ∧
      deleted.length ≤ 1 ∧
      ((calmRun crowdedWorld).2.oldCount + (calmRun crowdedWorld).2.artifactCount calmEnv ≤ 100 →
        deleted = []) ∧
      (∀ d ∈ deleted, ∀ e ∈ (calmRun (calmRun crowdedWorld).2).2.archived, e.name ≠ d.name) ∧
      (∃ t,
        (⟨baseName "" ++ "_" ++ stamp1 ++ ".crt", false, cert1, createMode calmEnv 0o644, t⟩ :
          Entry) ∈ (calmRun (calmRun crowdedWorld).2).2.archived ∨
        (⟨baseName "" ++ "_" ++ stamp1 ++ ".crt", false, cert1, createMode calmEnv 0o644, t⟩ :
          Entry) ∈ deleted) ∧
      (∃ t,
        (⟨baseName "" ++ "_" ++ stamp1 ++ ".key", false, key1, createMode calmEnv 0o600, t⟩ :
          Entry) ∈ (calmRun (calmRun crowdedWorld).2).2.archived ∨
        (⟨baseName "" ++ "_" ++ stamp1 ++ ".key", false, key1, createMode calmEnv 0o600, t⟩ :
          Entry) ∈ deleted) :=
  CreateSelfSignedCertificateFile_twice calmEnv calmEnv "" ["Local MyCompany Cert"] ["localhost"]
    ["Local MyCompany Cert"] ["localhost"] crowdedWorld
    (calmRun crowdedWorld).2
    (calmRun (calmRun crowdedWorld).2).2
    (by decide) (by decide) (by decide) (by decide) (by decide)

end SelfSignCert
